import Mathlib

/-!
# Package codec of `go-apkdk-core`

A shallow embedding of `dataFormats.go`, `timeUtils.go`, `dataPackage.go`,
`dataUtils.go` and `networkPackage.go`.

Conventions of the embedding:

* a Go `[]byte` is a `List Nat`; a byte is a natural below 256 (`IsBytes`);
* `uint16`, `uint32`, `uint64` values are naturals, reduced with an explicit
  `% 2 ^ w` wherever the Go arithmetic can wrap; `int32`, `int64` values are
  integers obtained through `toInt32`, `toInt64`;
* Go `int` is the 64-bit `int` of the usual targets. It only holds offsets into
  a slice and record sizes of at most `13 + 8 * (2 ^ 32 - 1)`, so it never
  wraps and is modelled by `Nat`;
* a Go map is an association list with distinct keys (`GoMap`);
* a `time.Time` is its signed 64-bit count of nanoseconds since the epoch;
* a run-time panic (index or slice bound out of range) is the value `none` of
  the record helpers and the outcome `panic` of the decoders.
-/

namespace Core

/-! ## Bytes and fixed-width integers -/

/-- A byte sequence proper: every entry is below 256. -/
def IsBytes (bs : List Nat) : Prop := ∀ b ∈ bs, b < 256

instance (bs : List Nat) : Decidable (IsBytes bs) := by
  unfold IsBytes; infer_instance

/-- Conversion `int32(x)` of a `uint32` value. -/
def toInt32 (u : Nat) : Int :=
  if u % 2 ^ 32 < 2 ^ 31 then ((u % 2 ^ 32 : Nat) : Int) else ((u % 2 ^ 32 : Nat) : Int) - 2 ^ 32

/-- Conversion `int16(x)` of a `uint16` value. -/
def toInt16 (u : Nat) : Int :=
  if u % 2 ^ 16 < 2 ^ 15 then ((u % 2 ^ 16 : Nat) : Int) else ((u % 2 ^ 16 : Nat) : Int) - 2 ^ 16

/-- Conversion `uint32(x)` of an `int32` value. -/
def ofInt32 (z : Int) : Nat := (z % 2 ^ 32).toNat

/-- Conversion `int64(x)` of a `uint64` value. -/
def toInt64 (u : Nat) : Int :=
  if u % 2 ^ 64 < 2 ^ 63 then ((u % 2 ^ 64 : Nat) : Int) else ((u % 2 ^ 64 : Nat) : Int) - 2 ^ 64

/-- Little-endian value of the first two entries (absent entries count as 0). -/
def le16 (b : List Nat) : Nat :=
  (b.getD 0 0 + 2 ^ 8 * b.getD 1 0) % 2 ^ 16

/-- Little-endian value of the first four entries. -/
def le32 (b : List Nat) : Nat :=
  (b.getD 0 0 + 2 ^ 8 * b.getD 1 0 + 2 ^ 16 * b.getD 2 0 + 2 ^ 24 * b.getD 3 0) % 2 ^ 32

/-- Little-endian value of the first eight entries. -/
def le64 (b : List Nat) : Nat :=
  (b.getD 0 0 + 2 ^ 8 * b.getD 1 0 + 2 ^ 16 * b.getD 2 0 + 2 ^ 24 * b.getD 3 0
    + 2 ^ 32 * b.getD 4 0 + 2 ^ 40 * b.getD 5 0 + 2 ^ 48 * b.getD 6 0
    + 2 ^ 56 * b.getD 7 0) % 2 ^ 64

namespace LittleEndian

/-- Go `binary.LittleEndian.Uint16`: panics on fewer than two bytes. -/
def Uint16 (b : List Nat) : Option Nat :=
  if 2 ≤ b.length then some (le16 b) else none

/-- Go `binary.LittleEndian.Uint32`: panics on fewer than four bytes. -/
def Uint32 (b : List Nat) : Option Nat :=
  if 4 ≤ b.length then some (le32 b) else none

/-- Go `binary.LittleEndian.Uint64`: panics on fewer than eight bytes. -/
def Uint64 (b : List Nat) : Option Nat :=
  if 8 ≤ b.length then some (le64 b) else none

/-- Go `binary.LittleEndian.PutUint16`, as the bytes written. -/
def PutUint16 (v : Nat) : List Nat := [v % 256, v / 2 ^ 8 % 256]

/-- Go `binary.LittleEndian.PutUint32`, as the bytes written. -/
def PutUint32 (v : Nat) : List Nat :=
  [v % 256, v / 2 ^ 8 % 256, v / 2 ^ 16 % 256, v / 2 ^ 24 % 256]

/-- Go `binary.LittleEndian.PutUint64`, as the bytes written. -/
def PutUint64 (v : Nat) : List Nat :=
  [v % 256, v / 2 ^ 8 % 256, v / 2 ^ 16 % 256, v / 2 ^ 24 % 256,
   v / 2 ^ 32 % 256, v / 2 ^ 40 % 256, v / 2 ^ 48 % 256, v / 2 ^ 56 % 256]

end LittleEndian

/-- Slice expression `b[k:]`: panics when `k` exceeds the length. -/
def sliceFrom (b : List Nat) (k : Nat) : Option (List Nat) :=
  if k ≤ b.length then some (b.drop k) else none

/-- Index expression `b[k]`: panics when `k` is not below the length. -/
def byteAt (b : List Nat) (k : Nat) : Option Nat := b.get? k

/-! ## `dataFormats.go` -/

def PackageFormatData : Nat := 0
def PackageFormatEvents : Nat := 1
def PackageFormatFullFailureStates : Nat := 2
def PackageFormatFullAccidentStates : Nat := 5
def PackageFormatFullObjectStates : Nat := 6
def PackageFormatHeartbeat : Nat := 7
def PackageFormatChangeObjectStates : Nat := 8
def PackageFormatChangeFailureStates : Nat := 9
def PackageFormatChangeNotRespondingDevices : Nat := 10

def PackageEventTypeFailureInfo : Nat := 1
def PackageEventTypeTimeMeasurement : Nat := 2
def PackageEventTypeNoConnectionWithDevice : Nat := 3
def PackageEventTypeFailurePrognosisAlgorithmInfo : Nat := 4
def PackageEventTypeNwaLeaveInfo : Nat := 5
def PackageEventTypeNwaStateChangeInfo : Nat := 6
def PackageEventTypeAccidentInfo : Nat := 7
def PackageEventTypeObjectState : Nat := 8

/-! ## `timeUtils.go` -/

/-- Go `GetTimeFromUnixMicroseconds`: `time.Unix(0, int64(mks*1e3))`, the product
taken in `uint64`. -/
def GetTimeFromUnixMicroseconds (mks : Nat) : Int :=
  toInt64 (mks * 1000 % 2 ^ 64)

/-! ## The package frame -/

/-- The struct `DataPackage`. -/
structure DataPackage where
  Time : Nat
  DeviceId : Int
  SensorCount : Nat
  BitsPerSensor : Nat
  Format : Nat
  DataSize : Nat
  Data : List Nat
  deriving DecidableEq, Repr

/-- The zero value `DataPackage{}`. -/
def DataPackage.zero : DataPackage :=
  { Time := 0, DeviceId := 0, SensorCount := 0, BitsPerSensor := 0, Format := 0,
    DataSize := 0, Data := [] }

/-- The values a `DataPackage` can hold: every field within its Go type. -/
def DataPackage.WellTyped (p : DataPackage) : Prop :=
  p.Time < 2 ^ 64 ∧ -(2 ^ 31) ≤ p.DeviceId ∧ p.DeviceId < 2 ^ 31 ∧
  p.SensorCount < 2 ^ 16 ∧ p.BitsPerSensor < 2 ^ 8 ∧ p.Format < 2 ^ 8 ∧
  p.DataSize < 2 ^ 16 ∧ IsBytes p.Data

instance (p : DataPackage) : Decidable p.WellTyped := by
  unfold DataPackage.WellTyped; infer_instance

/-- Go `DataPackage.Write`, as the bytes appended to the writer (a `bufio.Writer`
over a `bytes.Buffer` never fails). -/
def DataPackage.Write (data : DataPackage) : List Nat :=
  LittleEndian.PutUint64 data.Time
    ++ LittleEndian.PutUint32 (ofInt32 data.DeviceId)
    ++ LittleEndian.PutUint16 data.SensorCount
    ++ [data.BitsPerSensor % 256]
    ++ [data.Format % 256]
    ++ LittleEndian.PutUint16 data.DataSize
    ++ (if data.DataSize > 0 then data.Data else [])

/-- Go `DataPackage.Bytes`: the content of the buffer after `Write` and `Flush`. -/
def DataPackage.Bytes (data : DataPackage) : List Nat := data.Write

/-- Go `DataPackage.IsCompressed`; the products are `uint16` products. -/
def DataPackage.IsCompressed (data : DataPackage) : Bool :=
  if data.Format ≠ PackageFormatData then false
  else if data.BitsPerSensor = 2 then
    let nExtraBytes : Nat := if data.SensorCount % 4 ≠ 0 then 1 else 0
    decide (data.DataSize ≠ (data.SensorCount / 4 + nExtraBytes) % 2 ^ 16)
  else if data.BitsPerSensor = 8 then decide (data.DataSize ≠ data.SensorCount)
  else if data.BitsPerSensor = 16 then decide (data.DataSize ≠ data.SensorCount * 2 % 2 ^ 16)
  else if data.BitsPerSensor = 32 then decide (data.DataSize ≠ data.SensorCount * 4 % 2 ^ 16)
  else false

/-! ## Reading a package from a `bytes.Reader` -/

/-- The state of a `bytes.Reader`: the underlying bytes and the read position. -/
structure Reader where
  s : List Nat
  i : Nat
  deriving DecidableEq, Repr

/-- Go `bytes.NewReader`. -/
def NewReader (b : List Nat) : Reader := { s := b, i := 0 }

/-- The errors `DataPackage.Read` can return. -/
inductive ReadError where
  | EOF
  | ErrUnexpectedEOF
  | dataSize
  deriving DecidableEq, Repr

/-- Go `bytes.Reader.Read` into a buffer of `n > 0` bytes: at the end of the input
it reports `io.EOF`; otherwise it copies what is available, at most `n` bytes,
and advances by as much. Returns the bytes copied. -/
def Reader.Read (r : Reader) (n : Nat) : List Nat × Reader × Option ReadError :=
  if r.i ≥ r.s.length then ([], r, some ReadError.EOF)
  else
    let c := (r.s.drop r.i).take n
    (c, { r with i := r.i + c.length }, none)

/-- Go `io.ReadFull` on a `bytes.Reader` for a buffer of `n > 0` bytes, as
`binary.Read` calls it: the available bytes are consumed even when they are too
few, and the error is then `io.EOF` (nothing read) or `io.ErrUnexpectedEOF`. -/
def ReadFull (r : Reader) (n : Nat) : Reader × Except ReadError (List Nat) :=
  match r.Read n with
  | (c, r1, _) =>
    if c.length ≥ n then (r1, .ok c)
    else if c.length = 0 then (r1, .error ReadError.EOF)
    else (r1, .error ReadError.ErrUnexpectedEOF)

/-- Go `DataPackage.Read`: the package after the call, the reader after the call
and the error returned. -/
def DataPackage.Read (data : DataPackage) (reader : Reader) :
    DataPackage × Reader × Option ReadError :=
  match ReadFull reader 8 with
  | (reader, .error e) => (data, reader, some e)
  | (reader, .ok bs) =>
  let data := { data with Time := le64 bs }
  match ReadFull reader 4 with
  | (reader, .error e) => (data, reader, some e)
  | (reader, .ok bs) =>
  let data := { data with DeviceId := toInt32 (le32 bs) }
  match ReadFull reader 2 with
  | (reader, .error e) => (data, reader, some e)
  | (reader, .ok bs) =>
  let data := { data with SensorCount := le16 bs }
  match ReadFull reader 1 with
  | (reader, .error e) => (data, reader, some e)
  | (reader, .ok bs) =>
  let data := { data with BitsPerSensor := bs.getD 0 0 }
  match ReadFull reader 1 with
  | (reader, .error e) => (data, reader, some e)
  | (reader, .ok bs) =>
  let data := { data with Format := bs.getD 0 0 }
  match ReadFull reader 2 with
  | (reader, .error e) => (data, reader, some e)
  | (reader, .ok bs) =>
  let data := { data with DataSize := le16 bs }
  if data.DataSize > 0 then
    match reader.Read data.DataSize with
    | (c, reader, err) =>
      let data := { data with Data := c ++ List.replicate (data.DataSize - c.length) 0 }
      (data, reader, if c.length ≠ data.DataSize then some ReadError.dataSize else err)
  else (data, reader, none)

/-! ## Go maps -/

/-- A Go map as an association list with distinct keys, the most recently
assigned key first. -/
structure GoMap (κ ν : Type) where
  entries : List (κ × ν)
  deriving DecidableEq, Repr

/-- The map `make(map[K]V)`. -/
def GoMap.empty {κ ν : Type} : GoMap κ ν := ⟨[]⟩

/-- The assignment `m[k] = v`. -/
def GoMap.set {κ ν : Type} [DecidableEq κ] (m : GoMap κ ν) (k : κ) (v : ν) : GoMap κ ν :=
  ⟨(k, v) :: m.entries.filter (fun e => decide (e.1 ≠ k))⟩

/-- The lookup `m[k]`, `none` for an absent key. -/
def GoMap.get? {κ ν : Type} [DecidableEq κ] (m : GoMap κ ν) (k : κ) : Option ν :=
  (m.entries.find? (fun e => decide (e.1 = k))).map (fun e => e.2)

/-- The keys of the map. -/
def GoMap.keys {κ ν : Type} (m : GoMap κ ν) : List κ := m.entries.map (fun e => e.1)

/-! ## Event records -/

structure ObjectFailureEventInfo where
  IsStarted : Bool
  ObjectId : Nat
  FailureId : Nat
  EventTime : Int
  deriving DecidableEq, Repr

structure ObjectFpEventInfo where
  ObjectId : Nat
  AlgorithmId : Nat
  StepIndex : Int
  EventTime : Int
  deriving DecidableEq, Repr

structure ObjectNwaStateLeaveEventInfo where
  ObjectId : Nat
  AlgorithmId : Nat
  StateId : Int
  IsStarted : Bool
  EventTime : Int
  deriving DecidableEq, Repr

structure ObjectAccidentEventInfo where
  ObjectId : Nat
  AccidentType : Nat
  AlgorithmId : Int
  StartTime : Int
  EndTime : Int
  deriving DecidableEq, Repr

structure ObjectNwaStateChangeEventInfo where
  ObjectId : Nat
  NwaStateId : Int
  EventTime : Int
  deriving DecidableEq, Repr

structure ObjectFailureKey where
  ObjectId : Nat
  FailureId : Nat
  deriving DecidableEq, Repr

structure ObjectAccidentKey where
  ObjectId : Nat
  AccidentId : Int
  deriving DecidableEq, Repr

/-- Go `getObjectStateEvent`. -/
def getObjectStateEvent (data : List Nat) : Option (Nat × Nat) := do
  let objectId ← LittleEndian.Uint32 data
  let stateValue ← (sliceFrom data 4).bind LittleEndian.Uint16
  pure (objectId, stateValue)

/-- Go `getObjectFailureEvent`. -/
def getObjectFailureEvent (data : List Nat) : Option ObjectFailureEventInfo := do
  let objectId ← LittleEndian.Uint32 data
  let failureId ← (sliceFrom data 4).bind LittleEndian.Uint32
  let flag ← byteAt data 8
  let t ← (sliceFrom data 9).bind LittleEndian.Uint64
  pure { IsStarted := if flag = 0 then false else true
         ObjectId := objectId
         FailureId := failureId
         EventTime := GetTimeFromUnixMicroseconds t }

/-- Go `getObjectFpEvent`. -/
def getObjectFpEvent (data : List Nat) : Option ObjectFpEventInfo := do
  let algorithmId ← LittleEndian.Uint32 data
  let objectId ← (sliceFrom data 4).bind LittleEndian.Uint32
  let stepIndex ← (sliceFrom data 8).bind LittleEndian.Uint32
  let t ← (sliceFrom data 12).bind LittleEndian.Uint64
  pure { ObjectId := objectId
         AlgorithmId := algorithmId
         StepIndex := toInt32 stepIndex
         EventTime := GetTimeFromUnixMicroseconds t }

/-- Go `getNwaChangeStateEvent`. -/
def getNwaChangeStateEvent (data : List Nat) : Option (Nat × Int) := do
  let objectId ← LittleEndian.Uint32 data
  let stateId ← (sliceFrom data 4).bind LittleEndian.Uint32
  pure (objectId, toInt32 stateId)

/-- Go `getObjectNwaLeaveEvent`. -/
def getObjectNwaLeaveEvent (data : List Nat) : Option ObjectNwaStateLeaveEventInfo := do
  let objectId ← LittleEndian.Uint32 data
  let algorithmId ← (sliceFrom data 4).bind LittleEndian.Uint32
  let stateId ← (sliceFrom data 8).bind LittleEndian.Uint32
  let flag ← byteAt data 12
  let t ← (sliceFrom data 13).bind LittleEndian.Uint64
  pure { ObjectId := objectId
         AlgorithmId := algorithmId
         StateId := toInt32 stateId
         IsStarted := if flag = 0 then false else true
         EventTime := GetTimeFromUnixMicroseconds t }

/-- Go `getObjectAccidentEvent`. The `binary.Read` of `algorithmId` has its error
ignored: on fewer than four bytes the variable keeps its zero value. -/
def getObjectAccidentEvent (data : List Nat) : Option ObjectAccidentEventInfo := do
  let accidentType ← byteAt data 0
  let d1 ← sliceFrom data 1
  let algorithmId : Int := if 4 ≤ d1.length then toInt32 (le32 d1) else 0
  let objectId ← (sliceFrom data 5).bind LittleEndian.Uint32
  let startTime ← (sliceFrom data 9).bind LittleEndian.Uint64
  let endTime ← (sliceFrom data 17).bind LittleEndian.Uint64
  pure { ObjectId := objectId
         AccidentType := accidentType
         AlgorithmId := algorithmId
         StartTime := GetTimeFromUnixMicroseconds startTime
         EndTime := GetTimeFromUnixMicroseconds endTime }

/-! ## The event aggregate -/

/-- The struct `PackageEvents`. -/
structure PackageEvents where
  ObjectStates : GoMap Nat Nat
  ObjectFailuresChangeState : GoMap ObjectFailureKey ObjectFailureEventInfo
  ObjectAccidentsChangeState : GoMap ObjectAccidentKey ObjectAccidentEventInfo
  ObjectFpChangeState : GoMap Nat ObjectFpEventInfo
  ObjectNwaChangeState : GoMap Nat ObjectNwaStateLeaveEventInfo
  ObjectNwaStateLeaveEnter : GoMap Nat ObjectNwaStateChangeEventInfo
  deriving DecidableEq, Repr

/-- The aggregate `ParseEventsPackage` starts from: six empty maps. -/
def PackageEvents.empty : PackageEvents :=
  { ObjectStates := GoMap.empty
    ObjectFailuresChangeState := GoMap.empty
    ObjectAccidentsChangeState := GoMap.empty
    ObjectFpChangeState := GoMap.empty
    ObjectNwaChangeState := GoMap.empty
    ObjectNwaStateLeaveEnter := GoMap.empty }

/-- The errors of the payload decoders, one per `fmt.Errorf` site. -/
inductive ParseError where
  | expectedEventsFormat
  | unknownMarker (marker : Nat)
  | incorrectPackageSize
  | incorrectNwaSize
  | expectedFullStateFormat
  | eventsDataSize
  | unexpectedMarker (marker : Nat)
  | expectedFullFailureFormat
  | failureDataSize
  | unexpectedFailureMarker (marker : Nat)
  deriving DecidableEq, Repr

/-- What a call of a decoder does: it returns the pair `(value, err)`, where
`none` stands for `nil`, or it panics, or the model runs out of fuel. -/
inductive Outcome (α : Type) where
  | ret (value : Option α) (err : Option ParseError)
  | panic
  | outOfFuel
  deriving DecidableEq, Repr

/-- Go `getEventRecordSize`: the pair `(size, err)`. -/
def getEventRecordSize (marker : Nat) : Nat × Option ParseError :=
  if marker = PackageEventTypeFailureInfo then (18, none)
  else if marker = PackageEventTypeTimeMeasurement then (13, none)
  else if marker = PackageEventTypeNoConnectionWithDevice then (18, none)
  else if marker = PackageEventTypeFailurePrognosisAlgorithmInfo then (21, none)
  else if marker = PackageEventTypeNwaLeaveInfo then (22, none)
  else if marker = PackageEventTypeNwaStateChangeInfo then (13, none)
  else if marker = PackageEventTypeAccidentInfo then (26, none)
  else if marker = PackageEventTypeObjectState then (7, none)
  else (0, some (ParseError.unknownMarker marker))

/-- The inner loop of the tag-6 case, `for i = 0; i < nObjectStates; i++`, with
`remaining` iterations left and the `uint32` counter at `j`. The counter
shadows the payload offset, so the slice expression `data.Data[i*8+13:]` is
taken from the `uint32` value `j*8+13`. -/
def nwaStatesLoop (data : List Nat) (nwaStateEventTime : Int) :
    Nat → Nat → GoMap Nat ObjectNwaStateChangeEventInfo →
      Option (GoMap Nat ObjectNwaStateChangeEventInfo)
  | 0, _, m => some m
  | remaining + 1, j, m =>
    match (sliceFrom data ((j * 8 + 13) % 2 ^ 32)).bind getNwaChangeStateEvent with
    | none => none
    | some (oId, stateId) =>
      nwaStatesLoop data nwaStateEventTime remaining (j + 1)
        (m.set oId { ObjectId := oId, NwaStateId := stateId, EventTime := nwaStateEventTime })

/-- What one iteration of the record loop does. -/
inductive Step where
  | next (i : Nat) (result : PackageEvents)
  | fail (err : ParseError)
  | panic
  deriving DecidableEq, Repr

/-- The body of the loop of `ParseEventsPackage` at offset `i < len(data)`. -/
def eventsStep (addChangeObjectStateEventsOnly : Bool) (data : List Nat) (i : Nat)
    (result : PackageEvents) : Step :=
  match byteAt data i with
  | none => Step.panic
  | some marker =>
  match getEventRecordSize marker with
  | (_, some err) => Step.fail err
  | (size, none) =>
  if i + size > data.length then Step.fail ParseError.incorrectPackageSize
  else if marker = PackageEventTypeFailureInfo then
    if !addChangeObjectStateEventsOnly then
      match (sliceFrom data (i + 1)).bind getObjectFailureEvent with
      | none => Step.panic
      | some failureEvent =>
        Step.next (i + size) { result with
          ObjectFailuresChangeState := result.ObjectFailuresChangeState.set
            { ObjectId := failureEvent.ObjectId, FailureId := failureEvent.FailureId }
            failureEvent }
    else Step.next (i + size) result
  else if marker = PackageEventTypeAccidentInfo then
    if !addChangeObjectStateEventsOnly then
      match (sliceFrom data (i + 1)).bind getObjectAccidentEvent with
      | none => Step.panic
      | some accidentEvent =>
        Step.next (i + size) { result with
          ObjectAccidentsChangeState := result.ObjectAccidentsChangeState.set
            { ObjectId := accidentEvent.ObjectId, AccidentId := accidentEvent.AlgorithmId }
            accidentEvent }
    else Step.next (i + size) result
  else if marker = PackageEventTypeFailurePrognosisAlgorithmInfo then
    if !addChangeObjectStateEventsOnly then
      match (sliceFrom data (i + 1)).bind getObjectFpEvent with
      | none => Step.panic
      | some fpEvent =>
        Step.next (i + size) { result with
          ObjectFpChangeState := result.ObjectFpChangeState.set fpEvent.ObjectId fpEvent }
    else Step.next (i + size) result
  else if marker = PackageEventTypeNwaLeaveInfo then
    if !addChangeObjectStateEventsOnly then
      match (sliceFrom data (i + 1)).bind getObjectNwaLeaveEvent with
      | none => Step.panic
      | some nwaEvent =>
        Step.next (i + size) { result with
          ObjectNwaChangeState := result.ObjectNwaChangeState.set nwaEvent.ObjectId nwaEvent }
    else Step.next (i + size) result
  else if marker = PackageEventTypeNwaStateChangeInfo then
    match (sliceFrom data (i + 1)).bind LittleEndian.Uint64 with
    | none => Step.panic
    | some t =>
    let nwaStateEventTime := GetTimeFromUnixMicroseconds t
    match (sliceFrom data (i + 9)).bind LittleEndian.Uint32 with
    | none => Step.panic
    | some nObjectStates =>
    let size := size + nObjectStates * 8
    if i + size > data.length then Step.fail ParseError.incorrectNwaSize
    else if !addChangeObjectStateEventsOnly then
      match nwaStatesLoop data nwaStateEventTime nObjectStates 0
          result.ObjectNwaStateLeaveEnter with
      | none => Step.panic
      | some m => Step.next (i + size) { result with ObjectNwaStateLeaveEnter := m }
    else Step.next (i + size) result
  else if marker = PackageEventTypeObjectState then
    match (sliceFrom data (i + 1)).bind getObjectStateEvent with
    | none => Step.panic
    | some (oId, v) =>
      Step.next (i + size) { result with ObjectStates := result.ObjectStates.set oId v }
  else Step.next (i + size) result

/-- The loop `for i := 0; i < len(data.Data); { ... i += size }`, with fuel. -/
def eventsLoop (addChangeObjectStateEventsOnly : Bool) (data : List Nat) :
    Nat → Nat → PackageEvents → Outcome PackageEvents
  | 0, _, _ => Outcome.outOfFuel
  | fuel + 1, i, result =>
    if i < data.length then
      match eventsStep addChangeObjectStateEventsOnly data i result with
      | Step.next i1 result1 => eventsLoop addChangeObjectStateEventsOnly data fuel i1 result1
      | Step.fail err => Outcome.ret none (some err)
      | Step.panic => Outcome.panic
    else Outcome.ret (some result) none

/-- Go `DataPackage.ParseEventsPackage`. Every iteration advances by at least 7
bytes, so `len(data.Data) + 1` units of fuel are never used up. -/
def DataPackage.ParseEventsPackage (data : DataPackage) : Outcome PackageEvents :=
  if ¬ (data.Format = PackageFormatEvents ∨ data.Format = PackageFormatChangeObjectStates ∨
      data.Format = PackageFormatChangeFailureStates) then
    Outcome.ret none (some ParseError.expectedEventsFormat)
  else
    let addChangeObjectStateEventsOnly := decide (data.Format = PackageEventTypeObjectState)
    eventsLoop addChangeObjectStateEventsOnly data.Data (data.Data.length + 1) 0
      PackageEvents.empty

/-! ## The objects of an aggregate -/

/-- A `mapset.Set` holding `int` values (library `golang-set`): the members,
each once, in the order they were added. -/
structure GoSet where
  elems : List Int
  deriving DecidableEq, Repr

/-- Go `mapset.NewSet()`. -/
def NewSet : GoSet := ⟨[]⟩

/-- Go `Set.Add`: adding a member again changes nothing. -/
def GoSet.Add (s : GoSet) (x : Int) : GoSet :=
  if x ∈ s.elems then s else ⟨s.elems ++ [x]⟩

/-- Go `Set.Contains` for one value. -/
def GoSet.Contains (s : GoSet) (x : Int) : Bool := decide (x ∈ s.elems)

/-- Go `Set.Cardinality`. -/
def GoSet.Cardinality (s : GoSet) : Nat := s.elems.length

/-- Go `PackageEvents.GetObjects`: the six `range` loops in source order; the
conversion `int(k)` of a `uint32` keeps the value. -/
def PackageEvents.GetObjects (events : PackageEvents) : GoSet :=
  let result := NewSet
  let result := events.ObjectStates.keys.foldl (fun s k => s.Add (k : Int)) result
  let result := events.ObjectFpChangeState.keys.foldl (fun s k => s.Add (k : Int)) result
  let result := events.ObjectNwaChangeState.keys.foldl (fun s k => s.Add (k : Int)) result
  let result := events.ObjectNwaStateLeaveEnter.keys.foldl (fun s k => s.Add (k : Int)) result
  let result := events.ObjectFailuresChangeState.keys.foldl
    (fun s k => s.Add (k.ObjectId : Int)) result
  let result := events.ObjectAccidentsChangeState.keys.foldl
    (fun s k => s.Add (k.ObjectId : Int)) result
  result

/-! ## The full-state snapshot decoders -/

/-- The loop `for i := 0; i < len(data.Data)/7; i++` of
`ParseFullObjectStatePackage`, with `remaining` iterations left. -/
def fullObjectStatesLoop (data : List Nat) :
    Nat → Nat → GoMap Nat Nat → Outcome (GoMap Nat Nat)
  | 0, _, objectStates => Outcome.ret (some objectStates) none
  | remaining + 1, i, objectStates =>
    let curPos := i * 7
    match byteAt data curPos with
    | none => Outcome.panic
    | some marker =>
      if marker ≠ PackageEventTypeObjectState then
        Outcome.ret none (some (ParseError.unexpectedMarker marker))
      else
        match (sliceFrom data (curPos + 1)).bind getObjectStateEvent with
        | none => Outcome.panic
        | some (objectId, objectState) =>
          fullObjectStatesLoop data remaining (i + 1) (objectStates.set objectId objectState)

/-- Go `DataPackage.ParseFullObjectStatePackage`. -/
def DataPackage.ParseFullObjectStatePackage (data : DataPackage) : Outcome (GoMap Nat Nat) :=
  if data.Format ≠ PackageFormatFullObjectStates then
    Outcome.ret none (some ParseError.expectedFullStateFormat)
  else if data.Data.length % 7 ≠ 0 then
    Outcome.ret none (some ParseError.eventsDataSize)
  else
    fullObjectStatesLoop data.Data (data.Data.length / 7) 0 GoMap.empty

/-- The loop `for i := 0; i < len(data.Data)/18; i++` of
`ParseFullFailureStatePackage`, with `remaining` iterations left. -/
def fullFailureStatesLoop (data : List Nat) :
    Nat → Nat → GoMap ObjectFailureKey ObjectFailureEventInfo →
      Outcome (GoMap ObjectFailureKey ObjectFailureEventInfo)
  | 0, _, objectFailuresFullState => Outcome.ret (some objectFailuresFullState) none
  | remaining + 1, i, objectFailuresFullState =>
    let curPos := i * 18
    match byteAt data curPos with
    | none => Outcome.panic
    | some marker =>
      if marker ≠ PackageEventTypeFailureInfo then
        Outcome.ret none (some (ParseError.unexpectedFailureMarker marker))
      else
        match (sliceFrom data (curPos + 1)).bind getObjectFailureEvent with
        | none => Outcome.panic
        | some failureEvent =>
          fullFailureStatesLoop data remaining (i + 1)
            (objectFailuresFullState.set
              { ObjectId := failureEvent.ObjectId, FailureId := failureEvent.FailureId }
              failureEvent)

/-- Go `DataPackage.ParseFullFailureStatePackage`. -/
def DataPackage.ParseFullFailureStatePackage (data : DataPackage) :
    Outcome (GoMap ObjectFailureKey ObjectFailureEventInfo) :=
  if data.Format ≠ PackageFormatFullFailureStates then
    Outcome.ret none (some ParseError.expectedFullFailureFormat)
  else if data.Data.length % 18 ≠ 0 then
    Outcome.ret none (some ParseError.failureDataSize)
  else
    fullFailureStatesLoop data.Data (data.Data.length / 18) 0 GoMap.empty

/-! ## Floating point

A finite `float32` or `float64` value is the rational it stands for. Every
arithmetic operation and conversion rounds the exact result to the nearest
value of the target precision (24 or 53 significant bits), ties to even, and
no two operations are fused. The exponent range is not modelled: the non-zero
values that occur here have magnitudes between `2 ^ (-10)` and `2 ^ 43`, far
from overflow and from the subnormal range. -/

/-- Rounding of a rational to the nearest integer, ties to the even one. -/
def roundHalfEven (z : ℚ) : ℤ :=
  if 2 * (z - ⌊z⌋) < 1 then ⌊z⌋
  else if 1 < 2 * (z - ⌊z⌋) then ⌊z⌋ + 1
  else if ⌊z⌋ % 2 = 0 then ⌊z⌋ else ⌊z⌋ + 1

/-- The value with a `p`-bit significand nearest to `q > 0`, ties to even:
with `e` the binary exponent of `q`, the multiple of `2 ^ (e - p + 1)` nearest
to `q`. -/
def roundPos (p : ℕ) (q : ℚ) : ℚ :=
  roundHalfEven (q / 2 ^ (Int.log 2 q - (p : ℤ) + 1)) * 2 ^ (Int.log 2 q - (p : ℤ) + 1)

/-- Rounding to `p` significant bits, nearest, ties to even. -/
def roundTo (p : ℕ) (q : ℚ) : ℚ :=
  if q = 0 then 0 else if q < 0 then -roundPos p (-q) else roundPos p q

/-- Rounding to `float32`. -/
def f32 (q : ℚ) : ℚ := roundTo 24 q

/-- Rounding to `float64`. -/
def f64 (q : ℚ) : ℚ := roundTo 53 q

/-- Go `math.Round` on a finite value: nearest integer, halves away from zero. -/
def mathRound (z : ℚ) : ℚ :=
  if z < 0 then -((⌊-z + 1 / 2⌋ : ℤ) : ℚ) else ((⌊z + 1 / 2⌋ : ℤ) : ℚ)

/-- A `float32` as this package returns it: NaN or a finite value. -/
inductive GoFloat where
  | NaN
  | num (q : ℚ)
  deriving DecidableEq, Repr

/-- Unary minus of a `float32`. -/
def GoFloat.neg : GoFloat → GoFloat
  | GoFloat.NaN => GoFloat.NaN
  | GoFloat.num q => GoFloat.num (-q)

/-! ## `dataUtils.go` -/

def SystemUndefined32BitValue : Nat := 0x80000000
def SystemUndefined16BitValue : Nat := 0x8000
def UndefinedMeasureValue : Nat := 0xFFFFFFFF

/-- The variable `float32NaN`, `math.Float32frombits(UndefinedMeasureValue)`:
the bit pattern `0xFFFFFFFF` has all exponent bits set and a non-zero
mantissa, so it is a NaN. -/
def float32NaN : GoFloat := GoFloat.NaN

/-- Go `GetNaN`. -/
def GetNaN : GoFloat := float32NaN

/-- Go `IsNaN`. -/
def IsNaN (x : GoFloat) : Bool :=
  match x with
  | GoFloat.NaN => true
  | GoFloat.num _ => false

/-- Go `round3` on a finite value: `float32(math.Round(float64(x*1000)) / 1000)`,
the product taken in `float32`, the quotient in `float64`. -/
def round3 (x : ℚ) : ℚ :=
  f32 (f64 (mathRound (f32 (x * 1000)) / 1000))

/-- The expression `float32(x/1000) + float32(x%1000)*0.001` of both decoders:
two conversions of integers, the constant `0.001` as a `float32`, a `float32`
product and a `float32` sum. -/
def aValOf (x : ℕ) : ℚ :=
  f32 (f32 ((x / 1000 : ℕ) : ℚ) + f32 (f32 ((x % 1000 : ℕ) : ℚ) * f32 (1 / 1000)))

/-- Go `MakeFloat32FromUint32`. The complement `^x + 1` is taken in `uint32`. -/
def MakeFloat32FromUint32 (x : Nat) : GoFloat :=
  if x = SystemUndefined32BitValue then float32NaN
  else
    let isNegative : Bool := decide (x &&& 0x80000000 ≠ 0)
    let x1 : Nat := if isNegative = true then (2 ^ 32 - 1 - x + 1) % 2 ^ 32 else x
    let aVal : ℚ := aValOf x1
    let aVal : ℚ := if isNegative = true then -aVal else aVal
    GoFloat.num (round3 aVal)

/-- Go `makeFloat32FromUint16`. The complement `^x + 1` is taken in `uint16`. -/
def makeFloat32FromUint16 (x : Nat) : GoFloat :=
  if x = SystemUndefined16BitValue then float32NaN
  else
    let isNegative : Bool := decide (x &&& 0x8000 ≠ 0)
    let x1 : Nat := if isNegative = true then (2 ^ 16 - 1 - x + 1) % 2 ^ 16 else x
    let aVal : ℚ := aValOf x1
    let aVal : ℚ := if isNegative = true then -aVal else aVal
    GoFloat.num (round3 aVal)

/-- The type `GetDataFunction`; `none` stands for a run-time panic. -/
def GetDataFunction : Type := List Nat → Nat → Option GoFloat

/-- The error of `GetDataConverterFunction`. -/
inductive ConverterError where
  | notSupportedBitsPerSensor
  deriving DecidableEq, Repr

/-- The function literal `GetDataConverterFunction` returns for 16 bits. The
slice bound `sensorId*2` is a `uint16` product. -/
def handler16 : GetDataFunction := fun data sensorId =>
  if sensorId ≥ data.length / 2 then some float32NaN
  else
    match (sliceFrom data (sensorId * 2 % 2 ^ 16)).bind LittleEndian.Uint16 with
    | none => none
    | some uint16Value => some (makeFloat32FromUint16 uint16Value)

/-- The function literal `GetDataConverterFunction` returns for 32 bits. The
slice bound `sensorId*4` is a `uint16` product. -/
def handler32 : GetDataFunction := fun data sensorId =>
  if sensorId ≥ data.length / 4 then some float32NaN
  else
    match (sliceFrom data (sensorId * 4 % 2 ^ 16)).bind LittleEndian.Uint32 with
    | none => none
    | some uint32Value => some (MakeFloat32FromUint32 uint32Value)

/-- Go `GetDataConverterFunction`: the pair `(handler, err)`, `none` for `nil`. -/
def GetDataConverterFunction (bitsPerSensor : Nat) :
    Option GetDataFunction × Option ConverterError :=
  if bitsPerSensor = 16 then (some handler16, none)
  else if bitsPerSensor = 32 then (some handler32, none)
  else (none, some ConverterError.notSupportedBitsPerSensor)

/-! ## Auxiliary definitions of the specification and sample inputs -/

/-- The package obtained from `data` once the 18 header bytes at position `i`
of `s` have been decoded. -/
def headerAt (data : DataPackage) (s : List Nat) (i : Nat) : DataPackage :=
  { Time := le64 ((s.drop i).take 8)
    DeviceId := toInt32 (le32 ((s.drop (i + 8)).take 4))
    SensorCount := le16 ((s.drop (i + 12)).take 2)
    BitsPerSensor := ((s.drop (i + 14)).take 1).getD 0 0
    Format := ((s.drop (i + 15)).take 1).getD 0 0
    DataSize := le16 ((s.drop (i + 16)).take 2)
    Data := data.Data }

/-- Sample package: a heartbeat from device -2 with a two-byte payload. -/
def samplePackage : DataPackage :=
  { Time := 0x0102030405060708, DeviceId := -2, SensorCount := 1, BitsPerSensor := 8,
    Format := 7, DataSize := 2, Data := [9, 10] }

/-- The length the spec expects of an uncompressed raw-sample payload:
`ceil(SensorCount / 4)` bytes at 2 bits per sensor, `SensorCount * bits / 8`
bytes at 8, 16 and 32 bits. -/
def expectedLength (sensorCount bitsPerSensor : Nat) : Nat :=
  if bitsPerSensor = 2 then (sensorCount + 3) / 4 else sensorCount * bitsPerSensor / 8

/-- A heartbeat package whose size matches one 8-bit sensor. -/
def heartbeatPackage : DataPackage :=
  { Time := 0, DeviceId := 0, SensorCount := 1, BitsPerSensor := 8, Format := 7, DataSize := 1,
    Data := [0] }

/-- The length the spec's table gives the record at the head of `r`, by its
tag: 18, 13, 18, 21, 22, 26 and 7 bytes for the tags 1, 2, 3, 4, 5, 7 and 8, and
`13 + 8 * N` for tag 6, `N` being the little-endian 32-bit count at bytes 9..12
of the record. No length for an empty `r` or another tag. -/
def recordLength (r : List Nat) : Option Nat :=
  match r.head? with
  | none => none
  | some tag =>
    if tag = 1 then some 18
    else if tag = 2 then some 13
    else if tag = 3 then some 18
    else if tag = 4 then some 21
    else if tag = 5 then some 22
    else if tag = 6 then some (13 + 8 * le32 (r.drop 9))
    else if tag = 7 then some 26
    else if tag = 8 then some 7
    else none

/-- A whole record: it starts with a tag in 1..8 and has that tag's length. -/
def IsRecord (r : List Nat) : Prop := recordLength r = some r.length

instance (r : List Nat) : Decidable (IsRecord r) := by
  unfold IsRecord; infer_instance

/-- The payload splits, from its first to exactly its last byte, into
consecutive whole records. -/
inductive SplitsIntoRecords : List Nat → Prop where
  | nil : SplitsIntoRecords []
  | cons (r rest : List Nat) : IsRecord r → SplitsIntoRecords rest →
      SplitsIntoRecords (r ++ rest)

/-- An event-stream package: a discrete-state record, then a byte that is no tag. -/
def badTagPackage : DataPackage :=
  { Time := 0, DeviceId := 1, SensorCount := 8, BitsPerSensor := 8, Format := 1, DataSize := 8,
    Data := [8, 100, 0, 0, 0, 1, 0, 9] }

/-- An event-stream package of two whole records: a discrete state and a batch
of one reserve-mode state. -/
def stateThenBatchPackage : DataPackage :=
  { Time := 0, DeviceId := 1, SensorCount := 28, BitsPerSensor := 8, Format := 1,
    DataSize := 28,
    Data := [8, 100, 0, 0, 0, 1, 0,
             6, 1, 2, 3, 4, 5, 6, 7, 8, 1, 0, 0, 0, 200, 0, 0, 0, 5, 0, 0, 0] }

/-- The wire bytes of a heartbeat from device -2 with the payload 9, 10,
followed by one byte of the next package. -/
def sampleWire : List Nat :=
  [8, 7, 6, 5, 4, 3, 2, 1, 254, 255, 255, 255, 1, 0, 8, 7, 2, 0, 9, 10, 11]

/-! ## Last write wins, in the words of the spec -/

/-- The value found under key `k` after the records `rs` have been taken in
payload order: each record that `decode` turns into a (key, value) pair with
key `k` replaces what was there (`init` at the start); records of another kind,
or with another key, leave it alone. -/
def lastWriteFrom {κ ν : Type} [DecidableEq κ] (decode : List Nat → Option (κ × ν))
    (k : κ) (init : Option ν) (rs : List (List Nat)) : Option ν :=
  rs.foldl (fun acc r =>
    match decode r with
    | some (k1, v) => if k1 = k then some v else acc
    | none => acc) init

/-- The value of the last record of `rs` with key `k`, `none` when no record
has that key. -/
def lastWrite {κ ν : Type} [DecidableEq κ] (decode : List Nat → Option (κ × ν))
    (rs : List (List Nat)) (k : κ) : Option ν :=
  lastWriteFrom decode k none rs

/-- The map after one record: the record's (key, value) pair is assigned, a
record of another kind changes nothing. -/
def applyWrite {κ ν : Type} [DecidableEq κ] (decode : List Nat → Option (κ × ν))
    (m : GoMap κ ν) (r : List Nat) : GoMap κ ν :=
  match decode r with
  | some (k, v) => m.set k v
  | none => m

/-- What a tag-8 record writes: object id and state code, decoded from the
bytes of the record after its tag. -/
def stateOfRecord (r : List Nat) : Option (Nat × Nat) :=
  if r.head? = some 8 then getObjectStateEvent (r.drop 1) else none

/-- What a tag-1 record writes: the failure event under (object id, failure id). -/
def failureOfRecord (r : List Nat) : Option (ObjectFailureKey × ObjectFailureEventInfo) :=
  if r.head? = some 1 then
    (getObjectFailureEvent (r.drop 1)).map
      (fun e => ({ ObjectId := e.ObjectId, FailureId := e.FailureId }, e))
  else none

/-- What a tag-7 record writes: the accident event under (object id, algorithm id). -/
def accidentOfRecord (r : List Nat) : Option (ObjectAccidentKey × ObjectAccidentEventInfo) :=
  if r.head? = some 7 then
    (getObjectAccidentEvent (r.drop 1)).map
      (fun e => ({ ObjectId := e.ObjectId, AccidentId := e.AlgorithmId }, e))
  else none

/-- What a tag-4 record writes: the prognosis event under its object id. -/
def fpOfRecord (r : List Nat) : Option (Nat × ObjectFpEventInfo) :=
  if r.head? = some 4 then (getObjectFpEvent (r.drop 1)).map (fun e => (e.ObjectId, e))
  else none

/-- What a tag-5 record writes: the leave/enter event under its object id. -/
def nwaLeaveOfRecord (r : List Nat) : Option (Nat × ObjectNwaStateLeaveEventInfo) :=
  if r.head? = some 5 then (getObjectNwaLeaveEvent (r.drop 1)).map (fun e => (e.ObjectId, e))
  else none

/-- An event-stream package with two states of object 100, one of object 200
and a failure record in between. -/
def statesAndFailurePackage : DataPackage :=
  { Time := 0, DeviceId := 1, SensorCount := 39, BitsPerSensor := 8, Format := 1,
    DataSize := 39,
    Data := [8, 100, 0, 0, 0, 1, 0,
             1, 100, 0, 0, 0, 1, 0, 0, 0, 1, 1, 2, 3, 4, 5, 6, 7, 8,
             8, 200, 0, 0, 0, 1, 0,
             8, 100, 0, 0, 0, 2, 0] }

/-- The aggregate decoded from `statesAndFailurePackage`. -/
def statesAndFailureEvents : PackageEvents :=
  { ObjectStates := ⟨[(100, 2), (200, 1)]⟩
    ObjectFailuresChangeState := ⟨[({ ObjectId := 100, FailureId := 1 },
      { IsStarted := true, ObjectId := 100, FailureId := 1,
        EventTime := GetTimeFromUnixMicroseconds 0x0807060504030201 })]⟩
    ObjectAccidentsChangeState := ⟨[]⟩
    ObjectFpChangeState := ⟨[]⟩
    ObjectNwaChangeState := ⟨[]⟩
    ObjectNwaStateLeaveEnter := ⟨[]⟩ }

/-- The consecutive records of `n` bytes of a payload whose length is a
multiple of `n`: record `i` is the bytes `i * n .. i * n + n - 1`. -/
def recordsOfSize (n : Nat) (data : List Nat) : List (List Nat) :=
  (List.range (data.length / n)).map (fun i => (data.drop (i * n)).take n)

/-- What a 7-byte snapshot record writes: the object id at record bytes 1..4
and the state code at record bytes 5..6, little-endian. -/
def snapshotStateOfRecord (r : List Nat) : Option (Nat × Nat) :=
  some (le32 (r.drop 1), le16 (r.drop 5))

/-- What an 18-byte failure snapshot record writes, under (object id, failure
id): object id at record bytes 1..4, failure id at bytes 5..8, started flag
from byte 9, time from the microseconds at bytes 10..17. -/
def snapshotFailureOfRecord (r : List Nat) :
    Option (ObjectFailureKey × ObjectFailureEventInfo) :=
  some ({ ObjectId := le32 (r.drop 1), FailureId := le32 (r.drop 5) },
    { IsStarted := decide (r.getD 9 0 ≠ 0)
      ObjectId := le32 (r.drop 1)
      FailureId := le32 (r.drop 5)
      EventTime := GetTimeFromUnixMicroseconds (le64 (r.drop 10)) })

/-- A full-object-states package with two records of object 100 and one of
object 200. -/
def fullStatesPackage : DataPackage :=
  { Time := 0, DeviceId := 1, SensorCount := 21, BitsPerSensor := 8, Format := 6,
    DataSize := 21,
    Data := [8, 100, 0, 0, 0, 1, 0, 8, 200, 0, 0, 0, 1, 0, 8, 100, 0, 0, 0, 2, 0] }

/-- A full-failure-states package with one record. -/
def fullFailuresPackage : DataPackage :=
  { Time := 0, DeviceId := 1, SensorCount := 18, BitsPerSensor := 8, Format := 2,
    DataSize := 18,
    Data := [1, 100, 0, 0, 0, 1, 0, 0, 0, 1, 1, 2, 3, 4, 5, 6, 7, 8] }

/-- The object ids an aggregate refers to, with repetitions: the keys of the
four maps keyed by object id and the object ids of the keys of the failure and
accident maps. -/
def referencedIds (e : PackageEvents) : List Int :=
  e.ObjectStates.keys.map (fun (k : Nat) => (k : Int))
    ++ e.ObjectFpChangeState.keys.map (fun (k : Nat) => (k : Int))
    ++ e.ObjectNwaChangeState.keys.map (fun (k : Nat) => (k : Int))
    ++ e.ObjectNwaStateLeaveEnter.keys.map (fun (k : Nat) => (k : Int))
    ++ e.ObjectFailuresChangeState.keys.map (fun (k : ObjectFailureKey) => (k.ObjectId : Int))
    ++ e.ObjectAccidentsChangeState.keys.map
        (fun (k : ObjectAccidentKey) => (k.ObjectId : Int))

/-- A slice of 16385 samples of 32 bits: 16384 zero samples, then the undefined
sentinel `00 00 00 80` as sample 16384. -/
def samplesWithLateSentinel : List Nat := List.replicate 65536 0 ++ [0, 0, 0, 128]

/-! ## `dataUtils.go`: virtual devices -/

def MaxDeviceId : Int := 0x20000000

/-- The error of `GetHostForSpecialDevice`. -/
inductive DeviceError where
  | notSpecialDeviceId
  deriving DecidableEq, Repr

/-- Conversion `int32(x)` of an `int` value: the low 32 bits, read as signed. -/
def int32OfInt (z : Int) : Int := toInt32 (ofInt32 z)

/-- Go `GetSpecialDeviceForHost`: `int32(hostId) + MaxDeviceId`, the sum taken
in `int32`. -/
def GetSpecialDeviceForHost (hostId : Int) : Int :=
  int32OfInt (int32OfInt hostId + MaxDeviceId)

/-- Go `GetHostForSpecialDevice`: the pair `(host, err)`; the difference is
taken in `int32` and then widened to `int`. -/
def GetHostForSpecialDevice (deviceId : Int) : Int × Option DeviceError :=
  if deviceId < MaxDeviceId then (0, some DeviceError.notSpecialDeviceId)
  else (int32OfInt (deviceId - MaxDeviceId), none)

/-! ## `networkPackage.go` -/

/-- The struct `NetworkPackage`. -/
structure NetworkPackage where
  HostId : Int
  PackageId : Int
  Data : DataPackage
  deriving DecidableEq, Repr

/-- Go `NetworkPackage.Read`: the package after the call, the reader after the
call and the error returned. `Data` is reset to `DataPackage{}` only once both
identifiers have been read. -/
def NetworkPackage.Read (res : NetworkPackage) (reader : Reader) :
    NetworkPackage × Reader × Option ReadError :=
  match ReadFull reader 4 with
  | (reader, .error e) => (res, reader, some e)
  | (reader, .ok bs) =>
  let res := { res with HostId := toInt32 (le32 bs) }
  match ReadFull reader 4 with
  | (reader, .error e) => (res, reader, some e)
  | (reader, .ok bs) =>
  let res := { res with PackageId := toInt32 (le32 bs) }
  let res := { res with Data := DataPackage.zero }
  let out := res.Data.Read reader
  ({ res with Data := out.1 }, out.2.1, out.2.2)

/-- A package that declares no payload but holds three bytes in `Data`. -/
def zeroSizePackage : DataPackage :=
  { Time := 1, DeviceId := 2, SensorCount := 3, BitsPerSensor := 8, Format := 7, DataSize := 0,
    Data := [1, 2, 3] }

/-- The bytes of a network package: host 3, package number -1, then `sampleWire`. -/
def sampleNetworkWire : List Nat := [3, 0, 0, 0, 255, 255, 255, 255] ++ sampleWire

/-- A slice of 32769 samples of 16 bits: 32768 zero samples, then the value
1000 (`E8 03`) as sample 32768. -/
def samplesWithLateValue : List Nat := List.replicate 65536 0 ++ [232, 3]

/-- An event-stream package whose payload is one accident record of type 2
with the algorithm id bytes `FF FF FF FF`, object 300, start at 1 and end at 2
microseconds. -/
def accidentPackage : DataPackage :=
  { Time := 0, DeviceId := 1, SensorCount := 26, BitsPerSensor := 8, Format := 1,
    DataSize := 26,
    Data := [7, 2, 255, 255, 255, 255, 44, 1, 0, 0, 1, 0, 0, 0, 0, 0, 0, 0,
             2, 0, 0, 0, 0, 0, 0, 0] }

/-! ## The batches of reserve-mode states, record by record -/

/-- What a record does to the map of reserve-mode states when the decoder
meets it in the payload `data`: a tag-6 record runs the pair loop, with the
time at record bytes 1..8 and the count at record bytes 9..12, and the loop
reads its pairs from `data`; a record of another kind changes nothing. -/
def nwaBatchOfRecord (data : List Nat) (m : GoMap Nat ObjectNwaStateChangeEventInfo)
    (r : List Nat) : GoMap Nat ObjectNwaStateChangeEventInfo :=
  if r.head? = some 6 then
    (nwaStatesLoop data (GetTimeFromUnixMicroseconds (le64 (r.drop 1))) (le32 (r.drop 9)) 0
      m).getD m
  else m

/-- The aggregate after the records `rs` of the payload `data` have been taken
in order, starting from `res`: every record assigns what its kind writes, and
under `only` (changed-object-states) nothing but discrete states is written. -/
def eventsOfRecords (only : Bool) (data : List Nat) (res : PackageEvents)
    (rs : List (List Nat)) : PackageEvents :=
  { ObjectStates := rs.foldl (applyWrite stateOfRecord) res.ObjectStates
    ObjectFailuresChangeState :=
      if only = true then res.ObjectFailuresChangeState
      else rs.foldl (applyWrite failureOfRecord) res.ObjectFailuresChangeState
    ObjectAccidentsChangeState :=
      if only = true then res.ObjectAccidentsChangeState
      else rs.foldl (applyWrite accidentOfRecord) res.ObjectAccidentsChangeState
    ObjectFpChangeState :=
      if only = true then res.ObjectFpChangeState
      else rs.foldl (applyWrite fpOfRecord) res.ObjectFpChangeState
    ObjectNwaChangeState :=
      if only = true then res.ObjectNwaChangeState
      else rs.foldl (applyWrite nwaLeaveOfRecord) res.ObjectNwaChangeState
    ObjectNwaStateLeaveEnter :=
      if only = true then res.ObjectNwaStateLeaveEnter
      else rs.foldl (nwaBatchOfRecord data) res.ObjectNwaStateLeaveEnter }

/-- An event-stream package of a discrete-state record and a failure record. -/
def stateAndFailurePackage : DataPackage :=
  { Time := 0, DeviceId := 1, SensorCount := 25, BitsPerSensor := 8, Format := 1,
    DataSize := 25,
    Data := [8, 100, 0, 0, 0, 1, 0] ++
            [1, 100, 0, 0, 0, 1, 0, 0, 0, 1, 1, 2, 3, 4, 5, 6, 7, 8] }

/-- The aggregate decoded from `stateAndFailurePackage`. -/
def stateAndFailureEvents : PackageEvents :=
  { ObjectStates := ⟨[(100, 1)]⟩
    ObjectFailuresChangeState := ⟨[({ ObjectId := 100, FailureId := 1 },
      { IsStarted := true, ObjectId := 100, FailureId := 1,
        EventTime := GetTimeFromUnixMicroseconds 0x0807060504030201 })]⟩
    ObjectAccidentsChangeState := ⟨[]⟩
    ObjectFpChangeState := ⟨[]⟩
    ObjectNwaChangeState := ⟨[]⟩
    ObjectNwaStateLeaveEnter := ⟨[]⟩ }

/-! ## `timeUtils.go`: back to microseconds -/

/-- Conversion `uint64(x)` of an `int64` value. -/
def ofInt64 (z : Int) : Nat := (z % 2 ^ 64).toNat

/-- Go `GetUnixMicrosecondsFromTime`: `uint64(timeValue.UnixNano() / 1e3)`, the
quotient of `int64` values, truncated toward zero. -/
def GetUnixMicrosecondsFromTime (timeValue : Int) : Nat :=
  ofInt64 (Int.tdiv timeValue 1000)

/-! # Theorems -/

/-! ## Lemmas on the reader -/

theorem ReadFull_ok (r : Reader) (n : Nat) (hn : 0 < n) (h : r.i + n ≤ r.s.length) :
    ReadFull r n = ({ s := r.s, i := r.i + n }, .ok ((r.s.drop r.i).take n)) := by
  have hlen : ((r.s.drop r.i).take n).length = n := by
    simp [List.length_take, List.length_drop]; omega
  have hlt : ¬ r.i ≥ r.s.length := by omega
  simp only [ReadFull, Reader.Read, hlt, if_false, hlen, ge_iff_le, le_refl, if_true]

theorem ReadFull_short (r : Reader) (n : Nat) (hn : 0 < n) (h : ¬ r.i + n ≤ r.s.length) :
    ∃ r1 e, ReadFull r n = (r1, .error e) := by
  by_cases hlt : r.i ≥ r.s.length
  · refine ⟨r, ReadError.EOF, ?_⟩
    simp only [ReadFull, Reader.Read, hlt, if_true, List.length_nil]
    have : ¬ (0 ≥ n) := by omega
    simp [this]
  · have hlen : ((r.s.drop r.i).take n).length = r.s.length - r.i := by
      simp [List.length_take, List.length_drop]; omega
    refine ⟨{ r with i := r.i + (r.s.length - r.i) }, ReadError.ErrUnexpectedEOF, ?_⟩
    have h1 : ¬ (r.s.length - r.i ≥ n) := by omega
    have h2 : ¬ (r.s.length - r.i = 0) := by omega
    simp only [ReadFull, Reader.Read, hlt, if_false, hlen, h1, h2]

theorem Read_header_ok (data : DataPackage) (r : Reader) (h : r.i + 18 ≤ r.s.length) :
    data.Read r =
      if (headerAt data r.s r.i).DataSize > 0 then
        ({ headerAt data r.s r.i with
            Data := (Reader.Read ⟨r.s, r.i + 18⟩ (headerAt data r.s r.i).DataSize).1 ++
              List.replicate ((headerAt data r.s r.i).DataSize -
                (Reader.Read ⟨r.s, r.i + 18⟩ (headerAt data r.s r.i).DataSize).1.length) 0 },
          (Reader.Read ⟨r.s, r.i + 18⟩ (headerAt data r.s r.i).DataSize).2.1,
          if (Reader.Read ⟨r.s, r.i + 18⟩ (headerAt data r.s r.i).DataSize).1.length
              ≠ (headerAt data r.s r.i).DataSize then some ReadError.dataSize
          else (Reader.Read ⟨r.s, r.i + 18⟩ (headerAt data r.s r.i).DataSize).2.2)
      else (headerAt data r.s r.i, { s := r.s, i := r.i + 18 }, none) := by
  unfold DataPackage.Read
  rw [ReadFull_ok r 8 (by omega) (by omega)]
  simp only []
  rw [ReadFull_ok _ 4 (by omega) (by simp only []; omega)]
  simp only []
  rw [ReadFull_ok _ 2 (by omega) (by simp only []; omega)]
  simp only []
  rw [ReadFull_ok _ 1 (by omega) (by simp only []; omega)]
  simp only []
  rw [ReadFull_ok _ 1 (by omega) (by simp only []; omega)]
  simp only []
  rw [ReadFull_ok _ 2 (by omega) (by simp only []; omega)]
  simp only [headerAt, Nat.add_assoc]

theorem Read_header_short (data : DataPackage) (r : Reader) (h : ¬ r.i + 18 ≤ r.s.length) :
    ∃ e, (data.Read r).2.2 = some e := by
  unfold DataPackage.Read
  by_cases h1 : r.i + 8 ≤ r.s.length
  swap
  · obtain ⟨r1, e, he⟩ := ReadFull_short r 8 (by omega) h1
    rw [he]; exact ⟨e, rfl⟩
  rw [ReadFull_ok r 8 (by omega) h1]
  simp only []
  by_cases h2 : r.i + 8 + 4 ≤ r.s.length
  swap
  · obtain ⟨r1, e, he⟩ := ReadFull_short ⟨r.s, r.i + 8⟩ 4 (by omega) h2
    rw [he]; exact ⟨e, rfl⟩
  rw [ReadFull_ok _ 4 (by omega) h2]
  simp only []
  by_cases h3 : r.i + 8 + 4 + 2 ≤ r.s.length
  swap
  · obtain ⟨r1, e, he⟩ := ReadFull_short ⟨r.s, r.i + 8 + 4⟩ 2 (by omega) h3
    rw [he]; exact ⟨e, rfl⟩
  rw [ReadFull_ok _ 2 (by omega) h3]
  simp only []
  by_cases h4 : r.i + 8 + 4 + 2 + 1 ≤ r.s.length
  swap
  · obtain ⟨r1, e, he⟩ := ReadFull_short ⟨r.s, r.i + 8 + 4 + 2⟩ 1 (by omega) h4
    rw [he]; exact ⟨e, rfl⟩
  rw [ReadFull_ok _ 1 (by omega) h4]
  simp only []
  by_cases h5 : r.i + 8 + 4 + 2 + 1 + 1 ≤ r.s.length
  swap
  · obtain ⟨r1, e, he⟩ := ReadFull_short ⟨r.s, r.i + 8 + 4 + 2 + 1⟩ 1 (by omega) h5
    rw [he]; exact ⟨e, rfl⟩
  rw [ReadFull_ok _ 1 (by omega) h5]
  simp only []
  have h6 : ¬ r.i + 8 + 4 + 2 + 1 + 1 + 2 ≤ r.s.length := by omega
  obtain ⟨r1, e, he⟩ := ReadFull_short ⟨r.s, r.i + 8 + 4 + 2 + 1 + 1⟩ 2 (by omega) h6
  rw [he]; exact ⟨e, rfl⟩

theorem Reader_Read_ok (s : List Nat) (j n : Nat) (hn : 0 < n) (h : j + n ≤ s.length) :
    Reader.Read ⟨s, j⟩ n = ((s.drop j).take n, ⟨s, j + n⟩, none) := by
  have hlen : ((s.drop j).take n).length = n := by
    simp [List.length_take, List.length_drop]; omega
  have hlt : ¬ j ≥ s.length := by omega
  simp only [Reader.Read, hlt, if_false, hlen]

theorem Reader_Read_short (s : List Nat) (j n : Nat) (hn : 0 < n) (h : ¬ j + n ≤ s.length) :
    (Reader.Read ⟨s, j⟩ n).1.length ≠ n := by
  by_cases hlt : j ≥ s.length
  · simp only [Reader.Read, hlt, if_true, List.length_nil]; omega
  · simp only [Reader.Read, hlt, if_false, List.length_take, List.length_drop]; omega

theorem le16_put (v : Nat) (h : v < 2 ^ 16) : le16 (LittleEndian.PutUint16 v) = v := by
  simp only [le16, LittleEndian.PutUint16, List.getD_cons_zero, List.getD_cons_succ]
  omega

theorem le32_put (v : Nat) (h : v < 2 ^ 32) : le32 (LittleEndian.PutUint32 v) = v := by
  simp only [le32, LittleEndian.PutUint32, List.getD_cons_zero, List.getD_cons_succ]
  omega

theorem le64_put (v : Nat) (h : v < 2 ^ 64) : le64 (LittleEndian.PutUint64 v) = v := by
  simp only [le64, LittleEndian.PutUint64, List.getD_cons_zero, List.getD_cons_succ]
  omega

theorem toInt32_ofInt32 (z : Int) (h1 : -(2 ^ 31) ≤ z) (h2 : z < 2 ^ 31) :
    toInt32 (ofInt32 z) = z := by
  unfold toInt32 ofInt32
  have h0 : (0 : Int) ≤ z % 2 ^ 32 := Int.emod_nonneg _ (by norm_num)
  have hlt : z % 2 ^ 32 < 2 ^ 32 := Int.emod_lt_of_pos _ (by norm_num)
  have hc : ((z % 2 ^ 32).toNat : Int) = z % 2 ^ 32 := Int.toNat_of_nonneg h0
  have hm : (z % 2 ^ 32).toNat % 2 ^ 32 = (z % 2 ^ 32).toNat := by
    apply Nat.mod_eq_of_lt; omega
  rw [hm]
  split <;> omega

theorem ofInt32_lt (z : Int) : ofInt32 z < 2 ^ 32 := by
  unfold ofInt32
  have h0 : (0 : Int) ≤ z % 2 ^ 32 := Int.emod_nonneg _ (by norm_num)
  have hlt : z % 2 ^ 32 < 2 ^ 32 := Int.emod_lt_of_pos _ (by norm_num)
  omega

theorem getD_take_one_drop (s : List Nat) (k : Nat) :
    ((s.drop k).take 1).getD 0 0 = s.getD k 0 := by
  simp [List.getD_eq_getElem?_getD, List.getElem?_take, List.getElem?_drop]

theorem Bytes_eq (p : DataPackage) :
    p.Bytes = [p.Time % 256, p.Time / 2 ^ 8 % 256, p.Time / 2 ^ 16 % 256, p.Time / 2 ^ 24 % 256,
      p.Time / 2 ^ 32 % 256, p.Time / 2 ^ 40 % 256, p.Time / 2 ^ 48 % 256, p.Time / 2 ^ 56 % 256,
      ofInt32 p.DeviceId % 256, ofInt32 p.DeviceId / 2 ^ 8 % 256,
      ofInt32 p.DeviceId / 2 ^ 16 % 256, ofInt32 p.DeviceId / 2 ^ 24 % 256,
      p.SensorCount % 256, p.SensorCount / 2 ^ 8 % 256, p.BitsPerSensor % 256, p.Format % 256,
      p.DataSize % 256, p.DataSize / 2 ^ 8 % 256] ++ (if p.DataSize > 0 then p.Data else []) := by
  simp [DataPackage.Bytes, DataPackage.Write, LittleEndian.PutUint64, LittleEndian.PutUint32,
    LittleEndian.PutUint16]

theorem headerAt_Bytes (p : DataPackage) (hw : p.WellTyped) :
    headerAt DataPackage.zero p.Bytes 0 = { p with Data := [] } := by
  obtain ⟨h1, h2, h3, h4, h5, h6, h7, _⟩ := hw
  have e1 := le64_put p.Time h1
  have e2 := le32_put (ofInt32 p.DeviceId) (ofInt32_lt _)
  have e3 := le16_put p.SensorCount h4
  have e4 := le16_put p.DataSize h7
  have e5 : p.BitsPerSensor % 256 = p.BitsPerSensor := Nat.mod_eq_of_lt (by omega)
  have e6 : p.Format % 256 = p.Format := Nat.mod_eq_of_lt (by omega)
  have e7 := toInt32_ofInt32 p.DeviceId h2 h3
  simp only [LittleEndian.PutUint64, LittleEndian.PutUint32, LittleEndian.PutUint16] at e1 e2 e3 e4
  rw [Bytes_eq]
  simp only [headerAt, List.cons_append, List.nil_append, List.drop_zero, List.drop_succ_cons,
    List.take_succ_cons, List.take_zero, Nat.zero_add, List.getD_cons_zero, e1, e2, e3, e4, e5,
    e6, e7, DataPackage.zero]

/-- C1. Round trip: a well-typed package whose `DataSize` is the length of its
`Data` is read back unchanged, without error, from the bytes `Bytes` produces. -/
theorem Read_Bytes_roundtrip (p : DataPackage) (hw : p.WellTyped)
    (hs : p.DataSize = p.Data.length) :
    (DataPackage.zero.Read (NewReader p.Bytes)).2.2 = none ∧
      (DataPackage.zero.Read (NewReader p.Bytes)).1 = p := by
  have hlen : p.Bytes.length = 18 + (if p.DataSize > 0 then p.Data else []).length := by
    rw [Bytes_eq]; simp; omega
  have hdrop : p.Bytes.drop 18 = (if p.DataSize > 0 then p.Data else []) := by
    rw [Bytes_eq]; rfl
  rw [Read_header_ok _ _ (by simp only [NewReader]; omega)]
  simp only [NewReader, headerAt_Bytes p hw, Nat.zero_add]
  by_cases hpos : p.DataSize > 0
  · have hfit : 18 + p.DataSize ≤ p.Bytes.length := by
      rw [hlen]; simp only [hpos, if_true]; omega
    rw [Reader_Read_ok _ _ _ hpos hfit]
    have htake : (p.Bytes.drop 18).take p.DataSize = p.Data := by
      rw [hdrop]; simp only [hpos, if_true]; rw [hs]; exact List.take_length _
    have hl : p.Data.length = p.DataSize := hs.symm
    simp only [hpos, if_true, htake, hl, Nat.sub_self, List.replicate_zero, List.append_nil,
      ne_eq, not_true_eq_false, if_false, true_and]
  · have hz : p.Data = [] := by
      have : p.Data.length = 0 := by omega
      exact List.length_eq_zero.mp this
    simp only [hpos, if_false, true_and]
    cases p
    simp_all

theorem Read_Bytes_roundtrip_witness :
    samplePackage.WellTyped ∧ samplePackage.DataSize = samplePackage.Data.length ∧
      (DataPackage.zero.Read (NewReader samplePackage.Bytes)).2.2 = none ∧
      (DataPackage.zero.Read (NewReader samplePackage.Bytes)).1 = samplePackage :=
  ⟨by decide, by decide, Read_Bytes_roundtrip samplePackage (by decide) (by decide)⟩

/-- C2. `Read` returns no error exactly when the input holds the complete
18-byte header followed by at least as many bytes as the little-endian
payload-length field (header bytes 16 and 17) declares. -/
theorem Read_no_error_iff (data : DataPackage) (b : List Nat) :
    (data.Read (NewReader b)).2.2 = none ↔
      18 ≤ b.length ∧ 18 + le16 ((b.drop 16).take 2) ≤ b.length := by
  by_cases h : 18 ≤ b.length
  swap
  · obtain ⟨e, he⟩ := Read_header_short data (NewReader b) (by simp only [NewReader]; omega)
    rw [he]
    constructor
    · intro hc; cases hc
    · intro hc; exact absurd hc.1 h
  rw [Read_header_ok _ _ (by simp only [NewReader]; omega)]
  simp only [NewReader, headerAt, Nat.zero_add]
  by_cases hpos : le16 ((b.drop 16).take 2) > 0
  · simp only [hpos, if_true]
    by_cases hfit : 18 + le16 ((b.drop 16).take 2) ≤ b.length
    · rw [Reader_Read_ok _ _ _ hpos hfit]
      have hl : ((b.drop 18).take (le16 ((b.drop 16).take 2))).length
          = le16 ((b.drop 16).take 2) := by
        simp [List.length_take, List.length_drop]; omega
      simp only [hl, ne_eq, not_true_eq_false, if_false, true_iff]
      exact ⟨h, hfit⟩
    · have hne := Reader_Read_short b 18 _ hpos hfit
      simp only [ne_eq, hne, not_false_eq_true, if_true]
      constructor
      · intro hc; cases hc
      · intro hc; exact absurd hc.2 hfit
  · simp only [hpos, if_false, true_iff]
    omega

theorem Read_ok_header (data : DataPackage) (r : Reader) (h : (data.Read r).2.2 = none) :
    r.i + 18 ≤ r.s.length := by
  by_contra hc
  obtain ⟨e, he⟩ := Read_header_short data r hc
  rw [he] at h
  cases h

theorem Read_ok_eq (data : DataPackage) (r : Reader) (h : (data.Read r).2.2 = none) :
    data.Read r =
      ({ headerAt data r.s r.i with
          Data := if (headerAt data r.s r.i).DataSize > 0
            then (r.s.drop (r.i + 18)).take (headerAt data r.s r.i).DataSize else data.Data },
        ⟨r.s, r.i + 18 + (headerAt data r.s r.i).DataSize⟩, none) := by
  have hh := Read_ok_header data r h
  rw [Read_header_ok _ _ hh] at h ⊢
  by_cases hpos : (headerAt data r.s r.i).DataSize > 0
  · simp only [hpos, if_true] at h ⊢
    by_cases hfit : r.i + 18 + (headerAt data r.s r.i).DataSize ≤ r.s.length
    · rw [Reader_Read_ok _ _ _ hpos hfit]
      have hl : ((r.s.drop (r.i + 18)).take (headerAt data r.s r.i).DataSize).length
          = (headerAt data r.s r.i).DataSize := by
        simp [List.length_take, List.length_drop]; omega
      simp only [hl, ne_eq, not_true_eq_false, if_false, Nat.sub_self, List.replicate_zero,
        List.append_nil]
    · have hne := Reader_Read_short r.s (r.i + 18) _ hpos hfit
      simp only [ne_eq, hne, not_false_eq_true, if_true] at h
      cases h
  · have hz : (headerAt data r.s r.i).DataSize = 0 := by omega
    simp only [hpos, if_false]
    refine Prod.ext ?_ (Prod.ext ?_ rfl)
    · rfl
    · simp only [hz, Nat.add_zero]

/-- C3. On success `Read` into a fresh package decodes the fields little-endian
in wire order and takes as `Data` exactly the `DataSize` bytes after the header. -/
theorem Read_decodes_wire_order (b : List Nat)
    (h : (DataPackage.zero.Read (NewReader b)).2.2 = none) :
    (DataPackage.zero.Read (NewReader b)).1.Time = le64 (b.take 8) ∧
    (DataPackage.zero.Read (NewReader b)).1.DeviceId = toInt32 (le32 ((b.drop 8).take 4)) ∧
    (DataPackage.zero.Read (NewReader b)).1.SensorCount = le16 ((b.drop 12).take 2) ∧
    (DataPackage.zero.Read (NewReader b)).1.BitsPerSensor = b.getD 14 0 ∧
    (DataPackage.zero.Read (NewReader b)).1.Format = b.getD 15 0 ∧
    (DataPackage.zero.Read (NewReader b)).1.DataSize = le16 ((b.drop 16).take 2) ∧
    (DataPackage.zero.Read (NewReader b)).1.Data
      = (b.drop 18).take (DataPackage.zero.Read (NewReader b)).1.DataSize := by
  rw [Read_ok_eq _ _ h]
  simp only [NewReader, headerAt, Nat.zero_add, List.drop_zero, getD_take_one_drop, true_and]
  split
  · trivial
  · rename_i hz
    have : le16 ((b.drop 16).take 2) = 0 := by omega
    simp [this, DataPackage.zero]

theorem Read_decodes_wire_order_witness :
    (DataPackage.zero.Read (NewReader sampleWire)).2.2 = none ∧
    (DataPackage.zero.Read (NewReader sampleWire)).1.Time = le64 (sampleWire.take 8) ∧
    (DataPackage.zero.Read (NewReader sampleWire)).1.DeviceId
      = toInt32 (le32 ((sampleWire.drop 8).take 4)) ∧
    (DataPackage.zero.Read (NewReader sampleWire)).1.SensorCount
      = le16 ((sampleWire.drop 12).take 2) ∧
    (DataPackage.zero.Read (NewReader sampleWire)).1.BitsPerSensor = sampleWire.getD 14 0 ∧
    (DataPackage.zero.Read (NewReader sampleWire)).1.Format = sampleWire.getD 15 0 ∧
    (DataPackage.zero.Read (NewReader sampleWire)).1.DataSize
      = le16 ((sampleWire.drop 16).take 2) ∧
    (DataPackage.zero.Read (NewReader sampleWire)).1.Data
      = (sampleWire.drop 18).take (DataPackage.zero.Read (NewReader sampleWire)).1.DataSize :=
  ⟨by decide, Read_decodes_wire_order sampleWire (by decide)⟩

/-- C4, as the code has it. On every successful `Read` the reader advances by
exactly `18 + DataSize` bytes: the header is 8 + 4 + 2 + 1 + 1 + 2 = 18 bytes. -/
theorem Read_advances_18_plus_DataSize (data : DataPackage) (r : Reader)
    (h : (data.Read r).2.2 = none) :
    (data.Read r).2.1.s = r.s ∧
      (data.Read r).2.1.i = r.i + 18 + (data.Read r).1.DataSize := by
  rw [Read_ok_eq _ _ h]
  exact ⟨rfl, rfl⟩

theorem Read_advances_18_plus_DataSize_witness :
    (DataPackage.zero.Read (NewReader [0, 0, 0, 0, 0, 0, 0, 0, 5, 0, 0, 0, 1, 0, 8, 7, 1, 0,
        42])).2.2 = none ∧
      (DataPackage.zero.Read (NewReader [0, 0, 0, 0, 0, 0, 0, 0, 5, 0, 0, 0, 1, 0, 8, 7, 1, 0,
        42])).2.1.i = 0 + 18 + 1 :=
  ⟨by decide,
   (Read_advances_18_plus_DataSize DataPackage.zero
      (NewReader [0, 0, 0, 0, 0, 0, 0, 0, 5, 0, 0, 0, 1, 0, 8, 7, 1, 0, 42]) (by decide)).2⟩

/-- C4 as stated fails: reading a header with an empty payload succeeds and
leaves the reader 18 bytes further, not 17. -/
theorem Read_advance_not_17 :
    (DataPackage.zero.Read (NewReader [0, 0, 0, 0, 0, 0, 0, 0, 0, 0, 0, 0, 0, 0, 0, 7, 0,
        0])).2.2 = none ∧
      (DataPackage.zero.Read (NewReader [0, 0, 0, 0, 0, 0, 0, 0, 0, 0, 0, 0, 0, 0, 0, 7, 0,
        0])).2.1.i ≠ 0 + 17 +
        (DataPackage.zero.Read (NewReader [0, 0, 0, 0, 0, 0, 0, 0, 0, 0, 0, 0, 0, 0, 0, 7, 0,
          0])).1.DataSize := by
  decide

/-- C5 at its failing input: 32768 sensors of 16 bits need 65536 bytes, the
`uint16` product `SensorCount*2` wraps to 0, and a package with `DataSize = 0`
is reported as not compressed. -/
theorem IsCompressed_wraps_at_32768 :
    ({ Time := 0, DeviceId := 0, SensorCount := 32768, BitsPerSensor := 16, Format := 0,
        DataSize := 0, Data := [] } : DataPackage).IsCompressed = false ∧
      (0 : Nat) ≠ expectedLength 32768 16 := by
  decide

/-- Where the expected length fits the 16-bit `DataSize`, `IsCompressed` is the
comparison with the expected length. -/
theorem IsCompressed_iff_of_fits (p : DataPackage) (hf : p.Format = PackageFormatData)
    (hb : p.BitsPerSensor = 2 ∨ p.BitsPerSensor = 8 ∨ p.BitsPerSensor = 16 ∨
      p.BitsPerSensor = 32)
    (hs : p.SensorCount < 2 ^ 16)
    (hfit : expectedLength p.SensorCount p.BitsPerSensor < 2 ^ 16) :
    p.IsCompressed = true ↔ p.DataSize ≠ expectedLength p.SensorCount p.BitsPerSensor := by
  unfold expectedLength at hfit ⊢
  unfold DataPackage.IsCompressed
  rcases hb with hb | hb | hb | hb <;>
    simp [hf, hb] at hfit ⊢ <;>
    (try split) <;> omega

/-- C6. `IsCompressed` is false whenever the format is not raw samples, and
whenever the bit width is none of 2, 8, 16 and 32. -/
theorem IsCompressed_false_of_other (p : DataPackage)
    (h : p.Format ≠ PackageFormatData ∨
      (p.BitsPerSensor ≠ 2 ∧ p.BitsPerSensor ≠ 8 ∧ p.BitsPerSensor ≠ 16 ∧
        p.BitsPerSensor ≠ 32)) :
    p.IsCompressed = false := by
  unfold DataPackage.IsCompressed
  rcases h with h | ⟨h2, h8, h16, h32⟩
  · simp only [h, ne_eq, not_false_eq_true, if_true]
  · simp only [h2, h8, h16, h32, if_false, ite_self]

theorem IsCompressed_false_of_other_witness :
    (heartbeatPackage.Format ≠ PackageFormatData ∨
      (heartbeatPackage.BitsPerSensor ≠ 2 ∧ heartbeatPackage.BitsPerSensor ≠ 8 ∧
        heartbeatPackage.BitsPerSensor ≠ 16 ∧ heartbeatPackage.BitsPerSensor ≠ 32)) ∧
      heartbeatPackage.IsCompressed = false :=
  ⟨by decide, IsCompressed_false_of_other heartbeatPackage (by decide)⟩

/-! ## Lemmas on the record helpers -/

theorem sliceFrom_bind {α : Type} (b : List Nat) (k : Nat) (f : List Nat → Option α)
    (h : k ≤ b.length) : (sliceFrom b k).bind f = f (b.drop k) := by
  simp only [sliceFrom, h, if_true, Option.some_bind]

theorem byteAt_eq (b : List Nat) (k : Nat) (h : k < b.length) :
    byteAt b k = some (b.getD k 0) := by
  simp [byteAt, List.getD_eq_getElem?_getD, List.getElem?_eq_getElem h]

theorem Uint16_eq (b : List Nat) (h : 2 ≤ b.length) : LittleEndian.Uint16 b = some (le16 b) := by
  simp only [LittleEndian.Uint16, h, if_true]

theorem Uint32_eq (b : List Nat) (h : 4 ≤ b.length) : LittleEndian.Uint32 b = some (le32 b) := by
  simp only [LittleEndian.Uint32, h, if_true]

theorem Uint64_eq (b : List Nat) (h : 8 ≤ b.length) : LittleEndian.Uint64 b = some (le64 b) := by
  simp only [LittleEndian.Uint64, h, if_true]

theorem getObjectStateEvent_eq (d : List Nat) (h : 6 ≤ d.length) :
    getObjectStateEvent d = some (le32 d, le16 (d.drop 4)) := by
  unfold getObjectStateEvent
  rw [Uint32_eq d (by omega), sliceFrom_bind d 4 _ (by omega),
    Uint16_eq _ (by rw [List.length_drop]; omega)]
  rfl

theorem getNwaChangeStateEvent_eq (d : List Nat) (h : 8 ≤ d.length) :
    getNwaChangeStateEvent d = some (le32 d, toInt32 (le32 (d.drop 4))) := by
  unfold getNwaChangeStateEvent
  rw [Uint32_eq d (by omega), sliceFrom_bind d 4 _ (by omega),
    Uint32_eq _ (by rw [List.length_drop]; omega)]
  rfl

theorem getObjectFailureEvent_eq (d : List Nat) (h : 17 ≤ d.length) :
    getObjectFailureEvent d = some
      { IsStarted := if d.getD 8 0 = 0 then false else true
        ObjectId := le32 d
        FailureId := le32 (d.drop 4)
        EventTime := GetTimeFromUnixMicroseconds (le64 (d.drop 9)) } := by
  unfold getObjectFailureEvent
  rw [Uint32_eq d (by omega), sliceFrom_bind d 4 _ (by omega),
    Uint32_eq _ (by rw [List.length_drop]; omega), byteAt_eq d 8 (by omega),
    sliceFrom_bind d 9 _ (by omega), Uint64_eq _ (by rw [List.length_drop]; omega)]
  rfl

theorem getObjectFpEvent_eq (d : List Nat) (h : 20 ≤ d.length) :
    getObjectFpEvent d = some
      { ObjectId := le32 (d.drop 4)
        AlgorithmId := le32 d
        StepIndex := toInt32 (le32 (d.drop 8))
        EventTime := GetTimeFromUnixMicroseconds (le64 (d.drop 12)) } := by
  unfold getObjectFpEvent
  rw [Uint32_eq d (by omega), sliceFrom_bind d 4 _ (by omega),
    Uint32_eq _ (by rw [List.length_drop]; omega), sliceFrom_bind d 8 _ (by omega),
    Uint32_eq _ (by rw [List.length_drop]; omega),
    sliceFrom_bind d 12 _ (by omega), Uint64_eq _ (by rw [List.length_drop]; omega)]
  rfl

theorem getObjectNwaLeaveEvent_eq (d : List Nat) (h : 21 ≤ d.length) :
    getObjectNwaLeaveEvent d = some
      { ObjectId := le32 d
        AlgorithmId := le32 (d.drop 4)
        StateId := toInt32 (le32 (d.drop 8))
        IsStarted := if d.getD 12 0 = 0 then false else true
        EventTime := GetTimeFromUnixMicroseconds (le64 (d.drop 13)) } := by
  unfold getObjectNwaLeaveEvent
  rw [Uint32_eq d (by omega), sliceFrom_bind d 4 _ (by omega),
    Uint32_eq _ (by rw [List.length_drop]; omega), sliceFrom_bind d 8 _ (by omega),
    Uint32_eq _ (by rw [List.length_drop]; omega), byteAt_eq d 12 (by omega),
    sliceFrom_bind d 13 _ (by omega), Uint64_eq _ (by rw [List.length_drop]; omega)]
  rfl

theorem getObjectAccidentEvent_eq (d : List Nat) (h : 25 ≤ d.length) :
    getObjectAccidentEvent d = some
      { ObjectId := le32 (d.drop 5)
        AccidentType := d.getD 0 0
        AlgorithmId := toInt32 (le32 (d.drop 1))
        StartTime := GetTimeFromUnixMicroseconds (le64 (d.drop 9))
        EndTime := GetTimeFromUnixMicroseconds (le64 (d.drop 17)) } := by
  unfold getObjectAccidentEvent
  have h1 : 4 ≤ (d.drop 1).length := by rw [List.length_drop]; omega
  have h0 : sliceFrom d 1 = some (d.drop 1) := by
    simp only [sliceFrom, show 1 ≤ d.length by omega, if_true]
  rw [byteAt_eq d 0 (by omega), h0, sliceFrom_bind d 5 _ (by omega),
    Uint32_eq _ (by rw [List.length_drop]; omega),
    sliceFrom_bind d 9 _ (by omega), Uint64_eq _ (by rw [List.length_drop]; omega),
    sliceFrom_bind d 17 _ (by omega), Uint64_eq _ (by rw [List.length_drop]; omega)]
  simp only [Option.bind_eq_bind, Option.some_bind, Option.pure_def, h1, if_true]

/-- The size of a tag-6 record, `13 + int(nObjectStates) * 8`, stays below
`2 ^ 36`: the count is a `uint32`, so the 64-bit `int` sum does not wrap. -/
theorem nwaSize_lt (b : List Nat) : 13 + le32 b * 8 < 2 ^ 36 := by
  have h : le32 b < 2 ^ 32 := Nat.mod_lt _ (by norm_num)
  omega

theorem nwaStatesLoop_isSome (data : List Nat) (t : Int) (n : Nat) :
    ∀ (j : Nat) (m : GoMap Nat ObjectNwaStateChangeEventInfo),
      (j + n) * 8 + 13 ≤ data.length → ∃ m1, nwaStatesLoop data t n j m = some m1 := by
  induction n with
  | zero => intro j m _; exact ⟨m, rfl⟩
  | succ n ih =>
    intro j m h
    have hle : (j * 8 + 13) % 2 ^ 32 ≤ j * 8 + 13 := Nat.mod_le _ _
    unfold nwaStatesLoop
    rw [sliceFrom_bind _ _ _ (by omega),
      getNwaChangeStateEvent_eq _ (by rw [List.length_drop]; omega)]
    exact ih (j + 1) _ (by omega)

/-! ## One iteration of the record loop -/

theorem getEventRecordSize_unknown (m : Nat) (h : ¬ (1 ≤ m ∧ m ≤ 8)) :
    getEventRecordSize m = (0, some (ParseError.unknownMarker m)) := by
  have h1 : m ≠ 1 := by omega
  have h2 : m ≠ 2 := by omega
  have h3 : m ≠ 3 := by omega
  have h4 : m ≠ 4 := by omega
  have h5 : m ≠ 5 := by omega
  have h6 : m ≠ 6 := by omega
  have h7 : m ≠ 7 := by omega
  have h8 : m ≠ 8 := by omega
  simp only [getEventRecordSize, PackageEventTypeFailureInfo, PackageEventTypeTimeMeasurement,
    PackageEventTypeNoConnectionWithDevice, PackageEventTypeFailurePrognosisAlgorithmInfo,
    PackageEventTypeNwaLeaveInfo, PackageEventTypeNwaStateChangeInfo,
    PackageEventTypeAccidentInfo, PackageEventTypeObjectState, h1, h2, h3, h4, h5, h6, h7, h8,
    if_false]

theorem eventsStep_unknown (only : Bool) (data : List Nat) (i m : Nat) (res : PackageEvents)
    (hb : byteAt data i = some m) (h : ¬ (1 ≤ m ∧ m ≤ 8)) :
    eventsStep only data i res = Step.fail (ParseError.unknownMarker m) := by
  unfold eventsStep
  rw [hb]
  simp only [getEventRecordSize_unknown m h]

theorem eventsStep_overrun (only : Bool) (data : List Nat) (i m size : Nat)
    (res : PackageEvents) (hb : byteAt data i = some m)
    (hs : getEventRecordSize m = (size, none)) (h : i + size > data.length) :
    eventsStep only data i res = Step.fail ParseError.incorrectPackageSize := by
  unfold eventsStep
  rw [hb]
  simp only [hs, h, if_true]

theorem eventsStep_failure (only : Bool) (data : List Nat) (i : Nat) (res : PackageEvents)
    (hb : byteAt data i = some 1) (h : i + 18 ≤ data.length) :
    ∃ ev, getObjectFailureEvent (data.drop (i + 1)) = some ev ∧
      eventsStep only data i res = Step.next (i + 18)
        (if only = true then res else { res with
          ObjectFailuresChangeState := res.ObjectFailuresChangeState.set
            { ObjectId := ev.ObjectId, FailureId := ev.FailureId } ev }) := by
  have hev := getObjectFailureEvent_eq (data.drop (i + 1)) (by rw [List.length_drop]; omega)
  refine ⟨_, hev, ?_⟩
  have hg : ¬ i + 18 > data.length := by omega
  unfold eventsStep
  rw [hb]
  simp only [getEventRecordSize, PackageEventTypeFailureInfo, if_true, hg, if_false]
  rw [sliceFrom_bind _ _ _ (by omega), hev]
  cases only <;> rfl

theorem eventsStep_skip (only : Bool) (data : List Nat) (i m : Nat) (res : PackageEvents)
    (hb : byteAt data i = some m) (hm : m = 2 ∨ m = 3)
    (h : i + (getEventRecordSize m).1 ≤ data.length) :
    eventsStep only data i res = Step.next (i + (getEventRecordSize m).1) res := by
  unfold eventsStep
  rw [hb]
  rcases hm with hm | hm
  · subst hm
    simp only [getEventRecordSize, PackageEventTypeFailureInfo, PackageEventTypeTimeMeasurement,
      PackageEventTypeNoConnectionWithDevice, PackageEventTypeFailurePrognosisAlgorithmInfo,
      PackageEventTypeNwaLeaveInfo, PackageEventTypeNwaStateChangeInfo,
      PackageEventTypeAccidentInfo, PackageEventTypeObjectState, Nat.reduceEqDiff, if_true,
      if_false] at h ⊢
    simp only [show ¬ i + 13 > data.length by omega, if_false]
  · subst hm
    simp only [getEventRecordSize, PackageEventTypeFailureInfo, PackageEventTypeTimeMeasurement,
      PackageEventTypeNoConnectionWithDevice, PackageEventTypeFailurePrognosisAlgorithmInfo,
      PackageEventTypeNwaLeaveInfo, PackageEventTypeNwaStateChangeInfo,
      PackageEventTypeAccidentInfo, PackageEventTypeObjectState, Nat.reduceEqDiff, if_true,
      if_false] at h ⊢
    simp only [show ¬ i + 18 > data.length by omega, if_false]

theorem eventsStep_accident (only : Bool) (data : List Nat) (i : Nat) (res : PackageEvents)
    (hb : byteAt data i = some 7) (h : i + 26 ≤ data.length) :
    ∃ ev, getObjectAccidentEvent (data.drop (i + 1)) = some ev ∧
      eventsStep only data i res = Step.next (i + 26)
        (if only = true then res else { res with
          ObjectAccidentsChangeState := res.ObjectAccidentsChangeState.set
            { ObjectId := ev.ObjectId, AccidentId := ev.AlgorithmId } ev }) := by
  have hev := getObjectAccidentEvent_eq (data.drop (i + 1)) (by rw [List.length_drop]; omega)
  refine ⟨_, hev, ?_⟩
  have hg : ¬ i + 26 > data.length := by omega
  unfold eventsStep
  rw [hb]
  simp only [getEventRecordSize, PackageEventTypeFailureInfo, PackageEventTypeTimeMeasurement,
    PackageEventTypeNoConnectionWithDevice, PackageEventTypeFailurePrognosisAlgorithmInfo,
    PackageEventTypeNwaLeaveInfo, PackageEventTypeNwaStateChangeInfo,
    PackageEventTypeAccidentInfo, PackageEventTypeObjectState, Nat.reduceEqDiff, if_true,
    if_false, hg]
  rw [sliceFrom_bind _ _ _ (by omega), hev]
  cases only <;> rfl

theorem eventsStep_fp (only : Bool) (data : List Nat) (i : Nat) (res : PackageEvents)
    (hb : byteAt data i = some 4) (h : i + 21 ≤ data.length) :
    ∃ ev, getObjectFpEvent (data.drop (i + 1)) = some ev ∧
      eventsStep only data i res = Step.next (i + 21)
        (if only = true then res else { res with
          ObjectFpChangeState := res.ObjectFpChangeState.set ev.ObjectId ev }) := by
  have hev := getObjectFpEvent_eq (data.drop (i + 1)) (by rw [List.length_drop]; omega)
  refine ⟨_, hev, ?_⟩
  have hg : ¬ i + 21 > data.length := by omega
  unfold eventsStep
  rw [hb]
  simp only [getEventRecordSize, PackageEventTypeFailureInfo, PackageEventTypeTimeMeasurement,
    PackageEventTypeNoConnectionWithDevice, PackageEventTypeFailurePrognosisAlgorithmInfo,
    PackageEventTypeNwaLeaveInfo, PackageEventTypeNwaStateChangeInfo,
    PackageEventTypeAccidentInfo, PackageEventTypeObjectState, Nat.reduceEqDiff, if_true,
    if_false, hg]
  rw [sliceFrom_bind _ _ _ (by omega), hev]
  cases only <;> rfl

theorem eventsStep_nwaLeave (only : Bool) (data : List Nat) (i : Nat) (res : PackageEvents)
    (hb : byteAt data i = some 5) (h : i + 22 ≤ data.length) :
    ∃ ev, getObjectNwaLeaveEvent (data.drop (i + 1)) = some ev ∧
      eventsStep only data i res = Step.next (i + 22)
        (if only = true then res else { res with
          ObjectNwaChangeState := res.ObjectNwaChangeState.set ev.ObjectId ev }) := by
  have hev := getObjectNwaLeaveEvent_eq (data.drop (i + 1)) (by rw [List.length_drop]; omega)
  refine ⟨_, hev, ?_⟩
  have hg : ¬ i + 22 > data.length := by omega
  unfold eventsStep
  rw [hb]
  simp only [getEventRecordSize, PackageEventTypeFailureInfo, PackageEventTypeTimeMeasurement,
    PackageEventTypeNoConnectionWithDevice, PackageEventTypeFailurePrognosisAlgorithmInfo,
    PackageEventTypeNwaLeaveInfo, PackageEventTypeNwaStateChangeInfo,
    PackageEventTypeAccidentInfo, PackageEventTypeObjectState, Nat.reduceEqDiff, if_true,
    if_false, hg]
  rw [sliceFrom_bind _ _ _ (by omega), hev]
  cases only <;> rfl

theorem eventsStep_objectState (only : Bool) (data : List Nat) (i : Nat) (res : PackageEvents)
    (hb : byteAt data i = some 8) (h : i + 7 ≤ data.length) :
    eventsStep only data i res = Step.next (i + 7)
      { res with
        ObjectStates :=
          res.ObjectStates.set (le32 (data.drop (i + 1))) (le16 ((data.drop (i + 1)).drop 4)) } := by
  have hev := getObjectStateEvent_eq (data.drop (i + 1)) (by rw [List.length_drop]; omega)
  have hg : ¬ i + 7 > data.length := by omega
  unfold eventsStep
  rw [hb]
  simp only [getEventRecordSize, PackageEventTypeFailureInfo, PackageEventTypeTimeMeasurement,
    PackageEventTypeNoConnectionWithDevice, PackageEventTypeFailurePrognosisAlgorithmInfo,
    PackageEventTypeNwaLeaveInfo, PackageEventTypeNwaStateChangeInfo,
    PackageEventTypeAccidentInfo, PackageEventTypeObjectState, Nat.reduceEqDiff, if_true,
    if_false, hg]
  rw [sliceFrom_bind _ _ _ (by omega), hev]

theorem eventsStep_nwaState_overrun (only : Bool) (data : List Nat) (i : Nat)
    (res : PackageEvents) (hb : byteAt data i = some 6) (h : i + 13 ≤ data.length)
    (hn : i + (13 + le32 (data.drop (i + 9)) * 8) > data.length) :
    eventsStep only data i res = Step.fail ParseError.incorrectNwaSize := by
  have hg : ¬ i + 13 > data.length := by omega
  unfold eventsStep
  rw [hb]
  simp only [getEventRecordSize, PackageEventTypeFailureInfo, PackageEventTypeTimeMeasurement,
    PackageEventTypeNoConnectionWithDevice, PackageEventTypeFailurePrognosisAlgorithmInfo,
    PackageEventTypeNwaLeaveInfo, PackageEventTypeNwaStateChangeInfo,
    PackageEventTypeAccidentInfo, PackageEventTypeObjectState, Nat.reduceEqDiff, if_true,
    if_false, hg]
  rw [sliceFrom_bind _ _ _ (by omega), Uint64_eq _ (by rw [List.length_drop]; omega)]
  simp only []
  rw [sliceFrom_bind _ _ _ (by omega), Uint32_eq _ (by rw [List.length_drop]; omega)]
  simp only [hn, if_true]

theorem eventsStep_nwaState (only : Bool) (data : List Nat) (i : Nat) (res : PackageEvents)
    (hb : byteAt data i = some 6)
    (hn : i + (13 + le32 (data.drop (i + 9)) * 8) ≤ data.length) :
    ∃ m, nwaStatesLoop data (GetTimeFromUnixMicroseconds (le64 (data.drop (i + 1))))
          (le32 (data.drop (i + 9))) 0 res.ObjectNwaStateLeaveEnter = some m ∧
      eventsStep only data i res = Step.next (i + (13 + le32 (data.drop (i + 9)) * 8))
        (if only = true then res else { res with ObjectNwaStateLeaveEnter := m }) := by
  obtain ⟨m, hm⟩ := nwaStatesLoop_isSome data
    (GetTimeFromUnixMicroseconds (le64 (data.drop (i + 1)))) (le32 (data.drop (i + 9))) 0
    res.ObjectNwaStateLeaveEnter (by omega)
  refine ⟨m, hm, ?_⟩
  have hg : ¬ i + 13 > data.length := by omega
  have hg2 : ¬ i + (13 + le32 (data.drop (i + 9)) * 8) > data.length := by omega
  unfold eventsStep
  rw [hb]
  simp only [getEventRecordSize, PackageEventTypeFailureInfo, PackageEventTypeTimeMeasurement,
    PackageEventTypeNoConnectionWithDevice, PackageEventTypeFailurePrognosisAlgorithmInfo,
    PackageEventTypeNwaLeaveInfo, PackageEventTypeNwaStateChangeInfo,
    PackageEventTypeAccidentInfo, PackageEventTypeObjectState, Nat.reduceEqDiff, if_true,
    if_false, hg]
  rw [sliceFrom_bind _ _ _ (by omega), Uint64_eq _ (by rw [List.length_drop]; omega)]
  simp only []
  rw [sliceFrom_bind _ _ _ (by omega), Uint32_eq _ (by rw [List.length_drop]; omega)]
  simp only [hg2, if_false, hm]
  cases only <;> rfl

/-! ## The record loop against the record table of the spec -/

theorem head?_drop_eq (data : List Nat) (i : Nat) (hi : i < data.length) :
    (data.drop i).head? = some (data.getD i 0) := by
  simp [List.head?_drop, List.getD_eq_getElem?_getD, List.getElem?_eq_getElem hi]

theorem drop_drop_add (data : List Nat) (i k : Nat) :
    (data.drop i).drop k = data.drop (i + k) := by
  simp [List.drop_drop, Nat.add_comm]

theorem recordLength_of_head (b : List Nat) (m : Nat) (hh : b.head? = some m) :
    recordLength b =
      if m = 1 then some 18
      else if m = 2 then some 13
      else if m = 3 then some 18
      else if m = 4 then some 21
      else if m = 5 then some 22
      else if m = 6 then some (13 + 8 * le32 (b.drop 9))
      else if m = 7 then some 26
      else if m = 8 then some 7
      else none := by
  unfold recordLength
  rw [hh]

theorem recordLength_ge (b : List Nat) (L : Nat) (h : recordLength b = some L) : 7 ≤ L := by
  unfold recordLength at h
  split at h
  · cases h
  · repeat' split at h
    all_goals first | (cases h; omega) | cases h

theorem eventsStep_none (only : Bool) (data : List Nat) (i : Nat) (res : PackageEvents)
    (hi : i < data.length) (h : recordLength (data.drop i) = none) :
    eventsStep only data i res = Step.fail (ParseError.unknownMarker (data.getD i 0)) := by
  apply eventsStep_unknown only data i _ res (byteAt_eq data i hi)
  intro hm
  rw [recordLength_of_head _ _ (head?_drop_eq data i hi)] at h
  obtain ⟨h1, h8⟩ := hm
  generalize data.getD i 0 = m at h h1 h8
  interval_cases m <;> simp at h

theorem eventsStep_some_fits (only : Bool) (data : List Nat) (i L : Nat) (res : PackageEvents)
    (h : recordLength (data.drop i) = some L) (hfit : i + L ≤ data.length) :
    ∃ res1, eventsStep only data i res = Step.next (i + L) res1 := by
  have hL := recordLength_ge _ _ h
  have hi : i < data.length := by omega
  have hb := byteAt_eq data i hi
  rw [recordLength_of_head _ _ (head?_drop_eq data i hi), drop_drop_add] at h
  generalize data.getD i 0 = m at h hb
  by_cases hr : 1 ≤ m ∧ m ≤ 8
  swap
  · have h1 : m ≠ 1 := by omega
    have h2 : m ≠ 2 := by omega
    have h3 : m ≠ 3 := by omega
    have h4 : m ≠ 4 := by omega
    have h5 : m ≠ 5 := by omega
    have h6 : m ≠ 6 := by omega
    have h7 : m ≠ 7 := by omega
    have h8 : m ≠ 8 := by omega
    simp only [h1, h2, h3, h4, h5, h6, h7, h8, if_false] at h
    cases h
  obtain ⟨h1, h8⟩ := hr
  interval_cases m
  · simp only [if_true, Option.some.injEq] at h
    subst h
    obtain ⟨ev, _, he⟩ := eventsStep_failure only data i res hb hfit
    exact ⟨_, he⟩
  · simp only [Nat.reduceEqDiff, if_true, if_false, Option.some.injEq] at h
    subst h
    exact ⟨_, eventsStep_skip only data i 2 res hb (Or.inl rfl) (by simpa [getEventRecordSize,
      PackageEventTypeFailureInfo, PackageEventTypeTimeMeasurement] using hfit)⟩
  · simp only [Nat.reduceEqDiff, if_true, if_false, Option.some.injEq] at h
    subst h
    exact ⟨_, eventsStep_skip only data i 3 res hb (Or.inr rfl) (by simpa [getEventRecordSize,
      PackageEventTypeFailureInfo, PackageEventTypeTimeMeasurement,
      PackageEventTypeNoConnectionWithDevice] using hfit)⟩
  · simp only [Nat.reduceEqDiff, if_true, if_false, Option.some.injEq] at h
    subst h
    obtain ⟨ev, _, he⟩ := eventsStep_fp only data i res hb hfit
    exact ⟨_, he⟩
  · simp only [Nat.reduceEqDiff, if_true, if_false, Option.some.injEq] at h
    subst h
    obtain ⟨ev, _, he⟩ := eventsStep_nwaLeave only data i res hb hfit
    exact ⟨_, he⟩
  · simp only [Nat.reduceEqDiff, if_true, if_false, Option.some.injEq] at h
    subst h
    obtain ⟨mp, _, he⟩ := eventsStep_nwaState only data i res hb (by omega)
    rw [Nat.mul_comm] at he
    exact ⟨_, he⟩
  · simp only [Nat.reduceEqDiff, if_true, if_false, Option.some.injEq] at h
    subst h
    obtain ⟨ev, _, he⟩ := eventsStep_accident only data i res hb hfit
    exact ⟨_, he⟩
  · simp only [Nat.reduceEqDiff, if_true, if_false, Option.some.injEq] at h
    subst h
    exact ⟨_, eventsStep_objectState only data i res hb hfit⟩

theorem eventsStep_some_overrun (only : Bool) (data : List Nat) (i L : Nat)
    (res : PackageEvents) (hi : i < data.length)
    (h : recordLength (data.drop i) = some L) (hover : ¬ i + L ≤ data.length) :
    ∃ e, eventsStep only data i res = Step.fail e := by
  have hb := byteAt_eq data i hi
  rw [recordLength_of_head _ _ (head?_drop_eq data i hi), drop_drop_add] at h
  generalize data.getD i 0 = m at h hb
  by_cases h6 : m = 6
  · subst h6
    simp only [Nat.reduceEqDiff, if_true, if_false, Option.some.injEq] at h
    subst h
    by_cases h13 : i + 13 ≤ data.length
    · exact ⟨_, eventsStep_nwaState_overrun only data i res hb h13 (by omega)⟩
    · exact ⟨_, eventsStep_overrun only data i 6 13 res hb (by
        simp [getEventRecordSize, PackageEventTypeFailureInfo, PackageEventTypeTimeMeasurement,
          PackageEventTypeNoConnectionWithDevice, PackageEventTypeFailurePrognosisAlgorithmInfo,
          PackageEventTypeNwaLeaveInfo, PackageEventTypeNwaStateChangeInfo]) (by omega)⟩
  · refine ⟨_, eventsStep_overrun only data i m L res hb ?_ (by omega)⟩
    simp only [h6, if_false] at h
    simp only [getEventRecordSize, PackageEventTypeFailureInfo, PackageEventTypeTimeMeasurement,
      PackageEventTypeNoConnectionWithDevice, PackageEventTypeFailurePrognosisAlgorithmInfo,
      PackageEventTypeNwaLeaveInfo, PackageEventTypeNwaStateChangeInfo,
      PackageEventTypeAccidentInfo, PackageEventTypeObjectState, h6, if_false]
    repeat' split at h
    all_goals cases h
    all_goals simp_all

theorem le32_drop_append (r rest : List Nat) (k : Nat) (h : k + 4 ≤ r.length) :
    le32 ((r ++ rest).drop k) = le32 (r.drop k) := by
  have e : ∀ j, j < 4 → ((r ++ rest).drop k).getD j 0 = (r.drop k).getD j 0 := by
    intro j hj
    have hlt : k + j < r.length := by omega
    simp [List.getD_eq_getElem?_getD, List.getElem?_drop, List.getElem?_append_left hlt]
  simp only [le32, e 0 (by omega), e 1 (by omega), e 2 (by omega), e 3 (by omega)]

theorem le32_drop_take (b : List Nat) (k L : Nat) (h : k + 4 ≤ L) :
    le32 ((b.take L).drop k) = le32 (b.drop k) := by
  have e : ∀ j, j < 4 → ((b.take L).drop k).getD j 0 = (b.drop k).getD j 0 := by
    intro j hj
    have hlt : k + j < L := by omega
    simp [List.getD_eq_getElem?_getD, List.getElem?_drop, List.getElem?_take, hlt]
  simp only [le32, e 0 (by omega), e 1 (by omega), e 2 (by omega), e 3 (by omega)]

theorem recordLength_nil : recordLength [] = none := rfl

theorem recordLength_append (r rest : List Nat) (h : IsRecord r) :
    recordLength (r ++ rest) = some r.length := by
  unfold IsRecord at h
  cases r with
  | nil => rw [recordLength_nil] at h; cases h
  | cons m tl =>
    have hL := recordLength_ge _ _ h
    rw [← h, recordLength_of_head (m :: tl) m rfl,
      recordLength_of_head ((m :: tl) ++ rest) m rfl]
    by_cases h6 : m = 6
    · subst h6
      rw [recordLength_of_head (6 :: tl) 6 rfl] at h
      simp only [Nat.reduceEqDiff, if_true, if_false, Option.some.injEq] at h
      rw [le32_drop_append _ _ 9 (by omega)]
    · simp only [h6, if_false]

theorem recordLength_take (b : List Nat) (L : Nat) (h : recordLength b = some L)
    (hl : L ≤ b.length) : recordLength (b.take L) = some L := by
  have hL := recordLength_ge _ _ h
  cases b with
  | nil => rw [recordLength_nil] at h; cases h
  | cons m tl =>
    have hh : ((m :: tl).take L).head? = some m := by
      rw [List.head?_take]
      simp only [show L ≠ 0 by omega, if_false, List.head?_cons]
    rw [← h, recordLength_of_head (m :: tl) m rfl, recordLength_of_head _ m hh]
    by_cases h6 : m = 6
    · subst h6
      rw [recordLength_of_head (6 :: tl) 6 rfl] at h
      simp only [Nat.reduceEqDiff, if_true, if_false, Option.some.injEq] at h
      rw [le32_drop_take _ 9 L (by omega)]
    · simp only [h6, if_false]

theorem splits_of_record (b : List Nat) (L : Nat) (h : recordLength b = some L)
    (hl : L ≤ b.length) (hs : SplitsIntoRecords (b.drop L)) : SplitsIntoRecords b := by
  have hr : IsRecord (b.take L) := by
    unfold IsRecord
    rw [recordLength_take b L h hl, List.length_take, Nat.min_eq_left hl]
  have := SplitsIntoRecords.cons (b.take L) (b.drop L) hr hs
  rwa [List.take_append_drop] at this

theorem splits_inv (b : List Nat) (hs : SplitsIntoRecords b) (hne : b ≠ []) :
    ∃ L, recordLength b = some L ∧ L ≤ b.length ∧ SplitsIntoRecords (b.drop L) := by
  cases hs with
  | nil => exact absurd rfl hne
  | cons r rest hr hrest =>
    refine ⟨r.length, recordLength_append r rest hr, ?_, ?_⟩
    · rw [List.length_append]; omega
    · rw [List.drop_left]; exact hrest

theorem eventsLoop_spec (only : Bool) (data : List Nat) :
    ∀ (fuel i : Nat) (res : PackageEvents), i ≤ data.length → data.length < fuel + i →
      (SplitsIntoRecords (data.drop i) →
        ∃ ev, eventsLoop only data fuel i res = Outcome.ret (some ev) none) ∧
      (¬ SplitsIntoRecords (data.drop i) →
        ∃ e, eventsLoop only data fuel i res = Outcome.ret none (some e)) := by
  intro fuel
  induction fuel with
  | zero => intro i res h1 h2; omega
  | succ fuel ih =>
    intro i res hle hfuel
    by_cases hi : i < data.length
    swap
    · have hd : data.drop i = [] := List.drop_of_length_le (by omega)
      rw [hd]
      simp only [eventsLoop, hi, if_false]
      exact ⟨fun _ => ⟨res, rfl⟩, fun hn => absurd SplitsIntoRecords.nil hn⟩
    have hne : data.drop i ≠ [] := by
      intro hc
      have := congrArg List.length hc
      rw [List.length_drop, List.length_nil] at this
      omega
    have hlen : (data.drop i).length = data.length - i := List.length_drop _ _
    cases hrl : recordLength (data.drop i) with
    | none =>
      have hstep := eventsStep_none only data i res hi hrl
      simp only [eventsLoop, hi, if_true, hstep]
      refine ⟨fun hs => ?_, fun _ => ⟨_, rfl⟩⟩
      obtain ⟨L, hL, _, _⟩ := splits_inv _ hs hne
      rw [hrl] at hL
      cases hL
    | some L =>
      have hL7 := recordLength_ge _ _ hrl
      by_cases hfit : i + L ≤ data.length
      · obtain ⟨res1, hstep⟩ := eventsStep_some_fits only data i L res hrl hfit
        simp only [eventsLoop, hi, if_true, hstep]
        obtain ⟨ihs, ihn⟩ := ih (i + L) res1 hfit (by omega)
        constructor
        · intro hs
          obtain ⟨L1, hL1, _, hrest⟩ := splits_inv _ hs hne
          rw [hrl] at hL1
          cases hL1
          rw [drop_drop_add] at hrest
          exact ihs hrest
        · intro hn
          apply ihn
          intro hrest
          apply hn
          apply splits_of_record _ L hrl (by omega)
          rw [drop_drop_add]
          exact hrest
      · obtain ⟨e, hstep⟩ := eventsStep_some_overrun only data i L res hi hrl hfit
        simp only [eventsLoop, hi, if_true, hstep]
        refine ⟨fun hs => ?_, fun _ => ⟨_, rfl⟩⟩
        obtain ⟨L1, hL1, hle1, _⟩ := splits_inv _ hs hne
        rw [hrl] at hL1
        cases hL1
        omega

theorem eventsLoop_error_nil (only : Bool) (data : List Nat) :
    ∀ (fuel i : Nat) (res : PackageEvents) (v : Option PackageEvents) (e : ParseError),
      eventsLoop only data fuel i res = Outcome.ret v (some e) → v = none := by
  intro fuel
  induction fuel with
  | zero => intro i res v e h; simp only [eventsLoop] at h; cases h
  | succ fuel ih =>
    intro i res v e h
    unfold eventsLoop at h
    split at h
    · split at h
      · exact ih _ _ _ _ h
      · cases h; rfl
      · cases h
    · cases h

theorem not_splits_bad_tag (t : Nat) (rest : List Nat) (ht : ¬ (1 ≤ t ∧ t ≤ 8))
    (pre : List Nat) (hp : SplitsIntoRecords pre) :
    ¬ SplitsIntoRecords (pre ++ t :: rest) := by
  induction hp with
  | nil =>
    intro hs
    obtain ⟨L, hL, _, _⟩ := splits_inv _ hs (by simp)
    rw [List.nil_append, recordLength_of_head (t :: rest) t rfl] at hL
    have h1 : t ≠ 1 := by omega
    have h2 : t ≠ 2 := by omega
    have h3 : t ≠ 3 := by omega
    have h4 : t ≠ 4 := by omega
    have h5 : t ≠ 5 := by omega
    have h6 : t ≠ 6 := by omega
    have h7 : t ≠ 7 := by omega
    have h8 : t ≠ 8 := by omega
    simp only [h1, h2, h3, h4, h5, h6, h7, h8, if_false] at hL
    cases hL
  | cons r pre1 hr _ ih =>
    intro hs
    rw [List.append_assoc] at hs
    have hne : r ++ (pre1 ++ t :: rest) ≠ [] := by
      intro hc
      have := congrArg List.length hc
      simp at this
    obtain ⟨L, hL, _, hrest⟩ := splits_inv _ hs hne
    rw [recordLength_append r _ hr] at hL
    cases hL
    rw [List.drop_left] at hrest
    exact ih hrest

/-! ## The event decoder: formats, errors and framing -/

/-- C7. For every format other than event stream (1), changed-object-states
(8) and changed-failure-states (9), `ParseEventsPackage` returns a nil
aggregate with the error, whatever the payload. -/
theorem ParseEventsPackage_other_format (p : DataPackage)
    (h : p.Format ≠ 1 ∧ p.Format ≠ 8 ∧ p.Format ≠ 9) :
    p.ParseEventsPackage = Outcome.ret none (some ParseError.expectedEventsFormat) := by
  obtain ⟨h1, h8, h9⟩ := h
  simp only [DataPackage.ParseEventsPackage, PackageFormatEvents,
    PackageFormatChangeObjectStates, PackageFormatChangeFailureStates, h1, h8, h9, or_self,
    not_false_eq_true, if_true]

theorem ParseEventsPackage_other_format_witness :
    (heartbeatPackage.Format ≠ 1 ∧ heartbeatPackage.Format ≠ 8 ∧ heartbeatPackage.Format ≠ 9) ∧
      heartbeatPackage.ParseEventsPackage
        = Outcome.ret none (some ParseError.expectedEventsFormat) :=
  ⟨by decide, ParseEventsPackage_other_format heartbeatPackage (by decide)⟩

theorem ParseEventsPackage_spec (p : DataPackage)
    (hf : p.Format = 1 ∨ p.Format = 8 ∨ p.Format = 9) :
    (SplitsIntoRecords p.Data → ∃ ev, p.ParseEventsPackage = Outcome.ret (some ev) none) ∧
    (¬ SplitsIntoRecords p.Data → ∃ e, p.ParseEventsPackage = Outcome.ret none (some e)) := by
  have hfmt : p.Format = PackageFormatEvents ∨ p.Format = PackageFormatChangeObjectStates ∨
      p.Format = PackageFormatChangeFailureStates := hf
  have h := eventsLoop_spec (decide (p.Format = PackageEventTypeObjectState)) p.Data
    (p.Data.length + 1) 0 PackageEvents.empty (by omega) (by omega)
  rw [List.drop_zero] at h
  simp only [DataPackage.ParseEventsPackage, hfmt, not_true_eq_false, if_false]
  exact h

/-- C8. `ParseEventsPackage` never returns a partial aggregate. An error comes
with a nil aggregate; and when the payload is a run of whole records followed by
a byte that is no tag of 1..8, the call returns an error and nil. -/
theorem ParseEventsPackage_error_nil (p : DataPackage) :
    (∀ v e, p.ParseEventsPackage = Outcome.ret v (some e) → v = none) ∧
    (∀ pre t rest, p.Data = pre ++ t :: rest → SplitsIntoRecords pre → ¬ (1 ≤ t ∧ t ≤ 8) →
      ∃ e, p.ParseEventsPackage = Outcome.ret none (some e)) := by
  constructor
  · intro v e h
    unfold DataPackage.ParseEventsPackage at h
    split at h
    · cases h; rfl
    · exact eventsLoop_error_nil _ _ _ _ _ _ _ h
  · intro pre t rest hd hpre ht
    by_cases hf : p.Format = 1 ∨ p.Format = 8 ∨ p.Format = 9
    · apply (ParseEventsPackage_spec p hf).2
      rw [hd]
      exact not_splits_bad_tag t rest ht pre hpre
    · have hf1 : p.Format ≠ 1 ∧ p.Format ≠ 8 ∧ p.Format ≠ 9 := by
        refine ⟨fun h => hf (Or.inl h), fun h => hf (Or.inr (Or.inl h)),
          fun h => hf (Or.inr (Or.inr h))⟩
      obtain ⟨h1, h8, h9⟩ := hf1
      refine ⟨ParseError.expectedEventsFormat, ?_⟩
      simp only [DataPackage.ParseEventsPackage, PackageFormatEvents,
        PackageFormatChangeObjectStates, PackageFormatChangeFailureStates, h1, h8, h9, or_self,
        not_false_eq_true, if_true]

theorem ParseEventsPackage_error_nil_witness :
    badTagPackage.Data = [8, 100, 0, 0, 0, 1, 0] ++ 9 :: [] ∧
      SplitsIntoRecords [8, 100, 0, 0, 0, 1, 0] ∧ ¬ (1 ≤ 9 ∧ 9 ≤ 8) ∧
      ∃ e, badTagPackage.ParseEventsPackage = Outcome.ret none (some e) :=
  have hs : SplitsIntoRecords [8, 100, 0, 0, 0, 1, 0] :=
    SplitsIntoRecords.cons [8, 100, 0, 0, 0, 1, 0] [] (by decide) SplitsIntoRecords.nil
  ⟨rfl, hs, by decide,
    (ParseEventsPackage_error_nil badTagPackage).2 [8, 100, 0, 0, 0, 1, 0] 9 [] rfl hs
      (by decide)⟩

/-- C9. For the formats 1, 8 and 9, `ParseEventsPackage` succeeds exactly when
the payload splits, from offset 0 to its last byte, into whole records of the
spec's table (tag 6 with `13 + 8 * N` bytes); in every other case it returns an
error, so an overrunning record or trailing bytes make it fail. An empty
payload succeeds, with the empty aggregate. -/
theorem ParseEventsPackage_ok_iff_splits (p : DataPackage)
    (hf : p.Format = 1 ∨ p.Format = 8 ∨ p.Format = 9) :
    ((∃ ev, p.ParseEventsPackage = Outcome.ret (some ev) none) ↔ SplitsIntoRecords p.Data) ∧
    (¬ SplitsIntoRecords p.Data → ∃ e, p.ParseEventsPackage = Outcome.ret none (some e)) ∧
    (p.Data = [] → p.ParseEventsPackage = Outcome.ret (some PackageEvents.empty) none) := by
  obtain ⟨hs, hn⟩ := ParseEventsPackage_spec p hf
  refine ⟨⟨fun hok => ?_, hs⟩, hn, fun hd => ?_⟩
  · by_contra hc
    obtain ⟨e, he⟩ := hn hc
    obtain ⟨ev, hev⟩ := hok
    rw [he] at hev
    cases hev
  · have hfmt : p.Format = PackageFormatEvents ∨ p.Format = PackageFormatChangeObjectStates ∨
        p.Format = PackageFormatChangeFailureStates := hf
    simp only [DataPackage.ParseEventsPackage, hfmt, not_true_eq_false, if_false, hd,
      List.length_nil, Nat.zero_add, eventsLoop, Nat.lt_irrefl]

theorem ParseEventsPackage_ok_iff_splits_witness :
    (stateThenBatchPackage.Format = 1 ∨ stateThenBatchPackage.Format = 8 ∨
      stateThenBatchPackage.Format = 9) ∧
    (((∃ ev, stateThenBatchPackage.ParseEventsPackage = Outcome.ret (some ev) none) ↔
        SplitsIntoRecords stateThenBatchPackage.Data) ∧
      (¬ SplitsIntoRecords stateThenBatchPackage.Data →
        ∃ e, stateThenBatchPackage.ParseEventsPackage = Outcome.ret none (some e)) ∧
      (stateThenBatchPackage.Data = [] →
        stateThenBatchPackage.ParseEventsPackage
          = Outcome.ret (some PackageEvents.empty) none)) :=
  ⟨by decide, ParseEventsPackage_ok_iff_splits stateThenBatchPackage (by decide)⟩

/-- C10 at its failing input: a discrete-state record followed by a tag-6 batch
holding the single pair (200, 5). The batch starts at offset 7, but the pair is
decoded from payload bytes 13..20, so the reserve-mode-state map gets the key
17303302 and has no entry for object 200. -/
theorem ParseEventsPackage_batch_at_offset_7 :
    stateThenBatchPackage.ParseEventsPackage = Outcome.ret (some
      { ObjectStates := ⟨[(100, 1)]⟩
        ObjectFailuresChangeState := ⟨[]⟩
        ObjectAccidentsChangeState := ⟨[]⟩
        ObjectFpChangeState := ⟨[]⟩
        ObjectNwaChangeState := ⟨[]⟩
        ObjectNwaStateLeaveEnter := ⟨[(17303302,
          { ObjectId := 17303302, NwaStateId := -939524096,
            EventTime := GetTimeFromUnixMicroseconds 0x0807060504030201 })]⟩ }) none := by
  decide

/-! ## Go maps and last write wins -/

theorem find?_filter_of_imp {α : Type} (p q : α → Bool) (l : List α)
    (h : ∀ x, p x = true → q x = true) : (l.filter q).find? p = l.find? p := by
  induction l with
  | nil => rfl
  | cons a t ih =>
    by_cases hq : q a = true
    · rw [List.filter_cons_of_pos hq]
      by_cases hp : p a = true
      · rw [List.find?_cons_of_pos _ hp, List.find?_cons_of_pos _ hp]
      · rw [List.find?_cons_of_neg _ hp, List.find?_cons_of_neg _ hp, ih]
    · rw [List.filter_cons_of_neg hq]
      have hp : ¬ p a = true := fun hp => hq (h a hp)
      rw [List.find?_cons_of_neg _ hp, ih]

theorem GoMap.get?_set {κ ν : Type} [DecidableEq κ] (m : GoMap κ ν) (k : κ) (v : ν) (k1 : κ) :
    (m.set k v).get? k1 = if k = k1 then some v else m.get? k1 := by
  unfold GoMap.set GoMap.get?
  by_cases h : k = k1
  · subst h
    simp
  · simp only [h, if_false]
    rw [List.find?_cons_of_neg _ (by simpa using h)]
    rw [find?_filter_of_imp]
    intro x hx
    simp only [decide_eq_true_eq] at hx ⊢
    rw [hx]
    exact fun hc => h hc.symm

theorem GoMap.get?_empty {κ ν : Type} [DecidableEq κ] (k : κ) :
    (GoMap.empty : GoMap κ ν).get? k = none := rfl

theorem GoMap.mem_keys_iff {κ ν : Type} [DecidableEq κ] (m : GoMap κ ν) (k : κ) :
    k ∈ m.keys ↔ m.get? k ≠ none := by
  unfold GoMap.keys GoMap.get?
  simp only [List.mem_map, ne_eq, Option.map_eq_none', List.find?_eq_none, decide_eq_true_eq,
    not_forall, Classical.not_not]
  constructor
  · rintro ⟨e, he, rfl⟩
    exact ⟨e, he, rfl⟩
  · rintro ⟨e, he, hk⟩
    exact ⟨e, he, hk⟩

theorem get?_applyWrite {κ ν : Type} [DecidableEq κ] (decode : List Nat → Option (κ × ν))
    (m : GoMap κ ν) (r : List Nat) (k : κ) :
    (applyWrite decode m r).get? k = lastWriteFrom decode k (m.get? k) [r] := by
  unfold applyWrite lastWriteFrom
  cases h : decode r with
  | none => simp [h]
  | some kv =>
    obtain ⟨k1, v⟩ := kv
    simp [h, GoMap.get?_set]

theorem get?_foldl_applyWrite {κ ν : Type} [DecidableEq κ]
    (decode : List Nat → Option (κ × ν)) (rs : List (List Nat)) (k : κ) :
    ∀ m : GoMap κ ν, (rs.foldl (applyWrite decode) m).get? k
      = lastWriteFrom decode k (m.get? k) rs := by
  induction rs with
  | nil => intro m; rfl
  | cons r rs ih =>
    intro m
    rw [List.foldl_cons, ih, get?_applyWrite]
    rfl

theorem lastWriteFrom_ne_none {κ ν : Type} [DecidableEq κ]
    (decode : List Nat → Option (κ × ν)) (k : κ) (rs : List (List Nat)) :
    ∀ init : Option ν, lastWriteFrom decode k init rs ≠ none ↔
      (init ≠ none ∨ ∃ r ∈ rs, ∃ v, decode r = some (k, v)) := by
  induction rs with
  | nil => intro init; simp [lastWriteFrom]
  | cons r rs ih =>
    intro init
    have hstep : lastWriteFrom decode k init (r :: rs)
        = lastWriteFrom decode k (lastWriteFrom decode k init [r]) rs := rfl
    rw [hstep, ih]
    cases h : decode r with
    | none => simp [lastWriteFrom, h]
    | some kv =>
      obtain ⟨k1, v⟩ := kv
      by_cases hk : k1 = k
      · subst hk
        simp [lastWriteFrom, h]
      · simp [lastWriteFrom, h, hk]

/-! ## The record helpers read the record only -/

theorem getD_append_left (a rest : List Nat) (k : Nat) (h : k < a.length) :
    (a ++ rest).getD k 0 = a.getD k 0 := by
  simp [List.getD_eq_getElem?_getD, List.getElem?_append_left h]

theorem le16_drop_append (r rest : List Nat) (k : Nat) (h : k + 2 ≤ r.length) :
    le16 ((r ++ rest).drop k) = le16 (r.drop k) := by
  have e : ∀ j, j < 2 → ((r ++ rest).drop k).getD j 0 = (r.drop k).getD j 0 := by
    intro j hj
    have hlt : k + j < r.length := by omega
    simp [List.getD_eq_getElem?_getD, List.getElem?_drop, List.getElem?_append_left hlt]
  simp only [le16, e 0 (by omega), e 1 (by omega)]

theorem le64_drop_append (r rest : List Nat) (k : Nat) (h : k + 8 ≤ r.length) :
    le64 ((r ++ rest).drop k) = le64 (r.drop k) := by
  have e : ∀ j, j < 8 → ((r ++ rest).drop k).getD j 0 = (r.drop k).getD j 0 := by
    intro j hj
    have hlt : k + j < r.length := by omega
    simp [List.getD_eq_getElem?_getD, List.getElem?_drop, List.getElem?_append_left hlt]
  simp only [le64, e 0 (by omega), e 1 (by omega), e 2 (by omega), e 3 (by omega),
    e 4 (by omega), e 5 (by omega), e 6 (by omega), e 7 (by omega)]

theorem le32_append (a rest : List Nat) (h : 4 ≤ a.length) : le32 (a ++ rest) = le32 a := by
  have := le32_drop_append a rest 0 (by omega)
  simpa using this

theorem getObjectStateEvent_append (a rest : List Nat) (h : 6 ≤ a.length) :
    getObjectStateEvent (a ++ rest) = getObjectStateEvent a := by
  rw [getObjectStateEvent_eq a h,
    getObjectStateEvent_eq (a ++ rest) (by rw [List.length_append]; omega),
    le32_append a rest (by omega), le16_drop_append a rest 4 (by omega)]

theorem getObjectFailureEvent_append (a rest : List Nat) (h : 17 ≤ a.length) :
    getObjectFailureEvent (a ++ rest) = getObjectFailureEvent a := by
  rw [getObjectFailureEvent_eq a h,
    getObjectFailureEvent_eq (a ++ rest) (by rw [List.length_append]; omega),
    le32_append a rest (by omega), le32_drop_append a rest 4 (by omega),
    le64_drop_append a rest 9 (by omega), getD_append_left a rest 8 (by omega)]

theorem getObjectFpEvent_append (a rest : List Nat) (h : 20 ≤ a.length) :
    getObjectFpEvent (a ++ rest) = getObjectFpEvent a := by
  rw [getObjectFpEvent_eq a h,
    getObjectFpEvent_eq (a ++ rest) (by rw [List.length_append]; omega),
    le32_append a rest (by omega), le32_drop_append a rest 4 (by omega),
    le32_drop_append a rest 8 (by omega), le64_drop_append a rest 12 (by omega)]

theorem getObjectNwaLeaveEvent_append (a rest : List Nat) (h : 21 ≤ a.length) :
    getObjectNwaLeaveEvent (a ++ rest) = getObjectNwaLeaveEvent a := by
  rw [getObjectNwaLeaveEvent_eq a h,
    getObjectNwaLeaveEvent_eq (a ++ rest) (by rw [List.length_append]; omega),
    le32_append a rest (by omega), le32_drop_append a rest 4 (by omega),
    le32_drop_append a rest 8 (by omega), le64_drop_append a rest 13 (by omega),
    getD_append_left a rest 12 (by omega)]

theorem getObjectAccidentEvent_append (a rest : List Nat) (h : 25 ≤ a.length) :
    getObjectAccidentEvent (a ++ rest) = getObjectAccidentEvent a := by
  rw [getObjectAccidentEvent_eq a h,
    getObjectAccidentEvent_eq (a ++ rest) (by rw [List.length_append]; omega),
    le32_drop_append a rest 1 (by omega), le32_drop_append a rest 5 (by omega),
    le64_drop_append a rest 9 (by omega), le64_drop_append a rest 17 (by omega),
    getD_append_left a rest 0 (by omega)]

/-- The facts the loop needs about a whole record `m :: tl` found at offset `i`. -/
theorem record_at (data : List Nat) (i m : Nat) (tl rest : List Nat)
    (hd : data.drop i = (m :: tl) ++ rest) :
    byteAt data i = some m ∧ i + (m :: tl).length ≤ data.length ∧
      data.drop (i + 1) = tl ++ rest := by
  have hlen := congrArg List.length hd
  rw [List.length_drop, List.length_append, List.length_cons] at hlen
  have hi : i < data.length := by omega
  refine ⟨?_, ?_, ?_⟩
  · have hh := head?_drop_eq data i hi
    rw [hd] at hh
    simp only [List.cons_append, List.head?_cons, Option.some.injEq] at hh
    rw [byteAt_eq data i hi, ← hh]
  · rw [List.length_cons]; omega
  · rw [← drop_drop_add, hd]
    rfl

/-! ## One iteration of the record loop, as writes to the maps -/

theorem eventsStep_writes (only : Bool) (data : List Nat) (i : Nat) (r rest : List Nat)
    (res : PackageEvents) (hr : IsRecord r) (hd : data.drop i = r ++ rest) :
    ∃ res1, eventsStep only data i res = Step.next (i + r.length) res1 ∧
      res1.ObjectStates = applyWrite stateOfRecord res.ObjectStates r ∧
      res1.ObjectFailuresChangeState =
        (if only = true then res.ObjectFailuresChangeState
         else applyWrite failureOfRecord res.ObjectFailuresChangeState r) ∧
      res1.ObjectAccidentsChangeState =
        (if only = true then res.ObjectAccidentsChangeState
         else applyWrite accidentOfRecord res.ObjectAccidentsChangeState r) ∧
      res1.ObjectFpChangeState =
        (if only = true then res.ObjectFpChangeState
         else applyWrite fpOfRecord res.ObjectFpChangeState r) ∧
      res1.ObjectNwaChangeState =
        (if only = true then res.ObjectNwaChangeState
         else applyWrite nwaLeaveOfRecord res.ObjectNwaChangeState r) ∧
      (only = true → res1.ObjectNwaStateLeaveEnter = res.ObjectNwaStateLeaveEnter) := by
  cases r with
  | nil => exact absurd hr (by unfold IsRecord; rw [recordLength_nil]; exact fun h => by cases h)
  | cons m tl =>
  obtain ⟨hb, hfit, hdrop⟩ := record_at data i m tl rest hd
  have hL : recordLength (m :: tl) = some (m :: tl).length := hr
  rw [recordLength_of_head (m :: tl) m rfl] at hL
  by_cases hrange : 1 ≤ m ∧ m ≤ 8
  swap
  · have h1 : m ≠ 1 := by omega
    have h2 : m ≠ 2 := by omega
    have h3 : m ≠ 3 := by omega
    have h4 : m ≠ 4 := by omega
    have h5 : m ≠ 5 := by omega
    have h6 : m ≠ 6 := by omega
    have h7 : m ≠ 7 := by omega
    have h8 : m ≠ 8 := by omega
    simp only [h1, h2, h3, h4, h5, h6, h7, h8, if_false] at hL
    cases hL
  obtain ⟨hm1, hm8⟩ := hrange
  interval_cases m
  · -- tag 1: failure
    simp only [if_true, Option.some.injEq] at hL
    rw [← hL] at hfit ⊢
    have htl : 17 ≤ tl.length := by rw [List.length_cons] at hL; omega
    obtain ⟨ev, hev, hstep⟩ := eventsStep_failure only data i res hb hfit
    rw [hdrop, getObjectFailureEvent_append tl rest htl] at hev
    refine ⟨_, hstep, ?_⟩
    cases only <;>
      simp [applyWrite, stateOfRecord, failureOfRecord, accidentOfRecord, fpOfRecord,
        nwaLeaveOfRecord, hev]
  · -- tag 2: skipped
    simp only [Nat.reduceEqDiff, if_true, if_false, Option.some.injEq] at hL
    rw [← hL] at hfit ⊢
    have hstep := eventsStep_skip only data i 2 res hb (Or.inl rfl) (by
      simpa [getEventRecordSize, PackageEventTypeFailureInfo, PackageEventTypeTimeMeasurement]
        using hfit)
    refine ⟨_, hstep, ?_⟩
    cases only <;>
      simp [applyWrite, stateOfRecord, failureOfRecord, accidentOfRecord, fpOfRecord,
        nwaLeaveOfRecord]
  · -- tag 3: skipped
    simp only [Nat.reduceEqDiff, if_true, if_false, Option.some.injEq] at hL
    rw [← hL] at hfit ⊢
    have hstep := eventsStep_skip only data i 3 res hb (Or.inr rfl) (by
      simpa [getEventRecordSize, PackageEventTypeFailureInfo, PackageEventTypeTimeMeasurement,
        PackageEventTypeNoConnectionWithDevice] using hfit)
    refine ⟨_, hstep, ?_⟩
    cases only <;>
      simp [applyWrite, stateOfRecord, failureOfRecord, accidentOfRecord, fpOfRecord,
        nwaLeaveOfRecord]
  · -- tag 4: prognosis
    simp only [Nat.reduceEqDiff, if_true, if_false, Option.some.injEq] at hL
    rw [← hL] at hfit ⊢
    have htl : 20 ≤ tl.length := by rw [List.length_cons] at hL; omega
    obtain ⟨ev, hev, hstep⟩ := eventsStep_fp only data i res hb hfit
    rw [hdrop, getObjectFpEvent_append tl rest htl] at hev
    refine ⟨_, hstep, ?_⟩
    cases only <;>
      simp [applyWrite, stateOfRecord, failureOfRecord, accidentOfRecord, fpOfRecord,
        nwaLeaveOfRecord, hev]
  · -- tag 5: leave/enter
    simp only [Nat.reduceEqDiff, if_true, if_false, Option.some.injEq] at hL
    rw [← hL] at hfit ⊢
    have htl : 21 ≤ tl.length := by rw [List.length_cons] at hL; omega
    obtain ⟨ev, hev, hstep⟩ := eventsStep_nwaLeave only data i res hb hfit
    rw [hdrop, getObjectNwaLeaveEvent_append tl rest htl] at hev
    refine ⟨_, hstep, ?_⟩
    cases only <;>
      simp [applyWrite, stateOfRecord, failureOfRecord, accidentOfRecord, fpOfRecord,
        nwaLeaveOfRecord, hev]
  · -- tag 6: batch of reserve-mode states
    simp only [Nat.reduceEqDiff, if_true, if_false, Option.some.injEq] at hL
    have hN : le32 (data.drop (i + 9)) = le32 ((6 :: tl).drop 9) := by
      rw [← drop_drop_add, hd, le32_drop_append _ _ 9 (by omega)]
    obtain ⟨mp, _, hstep⟩ := eventsStep_nwaState only data i res hb (by rw [hN]; omega)
    rw [hN, Nat.mul_comm, hL] at hstep
    refine ⟨_, hstep, ?_⟩
    cases only <;>
      simp [applyWrite, stateOfRecord, failureOfRecord, accidentOfRecord, fpOfRecord,
        nwaLeaveOfRecord]
  · -- tag 7: accident
    simp only [Nat.reduceEqDiff, if_true, if_false, Option.some.injEq] at hL
    rw [← hL] at hfit ⊢
    have htl : 25 ≤ tl.length := by rw [List.length_cons] at hL; omega
    obtain ⟨ev, hev, hstep⟩ := eventsStep_accident only data i res hb hfit
    rw [hdrop, getObjectAccidentEvent_append tl rest htl] at hev
    refine ⟨_, hstep, ?_⟩
    cases only <;>
      simp [applyWrite, stateOfRecord, failureOfRecord, accidentOfRecord, fpOfRecord,
        nwaLeaveOfRecord, hev]
  · -- tag 8: discrete state
    simp only [Nat.reduceEqDiff, if_true, if_false, Option.some.injEq] at hL
    rw [← hL] at hfit ⊢
    have htl : 6 ≤ tl.length := by rw [List.length_cons] at hL; omega
    have hstep := eventsStep_objectState only data i res hb hfit
    have hev := getObjectStateEvent_eq (data.drop (i + 1)) (by
      rw [hdrop, List.length_append]; omega)
    rw [hdrop, getObjectStateEvent_append tl rest htl] at hev
    rw [hdrop] at hstep
    refine ⟨_, hstep, ?_⟩
    cases only <;>
      simp [applyWrite, stateOfRecord, failureOfRecord, accidentOfRecord, fpOfRecord,
        nwaLeaveOfRecord, hev]

/-! ## The record loop, as a fold over the records -/

theorem splits_records (b : List Nat) (hs : SplitsIntoRecords b) :
    ∃ rs : List (List Nat), (∀ r ∈ rs, IsRecord r) ∧ b = rs.flatten := by
  induction hs with
  | nil => exact ⟨[], by simp, rfl⟩
  | cons r rest hr _ ih =>
    obtain ⟨rs, hrs, hb⟩ := ih
    refine ⟨r :: rs, ?_, ?_⟩
    · intro x hx
      rcases List.mem_cons.mp hx with h | h
      · rw [h]; exact hr
      · exact hrs x h
    · rw [List.flatten_cons, hb]

theorem flatten_records_splits (rs : List (List Nat)) (hrs : ∀ r ∈ rs, IsRecord r) :
    SplitsIntoRecords rs.flatten := by
  induction rs with
  | nil => exact SplitsIntoRecords.nil
  | cons r rs ih =>
    rw [List.flatten_cons]
    exact SplitsIntoRecords.cons r _ (hrs r (List.mem_cons_self _ _))
      (ih (fun x hx => hrs x (List.mem_cons_of_mem _ hx)))

theorem eventsLoop_writes (only : Bool) (data : List Nat) (rs : List (List Nat))
    (hrs : ∀ r ∈ rs, IsRecord r) :
    ∀ (fuel i : Nat) (res : PackageEvents), i ≤ data.length → data.drop i = rs.flatten →
      data.length < fuel + i →
      ∃ ev, eventsLoop only data fuel i res = Outcome.ret (some ev) none ∧
        ev.ObjectStates = rs.foldl (applyWrite stateOfRecord) res.ObjectStates ∧
        ev.ObjectFailuresChangeState =
          (if only = true then res.ObjectFailuresChangeState
           else rs.foldl (applyWrite failureOfRecord) res.ObjectFailuresChangeState) ∧
        ev.ObjectAccidentsChangeState =
          (if only = true then res.ObjectAccidentsChangeState
           else rs.foldl (applyWrite accidentOfRecord) res.ObjectAccidentsChangeState) ∧
        ev.ObjectFpChangeState =
          (if only = true then res.ObjectFpChangeState
           else rs.foldl (applyWrite fpOfRecord) res.ObjectFpChangeState) ∧
        ev.ObjectNwaChangeState =
          (if only = true then res.ObjectNwaChangeState
           else rs.foldl (applyWrite nwaLeaveOfRecord) res.ObjectNwaChangeState) ∧
        (only = true → ev.ObjectNwaStateLeaveEnter = res.ObjectNwaStateLeaveEnter) := by
  induction rs with
  | nil =>
    intro fuel i res hle hd hfuel
    have hlen := congrArg List.length hd
    rw [List.length_drop, List.flatten_nil, List.length_nil] at hlen
    have hi : ¬ i < data.length := by omega
    cases fuel with
    | zero => omega
    | succ fuel =>
      refine ⟨res, ?_, rfl, ?_, ?_, ?_, ?_, fun _ => rfl⟩
      · simp only [eventsLoop, hi, if_false]
      all_goals cases only <;> rfl
  | cons r rs ih =>
    intro fuel i res hle hd hfuel
    have hr : IsRecord r := hrs r (List.mem_cons_self _ _)
    have hr7 := recordLength_ge r r.length hr
    rw [List.flatten_cons] at hd
    have hlen := congrArg List.length hd
    rw [List.length_drop, List.length_append] at hlen
    have hi : i < data.length := by omega
    obtain ⟨res1, hstep, h1, h2, h3, h4, h5, h6⟩ :=
      eventsStep_writes only data i r rs.flatten res hr hd
    have hd1 : data.drop (i + r.length) = rs.flatten := by
      rw [← drop_drop_add, hd, List.drop_left]
    cases fuel with
    | zero => omega
    | succ fuel =>
      obtain ⟨ev, hev, g1, g2, g3, g4, g5, g6⟩ :=
        ih (fun x hx => hrs x (List.mem_cons_of_mem _ hx)) fuel (i + r.length) res1
          (by omega) hd1 (by omega)
      refine ⟨ev, ?_, ?_, ?_, ?_, ?_, ?_, ?_⟩
      · simp only [eventsLoop, hi, if_true, hstep]
        exact hev
      · rw [g1, h1]; rfl
      · rw [g2, h2]; cases only <;> rfl
      · rw [g3, h3]; cases only <;> rfl
      · rw [g4, h4]; cases only <;> rfl
      · rw [g5, h5]; cases only <;> rfl
      · intro ho; rw [g6 ho, h6 ho]

/-! ## The event decoder: what the maps hold -/

theorem ParseEventsPackage_writes (p : DataPackage)
    (hf : p.Format = 1 ∨ p.Format = 8 ∨ p.Format = 9) (rs : List (List Nat))
    (hrs : ∀ r ∈ rs, IsRecord r) (hd : p.Data = rs.flatten) :
    ∃ ev, p.ParseEventsPackage = Outcome.ret (some ev) none ∧
      ev.ObjectStates = rs.foldl (applyWrite stateOfRecord) GoMap.empty ∧
      ev.ObjectFailuresChangeState =
        (if p.Format = 8 then GoMap.empty
         else rs.foldl (applyWrite failureOfRecord) GoMap.empty) ∧
      ev.ObjectAccidentsChangeState =
        (if p.Format = 8 then GoMap.empty
         else rs.foldl (applyWrite accidentOfRecord) GoMap.empty) ∧
      ev.ObjectFpChangeState =
        (if p.Format = 8 then GoMap.empty
         else rs.foldl (applyWrite fpOfRecord) GoMap.empty) ∧
      ev.ObjectNwaChangeState =
        (if p.Format = 8 then GoMap.empty
         else rs.foldl (applyWrite nwaLeaveOfRecord) GoMap.empty) ∧
      (p.Format = 8 → ev.ObjectNwaStateLeaveEnter = GoMap.empty) := by
  have hfmt : p.Format = PackageFormatEvents ∨ p.Format = PackageFormatChangeObjectStates ∨
      p.Format = PackageFormatChangeFailureStates := hf
  obtain ⟨ev, hev, g1, g2, g3, g4, g5, g6⟩ :=
    eventsLoop_writes (decide (p.Format = PackageEventTypeObjectState)) p.Data rs hrs
      (p.Data.length + 1) 0 PackageEvents.empty (by omega) (by rw [List.drop_zero]; exact hd)
      (by omega)
  refine ⟨ev, ?_, g1, ?_, ?_, ?_, ?_, ?_⟩
  · simp only [DataPackage.ParseEventsPackage, hfmt, not_true_eq_false, if_false]
    exact hev
  · rw [g2]; simp only [PackageEventTypeObjectState, decide_eq_true_eq]; rfl
  · rw [g3]; simp only [PackageEventTypeObjectState, decide_eq_true_eq]; rfl
  · rw [g4]; simp only [PackageEventTypeObjectState, decide_eq_true_eq]; rfl
  · rw [g5]; simp only [PackageEventTypeObjectState, decide_eq_true_eq]; rfl
  · intro h8
    exact g6 (by simp only [PackageEventTypeObjectState, decide_eq_true_eq]; exact h8)

theorem ParseEventsPackage_accepted_records (p : DataPackage)
    (hf : p.Format = 1 ∨ p.Format = 8 ∨ p.Format = 9) (ev : PackageEvents)
    (h : p.ParseEventsPackage = Outcome.ret (some ev) none) :
    ∃ rs : List (List Nat), (∀ r ∈ rs, IsRecord r) ∧ p.Data = rs.flatten := by
  obtain ⟨_, hn⟩ := ParseEventsPackage_spec p hf
  have hs : SplitsIntoRecords p.Data := by
    by_contra hc
    obtain ⟨e, he⟩ := hn hc
    rw [he] at h
    cases h
  exact splits_records _ hs

theorem mem_keys_foldl_applyWrite {κ ν : Type} [DecidableEq κ]
    (decode : List Nat → Option (κ × ν)) (rs : List (List Nat)) (k : κ) :
    k ∈ (rs.foldl (applyWrite decode) GoMap.empty).keys ↔
      ∃ r ∈ rs, ∃ v, decode r = some (k, v) := by
  rw [GoMap.mem_keys_iff, get?_foldl_applyWrite, lastWriteFrom_ne_none]
  simp [GoMap.get?_empty]

/-- C11. Last write wins. When `ParseEventsPackage` accepts an event-stream
package, the payload is a sequence `rs` of whole records, and each of the maps
of discrete states (tag 8), failures (tag 1), accidents (tag 7), prognosis
events (tag 4) and leave/enter events (tag 5) holds exactly the keys of its
records and, under each key, what the last record with that key decodes to. -/
theorem ParseEventsPackage_last_write_wins (p : DataPackage) (hf : p.Format = 1)
    (ev : PackageEvents) (h : p.ParseEventsPackage = Outcome.ret (some ev) none) :
    ∃ rs : List (List Nat), (∀ r ∈ rs, IsRecord r) ∧ p.Data = rs.flatten ∧
      (∀ k, ev.ObjectStates.get? k = lastWrite stateOfRecord rs k) ∧
      (∀ k, k ∈ ev.ObjectStates.keys ↔ ∃ r ∈ rs, ∃ v, stateOfRecord r = some (k, v)) ∧
      (∀ k, ev.ObjectFailuresChangeState.get? k = lastWrite failureOfRecord rs k) ∧
      (∀ k, k ∈ ev.ObjectFailuresChangeState.keys ↔
        ∃ r ∈ rs, ∃ v, failureOfRecord r = some (k, v)) ∧
      (∀ k, ev.ObjectAccidentsChangeState.get? k = lastWrite accidentOfRecord rs k) ∧
      (∀ k, k ∈ ev.ObjectAccidentsChangeState.keys ↔
        ∃ r ∈ rs, ∃ v, accidentOfRecord r = some (k, v)) ∧
      (∀ k, ev.ObjectFpChangeState.get? k = lastWrite fpOfRecord rs k) ∧
      (∀ k, k ∈ ev.ObjectFpChangeState.keys ↔ ∃ r ∈ rs, ∃ v, fpOfRecord r = some (k, v)) ∧
      (∀ k, ev.ObjectNwaChangeState.get? k = lastWrite nwaLeaveOfRecord rs k) ∧
      (∀ k, k ∈ ev.ObjectNwaChangeState.keys ↔
        ∃ r ∈ rs, ∃ v, nwaLeaveOfRecord r = some (k, v)) := by
  have hf3 : p.Format = 1 ∨ p.Format = 8 ∨ p.Format = 9 := Or.inl hf
  obtain ⟨rs, hrs, hd⟩ := ParseEventsPackage_accepted_records p hf3 ev h
  obtain ⟨ev1, hev1, g1, g2, g3, g4, g5, _⟩ := ParseEventsPackage_writes p hf3 rs hrs hd
  rw [h] at hev1
  cases hev1
  have h8 : ¬ p.Format = 8 := by rw [hf]; decide
  simp only [h8, if_false] at g2 g3 g4 g5
  refine ⟨rs, hrs, hd, ?_, ?_, ?_, ?_, ?_, ?_, ?_, ?_, ?_, ?_⟩
  · intro k; rw [g1, get?_foldl_applyWrite]; rfl
  · intro k; rw [g1]; exact mem_keys_foldl_applyWrite _ _ _
  · intro k; rw [g2, get?_foldl_applyWrite]; rfl
  · intro k; rw [g2]; exact mem_keys_foldl_applyWrite _ _ _
  · intro k; rw [g3, get?_foldl_applyWrite]; rfl
  · intro k; rw [g3]; exact mem_keys_foldl_applyWrite _ _ _
  · intro k; rw [g4, get?_foldl_applyWrite]; rfl
  · intro k; rw [g4]; exact mem_keys_foldl_applyWrite _ _ _
  · intro k; rw [g5, get?_foldl_applyWrite]; rfl
  · intro k; rw [g5]; exact mem_keys_foldl_applyWrite _ _ _

theorem ParseEventsPackage_last_write_wins_witness :
    statesAndFailurePackage.Format = 1 ∧
    statesAndFailurePackage.ParseEventsPackage
      = Outcome.ret (some statesAndFailureEvents) none ∧
    ∃ rs : List (List Nat), (∀ r ∈ rs, IsRecord r) ∧
      statesAndFailurePackage.Data = rs.flatten ∧
      (∀ k, statesAndFailureEvents.ObjectStates.get? k = lastWrite stateOfRecord rs k) ∧
      (∀ k, k ∈ statesAndFailureEvents.ObjectStates.keys ↔
        ∃ r ∈ rs, ∃ v, stateOfRecord r = some (k, v)) ∧
      (∀ k, statesAndFailureEvents.ObjectFailuresChangeState.get? k
        = lastWrite failureOfRecord rs k) ∧
      (∀ k, k ∈ statesAndFailureEvents.ObjectFailuresChangeState.keys ↔
        ∃ r ∈ rs, ∃ v, failureOfRecord r = some (k, v)) ∧
      (∀ k, statesAndFailureEvents.ObjectAccidentsChangeState.get? k
        = lastWrite accidentOfRecord rs k) ∧
      (∀ k, k ∈ statesAndFailureEvents.ObjectAccidentsChangeState.keys ↔
        ∃ r ∈ rs, ∃ v, accidentOfRecord r = some (k, v)) ∧
      (∀ k, statesAndFailureEvents.ObjectFpChangeState.get? k = lastWrite fpOfRecord rs k) ∧
      (∀ k, k ∈ statesAndFailureEvents.ObjectFpChangeState.keys ↔
        ∃ r ∈ rs, ∃ v, fpOfRecord r = some (k, v)) ∧
      (∀ k, statesAndFailureEvents.ObjectNwaChangeState.get? k
        = lastWrite nwaLeaveOfRecord rs k) ∧
      (∀ k, k ∈ statesAndFailureEvents.ObjectNwaChangeState.keys ↔
        ∃ r ∈ rs, ∃ v, nwaLeaveOfRecord r = some (k, v)) :=
  ⟨by decide, by decide,
    ParseEventsPackage_last_write_wins statesAndFailurePackage (by decide)
      statesAndFailureEvents (by decide)⟩

/-- C12. Restricted format. On the same payload, `ParseEventsPackage` with
format 8 (changed object states) returns an error exactly when it does with
format 1 (event stream); and when it succeeds, so does format 1, the
`ObjectStates` map is the one format 1 yields, and the other five maps are
empty. -/
theorem ParseEventsPackage_changed_object_states (p : DataPackage) :
    ((∃ e, { p with Format := 8 }.ParseEventsPackage = Outcome.ret none (some e)) ↔
      (∃ e, { p with Format := 1 }.ParseEventsPackage = Outcome.ret none (some e))) ∧
    (∀ ev8, { p with Format := 8 }.ParseEventsPackage = Outcome.ret (some ev8) none →
      ∃ ev1, { p with Format := 1 }.ParseEventsPackage = Outcome.ret (some ev1) none ∧
        ev8.ObjectStates = ev1.ObjectStates ∧
        ev8.ObjectFailuresChangeState = GoMap.empty ∧
        ev8.ObjectAccidentsChangeState = GoMap.empty ∧
        ev8.ObjectFpChangeState = GoMap.empty ∧
        ev8.ObjectNwaChangeState = GoMap.empty ∧
        ev8.ObjectNwaStateLeaveEnter = GoMap.empty) ∧
    ((∃ ev8, { p with Format := 8 }.ParseEventsPackage = Outcome.ret (some ev8) none) ∨
      (∃ e, { p with Format := 8 }.ParseEventsPackage = Outcome.ret none (some e))) := by
  have hf8 : ({ p with Format := 8 } : DataPackage).Format = 1 ∨
      ({ p with Format := 8 } : DataPackage).Format = 8 ∨
      ({ p with Format := 8 } : DataPackage).Format = 9 := Or.inr (Or.inl rfl)
  have hf1 : ({ p with Format := 1 } : DataPackage).Format = 1 ∨
      ({ p with Format := 1 } : DataPackage).Format = 8 ∨
      ({ p with Format := 1 } : DataPackage).Format = 9 := Or.inl rfl
  obtain ⟨hs8, hn8⟩ := ParseEventsPackage_spec _ hf8
  obtain ⟨hs1, hn1⟩ := ParseEventsPackage_spec _ hf1
  have hd8 : ({ p with Format := 8 } : DataPackage).Data = p.Data := rfl
  have hd1 : ({ p with Format := 1 } : DataPackage).Data = p.Data := rfl
  rw [hd8] at hs8 hn8
  rw [hd1] at hs1 hn1
  refine ⟨⟨fun h => ?_, fun h => ?_⟩, fun ev8 h => ?_, ?_⟩
  · by_cases hs : SplitsIntoRecords p.Data
    · obtain ⟨e, he⟩ := h
      obtain ⟨ev, hev⟩ := hs8 hs
      rw [he] at hev
      cases hev
    · exact hn1 hs
  · by_cases hs : SplitsIntoRecords p.Data
    · obtain ⟨e, he⟩ := h
      obtain ⟨ev, hev⟩ := hs1 hs
      rw [he] at hev
      cases hev
    · exact hn8 hs
  · obtain ⟨rs, hrs, hd⟩ := ParseEventsPackage_accepted_records _ hf8 ev8 h
    obtain ⟨e8, he8, a1, a2, a3, a4, a5, a6⟩ := ParseEventsPackage_writes _ hf8 rs hrs hd
    obtain ⟨e1, he1, b1, _⟩ := ParseEventsPackage_writes _ hf1 rs hrs hd
    rw [h] at he8
    cases he8
    refine ⟨e1, he1, ?_, ?_, ?_, ?_, ?_, a6 rfl⟩
    · rw [a1, b1]
    · rw [a2]; rfl
    · rw [a3]; rfl
    · rw [a4]; rfl
    · rw [a5]; rfl
  · by_cases hs : SplitsIntoRecords p.Data
    · exact Or.inl (hs8 hs)
    · exact Or.inr (hn8 hs)

/-! ## The full-state snapshot decoders -/

theorem le16_drop_take (b : List Nat) (k L : Nat) (h : k + 2 ≤ L) :
    le16 ((b.take L).drop k) = le16 (b.drop k) := by
  have e : ∀ j, j < 2 → ((b.take L).drop k).getD j 0 = (b.drop k).getD j 0 := by
    intro j hj
    have hlt : k + j < L := by omega
    simp [List.getD_eq_getElem?_getD, List.getElem?_drop, List.getElem?_take, hlt]
  simp only [le16, e 0 (by omega), e 1 (by omega)]

theorem le64_drop_take (b : List Nat) (k L : Nat) (h : k + 8 ≤ L) :
    le64 ((b.take L).drop k) = le64 (b.drop k) := by
  have e : ∀ j, j < 8 → ((b.take L).drop k).getD j 0 = (b.drop k).getD j 0 := by
    intro j hj
    have hlt : k + j < L := by omega
    simp [List.getD_eq_getElem?_getD, List.getElem?_drop, List.getElem?_take, hlt]
  simp only [le64, e 0 (by omega), e 1 (by omega), e 2 (by omega), e 3 (by omega),
    e 4 (by omega), e 5 (by omega), e 6 (by omega), e 7 (by omega)]

theorem getD_take_drop (data : List Nat) (i k L : Nat) (h : k < L) :
    ((data.drop i).take L).getD k 0 = data.getD (i + k) 0 := by
  simp [List.getD_eq_getElem?_getD, List.getElem?_drop, List.getElem?_take, h]

theorem head?_take_drop (data : List Nat) (i L : Nat) (hL : 0 < L) (hi : i < data.length) :
    ((data.drop i).take L).head? = some (data.getD i 0) := by
  rw [List.head?_take]
  simp only [show L ≠ 0 by omega, if_false]
  exact head?_drop_eq data i hi

theorem snapshotState_at (data : List Nat) (c : Nat) (m : GoMap Nat Nat) :
    applyWrite snapshotStateOfRecord m ((data.drop c).take 7)
      = m.set (le32 (data.drop (c + 1))) (le16 ((data.drop (c + 1)).drop 4)) := by
  simp only [applyWrite, snapshotStateOfRecord]
  rw [le32_drop_take _ 1 7 (by omega), le16_drop_take _ 5 7 (by omega), drop_drop_add,
    drop_drop_add, drop_drop_add]

theorem fullObjectStatesLoop_spec (data : List Nat) :
    ∀ (remaining i : Nat) (m : GoMap Nat Nat), (i + remaining) * 7 ≤ data.length →
      ((∀ j, i ≤ j → j < i + remaining → data.getD (j * 7) 0 = 8) →
        fullObjectStatesLoop data remaining i m = Outcome.ret (some
          ((List.range' i remaining).foldl
            (fun acc j => applyWrite snapshotStateOfRecord acc ((data.drop (j * 7)).take 7)) m))
          none) ∧
      ((∃ j, i ≤ j ∧ j < i + remaining ∧ data.getD (j * 7) 0 ≠ 8) →
        ∃ e, fullObjectStatesLoop data remaining i m = Outcome.ret none (some e)) := by
  intro remaining
  induction remaining with
  | zero =>
    intro i m _
    refine ⟨fun _ => rfl, ?_⟩
    rintro ⟨j, h1, h2, _⟩
    omega
  | succ n ih =>
    intro i m hlen
    have hb := byteAt_eq data (i * 7) (by omega)
    by_cases h8 : data.getD (i * 7) 0 = 8
    · have hev := getObjectStateEvent_eq (data.drop (i * 7 + 1)) (by
        rw [List.length_drop]; omega)
      have hstep : fullObjectStatesLoop data (n + 1) i m
          = fullObjectStatesLoop data n (i + 1)
              (m.set (le32 (data.drop (i * 7 + 1))) (le16 ((data.drop (i * 7 + 1)).drop 4))) := by
        rw [fullObjectStatesLoop]
        simp only [hb, h8, PackageEventTypeObjectState, ne_eq, not_true_eq_false, if_false]
        rw [sliceFrom_bind _ _ _ (by omega), hev]
      obtain ⟨ih1, ih2⟩ := ih (i + 1)
        (m.set (le32 (data.drop (i * 7 + 1))) (le16 ((data.drop (i * 7 + 1)).drop 4)))
        (by omega)
      constructor
      · intro hall
        rw [hstep, ih1 (fun j hj1 hj2 => hall j (by omega) (by omega))]
        rw [List.range'_succ, List.foldl_cons, snapshotState_at]
      · rintro ⟨j, hj1, hj2, hj3⟩
        rw [hstep]
        apply ih2
        refine ⟨j, ?_, by omega, hj3⟩
        by_contra hc
        have : j = i := by omega
        rw [this] at hj3
        exact hj3 h8
    · have hstep : fullObjectStatesLoop data (n + 1) i m
          = Outcome.ret none (some (ParseError.unexpectedMarker (data.getD (i * 7) 0))) := by
        rw [fullObjectStatesLoop]
        simp only [hb, h8, PackageEventTypeObjectState, ne_eq, not_false_eq_true, if_true]
      constructor
      · intro hall
        exact absurd (hall i (by omega) (by omega)) h8
      · intro _
        exact ⟨_, hstep⟩

theorem mem_recordsOfSize (n : Nat) (data r : List Nat) :
    r ∈ recordsOfSize n data ↔ ∃ j, j < data.length / n ∧ r = (data.drop (j * n)).take n := by
  unfold recordsOfSize
  simp only [List.mem_map, List.mem_range]
  constructor
  · rintro ⟨j, hj, rfl⟩; exact ⟨j, hj, rfl⟩
  · rintro ⟨j, hj, rfl⟩; exact ⟨j, hj, rfl⟩

theorem foldl_recordsOfSize {α : Type} (n : Nat) (data : List Nat)
    (f : α → List Nat → α) (init : α) :
    (recordsOfSize n data).foldl f init
      = (List.range' 0 (data.length / n)).foldl
          (fun acc j => f acc ((data.drop (j * n)).take n)) init := by
  unfold recordsOfSize
  rw [List.foldl_map, List.range_eq_range']

theorem bad_record_iff (n tag : Nat) (hn : 0 < n) (data : List Nat) :
    (∃ r ∈ recordsOfSize n data, r.head? ≠ some tag) ↔
      ∃ j, 0 ≤ j ∧ j < 0 + data.length / n ∧ data.getD (j * n) 0 ≠ tag := by
  constructor
  · rintro ⟨r, hr, hh⟩
    obtain ⟨j, hj, rfl⟩ := (mem_recordsOfSize n data r).mp hr
    have hlt : j * n < data.length := by
      have := Nat.div_mul_le_self data.length n
      have h2 : (j + 1) * n ≤ data.length / n * n := Nat.mul_le_mul_right n hj
      rw [Nat.add_mul, Nat.one_mul] at h2
      omega
    rw [head?_take_drop data (j * n) n hn hlt] at hh
    refine ⟨j, Nat.zero_le _, by omega, fun hc => hh (by rw [hc])⟩
  · rintro ⟨j, _, hj, hh⟩
    have hj1 : j < data.length / n := by omega
    have hlt : j * n < data.length := by
      have := Nat.div_mul_le_self data.length n
      have h2 : (j + 1) * n ≤ data.length / n * n := Nat.mul_le_mul_right n hj1
      rw [Nat.add_mul, Nat.one_mul] at h2
      omega
    refine ⟨(data.drop (j * n)).take n, (mem_recordsOfSize n data _).mpr ⟨j, hj1, rfl⟩, ?_⟩
    rw [head?_take_drop data (j * n) n hn hlt]
    intro hc
    exact hh (Option.some.inj hc)

/-- C13. `ParseFullObjectStatePackage` returns an error with a nil map exactly
when the format is not 6, or the payload length is no multiple of 7, or some
7-byte record does not start with tag 8. Otherwise it returns a map that holds
exactly the object ids of the records and, under each, the state code of the
last record with that id. -/
theorem ParseFullObjectStatePackage_spec (p : DataPackage) :
    ((∃ e, p.ParseFullObjectStatePackage = Outcome.ret none (some e)) ↔
      (p.Format ≠ 6 ∨ p.Data.length % 7 ≠ 0 ∨
        ∃ r ∈ recordsOfSize 7 p.Data, r.head? ≠ some 8)) ∧
    (¬ (p.Format ≠ 6 ∨ p.Data.length % 7 ≠ 0 ∨
        ∃ r ∈ recordsOfSize 7 p.Data, r.head? ≠ some 8) →
      ∃ m, p.ParseFullObjectStatePackage = Outcome.ret (some m) none ∧
        (∀ k, m.get? k = lastWrite snapshotStateOfRecord (recordsOfSize 7 p.Data) k) ∧
        (∀ k, k ∈ m.keys ↔ ∃ r ∈ recordsOfSize 7 p.Data, le32 (r.drop 1) = k)) := by
  by_cases hf : p.Format = 6
  swap
  · have hr : p.ParseFullObjectStatePackage
        = Outcome.ret none (some ParseError.expectedFullStateFormat) := by
      simp only [DataPackage.ParseFullObjectStatePackage, PackageFormatFullObjectStates, ne_eq,
        hf, not_false_eq_true, if_true]
    exact ⟨⟨fun _ => Or.inl hf, fun _ => ⟨_, hr⟩⟩, fun hc => absurd (Or.inl hf) hc⟩
  by_cases hm : p.Data.length % 7 = 0
  swap
  · have hr : p.ParseFullObjectStatePackage = Outcome.ret none (some ParseError.eventsDataSize) := by
      simp only [DataPackage.ParseFullObjectStatePackage, PackageFormatFullObjectStates, ne_eq,
        hf, not_true_eq_false, if_false, hm, not_false_eq_true, if_true]
    exact ⟨⟨fun _ => Or.inr (Or.inl hm), fun _ => ⟨_, hr⟩⟩,
      fun hc => absurd (Or.inr (Or.inl hm)) hc⟩
  have hr : p.ParseFullObjectStatePackage
      = fullObjectStatesLoop p.Data (p.Data.length / 7) 0 GoMap.empty := by
    simp only [DataPackage.ParseFullObjectStatePackage, PackageFormatFullObjectStates, ne_eq,
      hf, not_true_eq_false, if_false, hm]
  obtain ⟨hok, hbad⟩ := fullObjectStatesLoop_spec p.Data (p.Data.length / 7) 0 GoMap.empty
    (by have := Nat.div_mul_le_self p.Data.length 7; omega)
  rw [← hr] at hok hbad
  by_cases hall : ∃ r ∈ recordsOfSize 7 p.Data, r.head? ≠ some 8
  · have he := hbad ((bad_record_iff 7 8 (by omega) p.Data).mp hall)
    exact ⟨⟨fun _ => Or.inr (Or.inr hall), fun _ => he⟩,
      fun hc => absurd (Or.inr (Or.inr hall)) hc⟩
  · have hgood : ∀ j, 0 ≤ j → j < 0 + p.Data.length / 7 → p.Data.getD (j * 7) 0 = 8 := by
      intro j h0 hj
      by_contra hc
      exact hall ((bad_record_iff 7 8 (by omega) p.Data).mpr ⟨j, h0, hj, hc⟩)
    have hres := hok hgood
    rw [← foldl_recordsOfSize 7 p.Data (applyWrite snapshotStateOfRecord)] at hres
    refine ⟨⟨fun he => ?_, fun hc => ?_⟩, fun _ => ⟨_, hres, ?_, ?_⟩⟩
    · obtain ⟨e, he⟩ := he
      rw [hres] at he
      cases he
    · rcases hc with hc | hc | hc
      · exact absurd hf hc
      · exact absurd hm hc
      · exact absurd hc hall
    · intro k
      rw [get?_foldl_applyWrite]
      rfl
    · intro k
      rw [mem_keys_foldl_applyWrite]
      simp only [snapshotStateOfRecord, Option.some.injEq, Prod.mk.injEq, exists_and_left,
        exists_eq', and_true]

theorem ParseFullObjectStatePackage_spec_witness :
    ¬ (fullStatesPackage.Format ≠ 6 ∨ fullStatesPackage.Data.length % 7 ≠ 0 ∨
        ∃ r ∈ recordsOfSize 7 fullStatesPackage.Data, r.head? ≠ some 8) ∧
    fullStatesPackage.ParseFullObjectStatePackage
      = Outcome.ret (some ⟨[(100, 2), (200, 1)]⟩) none ∧
    ∃ m, fullStatesPackage.ParseFullObjectStatePackage = Outcome.ret (some m) none ∧
      (∀ k, m.get? k = lastWrite snapshotStateOfRecord (recordsOfSize 7 fullStatesPackage.Data) k) ∧
      (∀ k, k ∈ m.keys ↔ ∃ r ∈ recordsOfSize 7 fullStatesPackage.Data, le32 (r.drop 1) = k) :=
  ⟨by decide, by decide, (ParseFullObjectStatePackage_spec fullStatesPackage).2 (by decide)⟩

theorem getD_drop_add (data : List Nat) (i k : Nat) :
    (data.drop i).getD k 0 = data.getD (i + k) 0 := by
  simp [List.getD_eq_getElem?_getD, List.getElem?_drop]

theorem snapshotFailure_at (data : List Nat) (c : Nat)
    (m : GoMap ObjectFailureKey ObjectFailureEventInfo) :
    applyWrite snapshotFailureOfRecord m ((data.drop c).take 18)
      = m.set { ObjectId := le32 (data.drop (c + 1)),
                FailureId := le32 ((data.drop (c + 1)).drop 4) }
          { IsStarted := if (data.drop (c + 1)).getD 8 0 = 0 then false else true
            ObjectId := le32 (data.drop (c + 1))
            FailureId := le32 ((data.drop (c + 1)).drop 4)
            EventTime := GetTimeFromUnixMicroseconds (le64 ((data.drop (c + 1)).drop 9)) } := by
  simp only [applyWrite, snapshotFailureOfRecord]
  rw [le32_drop_take _ 1 18 (by omega), le32_drop_take _ 5 18 (by omega),
    le64_drop_take _ 10 18 (by omega), getD_take_drop data c 9 18 (by omega), getD_drop_add]
  simp only [drop_drop_add, Nat.add_assoc, Nat.reduceAdd]
  by_cases h : data.getD (c + 9) 0 = 0 <;> simp [h]

theorem fullFailureStatesLoop_spec (data : List Nat) :
    ∀ (remaining i : Nat) (m : GoMap ObjectFailureKey ObjectFailureEventInfo),
      (i + remaining) * 18 ≤ data.length →
      ((∀ j, i ≤ j → j < i + remaining → data.getD (j * 18) 0 = 1) →
        fullFailureStatesLoop data remaining i m = Outcome.ret (some
          ((List.range' i remaining).foldl
            (fun acc j => applyWrite snapshotFailureOfRecord acc ((data.drop (j * 18)).take 18))
            m)) none) ∧
      ((∃ j, i ≤ j ∧ j < i + remaining ∧ data.getD (j * 18) 0 ≠ 1) →
        ∃ e, fullFailureStatesLoop data remaining i m = Outcome.ret none (some e)) := by
  intro remaining
  induction remaining with
  | zero =>
    intro i m _
    refine ⟨fun _ => rfl, ?_⟩
    rintro ⟨j, h1, h2, _⟩
    omega
  | succ n ih =>
    intro i m hlen
    have hb := byteAt_eq data (i * 18) (by omega)
    by_cases h1 : data.getD (i * 18) 0 = 1
    · have hev := getObjectFailureEvent_eq (data.drop (i * 18 + 1)) (by
        rw [List.length_drop]; omega)
      have hstep : fullFailureStatesLoop data (n + 1) i m
          = fullFailureStatesLoop data n (i + 1)
              (applyWrite snapshotFailureOfRecord m ((data.drop (i * 18)).take 18)) := by
        rw [fullFailureStatesLoop]
        simp only [hb, h1, PackageEventTypeFailureInfo, ne_eq, not_true_eq_false, if_false]
        rw [sliceFrom_bind _ _ _ (by omega), hev, snapshotFailure_at]
      obtain ⟨ih1, ih2⟩ := ih (i + 1)
        (applyWrite snapshotFailureOfRecord m ((data.drop (i * 18)).take 18)) (by omega)
      constructor
      · intro hall
        rw [hstep, ih1 (fun j hj1 hj2 => hall j (by omega) (by omega))]
        rw [List.range'_succ, List.foldl_cons]
      · rintro ⟨j, hj1, hj2, hj3⟩
        rw [hstep]
        apply ih2
        refine ⟨j, ?_, by omega, hj3⟩
        by_contra hc
        have : j = i := by omega
        rw [this] at hj3
        exact hj3 h1
    · have hstep : fullFailureStatesLoop data (n + 1) i m
          = Outcome.ret none
              (some (ParseError.unexpectedFailureMarker (data.getD (i * 18) 0))) := by
        rw [fullFailureStatesLoop]
        simp only [hb, h1, PackageEventTypeFailureInfo, ne_eq, not_false_eq_true, if_true]
      constructor
      · intro hall
        exact absurd (hall i (by omega) (by omega)) h1
      · intro _
        exact ⟨_, hstep⟩

/-- C14. `ParseFullFailureStatePackage` returns an error with a nil map exactly
when the format is not 2, or the payload length is no multiple of 18, or some
18-byte record does not start with tag 1. Otherwise it returns a map keyed by
(object id, failure id) that holds, under each key, the event of the last
record with that key: object id from record bytes 1..4, failure id from bytes
5..8, started flag from byte 9, time from the microseconds at bytes 10..17. -/
theorem ParseFullFailureStatePackage_spec (p : DataPackage) :
    ((∃ e, p.ParseFullFailureStatePackage = Outcome.ret none (some e)) ↔
      (p.Format ≠ 2 ∨ p.Data.length % 18 ≠ 0 ∨
        ∃ r ∈ recordsOfSize 18 p.Data, r.head? ≠ some 1)) ∧
    (¬ (p.Format ≠ 2 ∨ p.Data.length % 18 ≠ 0 ∨
        ∃ r ∈ recordsOfSize 18 p.Data, r.head? ≠ some 1) →
      ∃ m, p.ParseFullFailureStatePackage = Outcome.ret (some m) none ∧
        (∀ k, m.get? k = lastWrite snapshotFailureOfRecord (recordsOfSize 18 p.Data) k) ∧
        (∀ k, k ∈ m.keys ↔ ∃ r ∈ recordsOfSize 18 p.Data,
          ({ ObjectId := le32 (r.drop 1), FailureId := le32 (r.drop 5) } : ObjectFailureKey)
            = k)) := by
  by_cases hf : p.Format = 2
  swap
  · have hr : p.ParseFullFailureStatePackage
        = Outcome.ret none (some ParseError.expectedFullFailureFormat) := by
      simp only [DataPackage.ParseFullFailureStatePackage, PackageFormatFullFailureStates,
        ne_eq, hf, not_false_eq_true, if_true]
    exact ⟨⟨fun _ => Or.inl hf, fun _ => ⟨_, hr⟩⟩, fun hc => absurd (Or.inl hf) hc⟩
  by_cases hm : p.Data.length % 18 = 0
  swap
  · have hr : p.ParseFullFailureStatePackage
        = Outcome.ret none (some ParseError.failureDataSize) := by
      simp only [DataPackage.ParseFullFailureStatePackage, PackageFormatFullFailureStates,
        ne_eq, hf, not_true_eq_false, if_false, hm, not_false_eq_true, if_true]
    exact ⟨⟨fun _ => Or.inr (Or.inl hm), fun _ => ⟨_, hr⟩⟩,
      fun hc => absurd (Or.inr (Or.inl hm)) hc⟩
  have hr : p.ParseFullFailureStatePackage
      = fullFailureStatesLoop p.Data (p.Data.length / 18) 0 GoMap.empty := by
    simp only [DataPackage.ParseFullFailureStatePackage, PackageFormatFullFailureStates, ne_eq,
      hf, not_true_eq_false, if_false, hm]
  obtain ⟨hok, hbad⟩ := fullFailureStatesLoop_spec p.Data (p.Data.length / 18) 0 GoMap.empty
    (by have := Nat.div_mul_le_self p.Data.length 18; omega)
  rw [← hr] at hok hbad
  by_cases hall : ∃ r ∈ recordsOfSize 18 p.Data, r.head? ≠ some 1
  · have he := hbad ((bad_record_iff 18 1 (by omega) p.Data).mp hall)
    exact ⟨⟨fun _ => Or.inr (Or.inr hall), fun _ => he⟩,
      fun hc => absurd (Or.inr (Or.inr hall)) hc⟩
  · have hgood : ∀ j, 0 ≤ j → j < 0 + p.Data.length / 18 → p.Data.getD (j * 18) 0 = 1 := by
      intro j h0 hj
      by_contra hc
      exact hall ((bad_record_iff 18 1 (by omega) p.Data).mpr ⟨j, h0, hj, hc⟩)
    have hres := hok hgood
    rw [← foldl_recordsOfSize 18 p.Data (applyWrite snapshotFailureOfRecord)] at hres
    refine ⟨⟨fun he => ?_, fun hc => ?_⟩, fun _ => ⟨_, hres, ?_, ?_⟩⟩
    · obtain ⟨e, he⟩ := he
      rw [hres] at he
      cases he
    · rcases hc with hc | hc | hc
      · exact absurd hf hc
      · exact absurd hm hc
      · exact absurd hc hall
    · intro k
      rw [get?_foldl_applyWrite]
      rfl
    · intro k
      rw [mem_keys_foldl_applyWrite]
      simp only [snapshotFailureOfRecord, Option.some.injEq, Prod.mk.injEq, exists_and_left,
        exists_eq', and_true]

theorem ParseFullFailureStatePackage_spec_witness :
    ¬ (fullFailuresPackage.Format ≠ 2 ∨ fullFailuresPackage.Data.length % 18 ≠ 0 ∨
        ∃ r ∈ recordsOfSize 18 fullFailuresPackage.Data, r.head? ≠ some 1) ∧
    fullFailuresPackage.ParseFullFailureStatePackage
      = Outcome.ret (some ⟨[({ ObjectId := 100, FailureId := 1 },
          { IsStarted := true, ObjectId := 100, FailureId := 1,
            EventTime := GetTimeFromUnixMicroseconds 0x0807060504030201 })]⟩) none ∧
    ∃ m, fullFailuresPackage.ParseFullFailureStatePackage = Outcome.ret (some m) none ∧
      (∀ k, m.get? k
        = lastWrite snapshotFailureOfRecord (recordsOfSize 18 fullFailuresPackage.Data) k) ∧
      (∀ k, k ∈ m.keys ↔ ∃ r ∈ recordsOfSize 18 fullFailuresPackage.Data,
        ({ ObjectId := le32 (r.drop 1), FailureId := le32 (r.drop 5) } : ObjectFailureKey)
          = k) :=
  ⟨by decide, by decide, (ParseFullFailureStatePackage_spec fullFailuresPackage).2 (by decide)⟩

/-! ## The objects of an aggregate -/

theorem GoSet.mem_Add (s : GoSet) (x y : Int) :
    y ∈ (s.Add x).elems ↔ y ∈ s.elems ∨ y = x := by
  unfold GoSet.Add
  by_cases h : x ∈ s.elems
  · simp only [h, if_true]
    constructor
    · exact Or.inl
    · rintro (h1 | h1)
      · exact h1
      · rw [h1]; exact h
  · simp only [h, if_false, List.mem_append, List.mem_singleton]

theorem GoSet.nodup_Add (s : GoSet) (x : Int) (hs : s.elems.Nodup) : (s.Add x).elems.Nodup := by
  unfold GoSet.Add
  by_cases h : x ∈ s.elems
  · simp only [h, if_true]; exact hs
  · simp only [h, if_false]
    rw [List.nodup_append]
    refine ⟨hs, List.nodup_singleton x, ?_⟩
    intro a ha hb
    rw [List.mem_singleton] at hb
    exact h (hb ▸ ha)

theorem GoSet.foldl_Add {α : Type} (f : α → Int) (l : List α) :
    ∀ s : GoSet, s.elems.Nodup →
      (l.foldl (fun s k => s.Add (f k)) s).elems.Nodup ∧
      ∀ y, y ∈ (l.foldl (fun s k => s.Add (f k)) s).elems ↔ y ∈ s.elems ∨ y ∈ l.map f := by
  induction l with
  | nil => intro s hs; exact ⟨hs, fun y => by simp⟩
  | cons a t ih =>
    intro s hs
    obtain ⟨h1, h2⟩ := ih (s.Add (f a)) (GoSet.nodup_Add s (f a) hs)
    refine ⟨h1, fun y => ?_⟩
    rw [List.foldl_cons, h2, GoSet.mem_Add, List.map_cons, List.mem_cons]
    tauto

theorem GetObjects_elems (e : PackageEvents) :
    e.GetObjects.elems.Nodup ∧ ∀ y, y ∈ e.GetObjects.elems ↔ y ∈ referencedIds e := by
  unfold PackageEvents.GetObjects referencedIds
  obtain ⟨n1, m1⟩ := GoSet.foldl_Add (fun k : Nat => (k : Int)) e.ObjectStates.keys NewSet
    List.nodup_nil
  obtain ⟨n2, m2⟩ := GoSet.foldl_Add (fun k : Nat => (k : Int)) e.ObjectFpChangeState.keys _ n1
  obtain ⟨n3, m3⟩ := GoSet.foldl_Add (fun k : Nat => (k : Int)) e.ObjectNwaChangeState.keys _ n2
  obtain ⟨n4, m4⟩ := GoSet.foldl_Add (fun k : Nat => (k : Int))
    e.ObjectNwaStateLeaveEnter.keys _ n3
  obtain ⟨n5, m5⟩ := GoSet.foldl_Add (fun k : ObjectFailureKey => (k.ObjectId : Int))
    e.ObjectFailuresChangeState.keys _ n4
  obtain ⟨n6, m6⟩ := GoSet.foldl_Add (fun k : ObjectAccidentKey => (k.ObjectId : Int))
    e.ObjectAccidentsChangeState.keys _ n5
  refine ⟨n6, fun y => ?_⟩
  rw [m6, m5, m4, m3, m2, m1]
  simp only [NewSet, List.not_mem_nil, false_or, List.mem_append, or_assoc]

/-- C15. An integer is a member of `GetObjects()` exactly when it is a key of
one of the four maps keyed by object id or the object id of a key of the
failure or the accident map; and the cardinality of the set is the number of
distinct such ids. -/
theorem GetObjects_spec (e : PackageEvents) (x : Int) :
    (e.GetObjects.Contains x = true ↔
      ((∃ k ∈ e.ObjectStates.keys, (k : Int) = x) ∨
       (∃ k ∈ e.ObjectFpChangeState.keys, (k : Int) = x) ∨
       (∃ k ∈ e.ObjectNwaChangeState.keys, (k : Int) = x) ∨
       (∃ k ∈ e.ObjectNwaStateLeaveEnter.keys, (k : Int) = x) ∨
       (∃ k ∈ e.ObjectFailuresChangeState.keys, (k.ObjectId : Int) = x) ∨
       (∃ k ∈ e.ObjectAccidentsChangeState.keys, (k.ObjectId : Int) = x))) ∧
    e.GetObjects.Cardinality = (referencedIds e).dedup.length := by
  obtain ⟨hn, hm⟩ := GetObjects_elems e
  constructor
  · rw [GoSet.Contains, decide_eq_true_eq, hm]
    simp only [referencedIds, List.mem_append, List.mem_map, or_assoc]
  · unfold GoSet.Cardinality
    apply List.Perm.length_eq
    rw [List.perm_ext_iff_of_nodup hn (List.nodup_dedup _)]
    intro a
    rw [hm, List.mem_dedup]

/-! ## Selecting and calling the sample decoders -/

theorem handler16_total (data : List Nat) (k : Nat) :
    (∃ v, handler16 data k = some v) ∧
      (data.length / 2 ≤ k → handler16 data k = some float32NaN) := by
  have e1 : data.length / 2 ≤ k → handler16 data k = some float32NaN := by
    intro h
    have h1 : k ≥ data.length / 2 := h
    simp only [handler16, h1, if_true]
  have e2 : ¬ data.length / 2 ≤ k → ∃ v, handler16 data k = some v := by
    intro h
    have h1 : ¬ k ≥ data.length / 2 := h
    have hle : k * 2 % 2 ^ 16 ≤ k * 2 := Nat.mod_le _ _
    have hlen : k * 2 + 2 ≤ data.length := by omega
    simp only [handler16, h1, if_false]
    rw [sliceFrom_bind _ _ _ (by omega), Uint16_eq _ (by rw [List.length_drop]; omega)]
    exact ⟨_, rfl⟩
  by_cases h : data.length / 2 ≤ k
  · exact ⟨⟨_, e1 h⟩, e1⟩
  · exact ⟨e2 h, e1⟩

theorem handler32_total (data : List Nat) (k : Nat) :
    (∃ v, handler32 data k = some v) ∧
      (data.length / 4 ≤ k → handler32 data k = some float32NaN) := by
  have e1 : data.length / 4 ≤ k → handler32 data k = some float32NaN := by
    intro h
    have h1 : k ≥ data.length / 4 := h
    simp only [handler32, h1, if_true]
  have e2 : ¬ data.length / 4 ≤ k → ∃ v, handler32 data k = some v := by
    intro h
    have h1 : ¬ k ≥ data.length / 4 := h
    have hle : k * 4 % 2 ^ 16 ≤ k * 4 := Nat.mod_le _ _
    have hlen : k * 4 + 4 ≤ data.length := by omega
    simp only [handler32, h1, if_false]
    rw [sliceFrom_bind _ _ _ (by omega), Uint32_eq _ (by rw [List.length_drop]; omega)]
    exact ⟨_, rfl⟩
  by_cases h : data.length / 4 ≤ k
  · exact ⟨⟨_, e1 h⟩, e1⟩
  · exact ⟨e2 h, e1⟩

/-- C19. `GetDataConverterFunction` returns an error, together with a nil
decoder, exactly when the width is neither 16 nor 32; for 16 and 32 it returns
a decoder and no error, and that decoder returns a value on every call. -/
theorem GetDataConverterFunction_spec (b : Nat) :
    ((GetDataConverterFunction b).2 ≠ none ↔ (b ≠ 16 ∧ b ≠ 32)) ∧
    ((b ≠ 16 ∧ b ≠ 32) → (GetDataConverterFunction b).1.isNone = true) ∧
    ((b = 16 ∨ b = 32) → (GetDataConverterFunction b).2 = none ∧
      ∃ f, (GetDataConverterFunction b).1 = some f ∧ ∀ data k, ∃ v, f data k = some v) := by
  unfold GetDataConverterFunction
  by_cases h16 : b = 16
  · subst h16
    simp only [if_true, ne_eq, not_true_eq_false, false_and, iff_false, Classical.not_not,
      true_or, true_implies, IsEmpty.forall_iff, true_and]
    exact ⟨handler16, rfl, fun data k => (handler16_total data k).1⟩
  · by_cases h32 : b = 32
    · subst h32
      simp only [Nat.reduceEqDiff, if_false, if_true, ne_eq, not_true_eq_false, and_false,
        iff_false, Classical.not_not, or_true, true_implies, IsEmpty.forall_iff, true_and]
      exact ⟨handler32, rfl, fun data k => (handler32_total data k).1⟩
    · simp [h16, h32]

/-- C20. Out-of-range reads are tolerated. For every slice and every sensor
index at or beyond the number of whole samples, the decoder selected for 16
bits, and the one for 32 bits, returns NaN; and for every slice and every index
the decoder returns a value, which in the model means that no slice or index
expression leaves the slice. -/
theorem decoders_tolerate_out_of_range :
    (∃ f, (GetDataConverterFunction 16).1 = some f ∧ ∀ data k,
      (∃ v, f data k = some v) ∧ (data.length / 2 ≤ k → f data k = some float32NaN)) ∧
    (∃ f, (GetDataConverterFunction 32).1 = some f ∧ ∀ data k,
      (∃ v, f data k = some v) ∧ (data.length / 4 ≤ k → f data k = some float32NaN)) ∧
    IsNaN float32NaN = true :=
  ⟨⟨handler16, rfl, handler16_total⟩, ⟨handler32, rfl, handler32_total⟩, rfl⟩

/-! ## Rounding -/

theorem roundHalfEven_sub_le (z : ℚ) : |(roundHalfEven z : ℚ) - z| ≤ 1 / 2 := by
  have h1 : (⌊z⌋ : ℚ) ≤ z := Int.floor_le z
  have h2 : z < (⌊z⌋ : ℚ) + 1 := Int.lt_floor_add_one z
  unfold roundHalfEven
  split
  · rw [abs_le]; constructor <;> linarith
  · split
    · push_cast; rw [abs_le]; constructor <;> linarith
    · split
      · rw [abs_le]; constructor <;> linarith
      · push_cast; rw [abs_le]; constructor <;> linarith

theorem roundHalfEven_eq_of_near (z : ℚ) (m : ℤ) (h : |z - m| < 1 / 2) :
    roundHalfEven z = m := by
  have h1 := roundHalfEven_sub_le z
  rw [abs_le] at h1
  rw [abs_lt] at h
  have h3 : ((roundHalfEven z : ℤ) : ℚ) - m < 1 := by linarith
  have h4 : -1 < ((roundHalfEven z : ℤ) : ℚ) - m := by linarith
  have h5 : (roundHalfEven z - m : ℤ) < 1 := by exact_mod_cast h3
  have h6 : (-1 : ℤ) < roundHalfEven z - m := by exact_mod_cast h4
  omega

theorem log_two_eq (q : ℚ) (e : ℤ) (hq : 0 < q) (h1 : (2 : ℚ) ^ e ≤ q)
    (h2 : q < (2 : ℚ) ^ (e + 1)) : Int.log 2 q = e := by
  have a1 : e ≤ Int.log 2 q := (Int.zpow_le_iff_le_log (by norm_num) hq).mp (by exact_mod_cast h1)
  have a2 : Int.log 2 q < e + 1 :=
    (Int.lt_zpow_iff_log_lt (by norm_num) hq).mp (by exact_mod_cast h2)
  omega

theorem roundPos_eq (p : ℕ) (q : ℚ) (e m : ℤ) (hq : 0 < q) (h1 : (2 : ℚ) ^ e ≤ q)
    (h2 : q < (2 : ℚ) ^ (e + 1)) (hm : |q / 2 ^ (e - (p : ℤ) + 1) - m| < 1 / 2) :
    roundPos p q = m * 2 ^ (e - (p : ℤ) + 1) := by
  unfold roundPos
  rw [log_two_eq q e hq h1 h2, roundHalfEven_eq_of_near _ m hm]

theorem roundPos_err (p : ℕ) (q : ℚ) (hq : 0 < q) :
    |roundPos p q - q| ≤ q / 2 ^ p := by
  unfold roundPos
  have hlog : (2 : ℚ) ^ Int.log 2 q ≤ q := by
    have := Int.zpow_log_le_self (R := ℚ) (b := 2) (r := q) (by norm_num) hq
    exact_mod_cast this
  set e := Int.log 2 q with he
  have hu : (0 : ℚ) < 2 ^ (e - (p : ℤ) + 1) := by positivity
  set u : ℚ := 2 ^ (e - (p : ℤ) + 1) with hudef
  have hz := roundHalfEven_sub_le (q / u)
  have hfact : (roundHalfEven (q / u) : ℚ) * u - q = ((roundHalfEven (q / u) : ℚ) - q / u) * u := by
    field_simp
  rw [hfact, abs_mul, abs_of_pos hu]
  have hu2 : u = 2 ^ e / 2 ^ p * 2 := by
    rw [hudef, zpow_add₀ (by norm_num), zpow_sub₀ (by norm_num)]
    simp
  calc |(roundHalfEven (q / u) : ℚ) - q / u| * u ≤ 1 / 2 * u :=
        mul_le_mul_of_nonneg_right hz hu.le
    _ = 2 ^ e / 2 ^ p := by rw [hu2]; ring
    _ ≤ q / 2 ^ p := by
        apply div_le_div_of_nonneg_right hlog
        positivity


theorem roundTo_zero (p : ℕ) : roundTo p 0 = 0 := by
  simp [roundTo]

theorem roundTo_neg (p : ℕ) (q : ℚ) : roundTo p (-q) = -roundTo p q := by
  unfold roundTo
  rcases lt_trichotomy q 0 with h | h | h
  · have h1 : ¬ (-q = 0) := by intro hc; linarith [neg_eq_zero.mp hc]
    have h2 : ¬ (-q < 0) := by linarith
    have h3 : ¬ (q = 0) := ne_of_lt h
    simp only [h1, h2, h3, h, if_false, if_true, neg_neg]
  · subst h; simp
  · have h1 : ¬ (-q = 0) := by intro hc; linarith [neg_eq_zero.mp hc]
    have h2 : -q < 0 := by linarith
    have h3 : ¬ (q = 0) := ne_of_gt h
    have h4 : ¬ (q < 0) := by linarith
    simp only [h1, h2, h3, h4, if_false, if_true, neg_neg]

theorem roundTo_err (p : ℕ) (q : ℚ) : |roundTo p q - q| ≤ |q| / 2 ^ p := by
  unfold roundTo
  rcases lt_trichotomy q 0 with h | h | h
  · have h3 : ¬ (q = 0) := ne_of_lt h
    simp only [h3, h, if_false, if_true]
    have := roundPos_err p (-q) (by linarith)
    rw [abs_of_neg h]
    have e : -roundPos p (-q) - q = -(roundPos p (-q) - -q) := by ring
    rw [e, abs_neg]
    exact this
  · subst h; simp
  · have h3 : ¬ (q = 0) := ne_of_gt h
    have h4 : ¬ (q < 0) := by linarith
    simp only [h3, h4, if_false]
    rw [abs_of_pos h]
    exact roundPos_err p q h

theorem roundTo_eq (p : ℕ) (q : ℚ) (e m : ℤ) (hq : 0 < q) (h1 : (2 : ℚ) ^ e ≤ q)
    (h2 : q < (2 : ℚ) ^ (e + 1)) (hm : |q / 2 ^ (e - (p : ℤ) + 1) - m| < 1 / 2) :
    roundTo p q = m * 2 ^ (e - (p : ℤ) + 1) := by
  unfold roundTo
  have h3 : ¬ (q = 0) := ne_of_gt hq
  have h4 : ¬ (q < 0) := by linarith
  simp only [h3, h4, if_false]
  exact roundPos_eq p q e m hq h1 h2 hm

theorem mathRound_neg (z : ℚ) : mathRound (-z) = -mathRound z := by
  unfold mathRound
  rcases lt_trichotomy z 0 with h | h | h
  · have h2 : ¬ (-z < 0) := by linarith
    simp only [h, h2, if_true, if_false, neg_neg]
  · subst h
    have hf : ⌊(0 : ℚ) + 1 / 2⌋ = 0 := by
      rw [Int.floor_eq_iff]; norm_num
    simp only [neg_zero, lt_self_iff_false, if_false, hf, Int.cast_zero]
  · have h2 : -z < 0 := by linarith
    have h4 : ¬ (z < 0) := by linarith
    simp only [h2, h4, if_true, if_false, neg_neg]

theorem mathRound_eq_of_near (t : ℚ) (n : ℤ) (h : |t - n| < 1 / 2) : mathRound t = n := by
  rw [abs_lt] at h
  unfold mathRound
  split
  · have : ⌊-t + 1 / 2⌋ = -n := by
      rw [Int.floor_eq_iff]
      push_cast
      constructor <;> linarith
    rw [this]
    push_cast
    ring
  · have : ⌊t + 1 / 2⌋ = n := by
      rw [Int.floor_eq_iff]
      constructor <;> linarith
    rw [this]

theorem round3_neg (x : ℚ) : round3 (-x) = -round3 x := by
  unfold round3 f32 f64
  rw [neg_mul, roundTo_neg, mathRound_neg, neg_div, roundTo_neg, roundTo_neg]

/-! ## The fixed-point decoders: error analysis -/

theorem abs_mul_le_mul (a b A B : ℚ) (ha : |a| ≤ A) (hb : |b| ≤ B) : |a * b| ≤ A * B := by
  rw [abs_mul]
  exact mul_le_mul ha hb (abs_nonneg _) (le_trans (abs_nonneg _) ha)

theorem f32_err (q : ℚ) : |f32 q - q| ≤ |q| / 2 ^ 24 := roundTo_err 24 q

theorem f64_err (q : ℚ) : |f64 q - q| ≤ |q| / 2 ^ 53 := roundTo_err 53 q

/-- The value `float32(aVal * 1000)` computed by `round3` is within one half of
the magnitude `y`, as long as `y ≤ 2 ^ 21`. -/
theorem f32_aValOf_mul_near (y : ℕ) (hy : y ≤ 2 ^ 21) :
    |f32 (aValOf y * 1000) - (y : ℚ)| < 1 / 2 := by
  have hy1 : y ≤ 2097152 := by omega
  have hyq : (y : ℚ) ≤ 2097152 := by exact_mod_cast hy1
  have hsplit : ((y / 1000 : ℕ) : ℚ) * 1000 + ((y % 1000 : ℕ) : ℚ) = (y : ℚ) := by
    have := Nat.div_add_mod y 1000
    have h2 : ((1000 * (y / 1000) + y % 1000 : ℕ) : ℚ) = (y : ℚ) := by rw [this]
    push_cast at h2
    linarith
  have hR999 : ((y % 1000 : ℕ) : ℚ) ≤ 999 := by
    have : y % 1000 ≤ 999 := by omega
    exact_mod_cast this
  have hR0 : (0 : ℚ) ≤ ((y % 1000 : ℕ) : ℚ) := Nat.cast_nonneg _
  have hA0 : (0 : ℚ) ≤ ((y / 1000 : ℕ) : ℚ) := Nat.cast_nonneg _
  set A : ℚ := ((y / 1000 : ℕ) : ℚ) with hA
  set R : ℚ := ((y % 1000 : ℕ) : ℚ) with hR
  have hA2098 : A ≤ 2098 := by
    linarith
  -- the conversions and the constant
  have ha := f32_err A
  have hr := f32_err R
  have hc := f32_err (1 / 1000)
  rw [abs_of_nonneg hA0] at ha
  rw [abs_of_nonneg hR0] at hr
  rw [abs_of_pos (by norm_num : (0 : ℚ) < 1 / 1000)] at hc
  set a := f32 A with hadef
  set r := f32 R with hrdef
  set c := f32 (1 / 1000) with hcdef
  -- the product
  have hr1 : |r - R| ≤ 999 / 2 ^ 24 := by
    refine le_trans hr ?_
    apply div_le_div_of_nonneg_right hR999
    positivity
  have hc1 : |c| ≤ 2 / 1000 := by
    have := abs_le.mp hc
    rw [abs_le]
    constructor <;> norm_num at this ⊢ <;> linarith [this.1, this.2]
  have hprod : |r * c - R / 1000| ≤ 3 / 2 ^ 24 := by
    have e : r * c - R / 1000 = (r - R) * c + R * (c - 1 / 1000) := by ring
    have h1 := abs_mul_le_mul (r - R) c _ _ hr1 hc1
    have h2 := abs_mul_le_mul R (c - 1 / 1000) 999 _ (by rw [abs_of_nonneg hR0]; exact hR999) hc
    rw [e]
    refine le_trans (abs_add _ _) ?_
    norm_num at h1 h2 ⊢
    linarith
  have hprod2 : |r * c| ≤ 2 := by
    have h1 := abs_le.mp hprod
    rw [abs_le]
    norm_num at h1
    constructor <;> linarith [h1.1, h1.2]
  have hb := f32_err (r * c)
  set b := f32 (r * c) with hbdef
  have hb1 : |b - R / 1000| ≤ 5 / 2 ^ 24 := by
    have e : b - R / 1000 = (b - r * c) + (r * c - R / 1000) := by ring
    rw [e]
    refine le_trans (abs_add _ _) ?_
    have : |r * c| / 2 ^ 24 ≤ 2 / 2 ^ 24 := by
      apply div_le_div_of_nonneg_right hprod2
      positivity
    linarith
  -- the sum
  have hsum : |a + b - (y : ℚ) / 1000| ≤ 2103 / 2 ^ 24 := by
    have e : a + b - (y : ℚ) / 1000 = (a - A) + (b - R / 1000) := by
      rw [← hsplit]; ring
    rw [e]
    refine le_trans (abs_add _ _) ?_
    have : A / 2 ^ 24 ≤ 2098 / 2 ^ 24 := by
      apply div_le_div_of_nonneg_right hA2098
      positivity
    linarith
  have hsum2 : |a + b| ≤ 2098 := by
    have h1 := abs_le.mp hsum
    have hy0 : (0 : ℚ) ≤ (y : ℚ) := Nat.cast_nonneg _
    rw [abs_le]
    norm_num at h1
    constructor <;> linarith [h1.1, h1.2]
  have hs := f32_err (a + b)
  have haval : aValOf y = f32 (a + b) := rfl
  set s := f32 (a + b) with hsdef
  have hs1 : |s - (y : ℚ) / 1000| ≤ 4201 / 2 ^ 24 := by
    have e : s - (y : ℚ) / 1000 = (s - (a + b)) + (a + b - (y : ℚ) / 1000) := by ring
    rw [e]
    refine le_trans (abs_add _ _) ?_
    have : |a + b| / 2 ^ 24 ≤ 2098 / 2 ^ 24 := by
      apply div_le_div_of_nonneg_right hsum2
      positivity
    linarith
  -- the product with 1000
  have hs1000 : |s * 1000 - (y : ℚ)| ≤ 4201000 / 2 ^ 24 := by
    have e : s * 1000 - (y : ℚ) = (s - (y : ℚ) / 1000) * 1000 := by ring
    rw [e, abs_mul]
    norm_num
    norm_num at hs1
    linarith
  have hs1000b : |s * 1000| ≤ 2 ^ 21 + 1 := by
    have h1 := abs_le.mp hs1000
    have hy0 : (0 : ℚ) ≤ (y : ℚ) := Nat.cast_nonneg _
    rw [abs_le]
    norm_num at h1 ⊢
    constructor <;> linarith [h1.1, h1.2]
  have ht := f32_err (s * 1000)
  rw [haval]
  have e : f32 (s * 1000) - (y : ℚ) = (f32 (s * 1000) - s * 1000) + (s * 1000 - (y : ℚ)) := by
    ring
  rw [e]
  refine lt_of_le_of_lt (abs_add _ _) ?_
  have : |s * 1000| / 2 ^ 24 ≤ (2 ^ 21 + 1) / 2 ^ 24 := by
    apply div_le_div_of_nonneg_right hs1000b
    positivity
  norm_num at this hs1000 ht ⊢
  linarith


theorem round3_aValOf (y : ℕ) (hy : y ≤ 2 ^ 21) :
    round3 (aValOf y) = f32 (f64 ((y : ℚ) / 1000)) ∧
      |round3 (aValOf y) - (y : ℚ) / 1000| < 1 / 2000 := by
  have hy1 : y ≤ 2097152 := by omega
  have hyq : (y : ℚ) ≤ 2097152 := by exact_mod_cast hy1
  have hy0 : (0 : ℚ) ≤ (y : ℚ) := Nat.cast_nonneg _
  have hnear := f32_aValOf_mul_near y hy
  have hround : mathRound (f32 (aValOf y * 1000)) = (y : ℚ) := by
    have := mathRound_eq_of_near (f32 (aValOf y * 1000)) (y : ℤ) (by exact_mod_cast hnear)
    rw [this]
    norm_cast
  have heq : round3 (aValOf y) = f32 (f64 ((y : ℚ) / 1000)) := by
    unfold round3
    rw [hround]
  refine ⟨heq, ?_⟩
  rw [heq]
  have hq0 : (0 : ℚ) ≤ (y : ℚ) / 1000 := by positivity
  have hw := f64_err ((y : ℚ) / 1000)
  rw [abs_of_nonneg hq0] at hw
  have hw2 : |f64 ((y : ℚ) / 1000)| ≤ 2098 := by
    have h1 := abs_le.mp hw
    rw [abs_le]
    norm_num at h1 ⊢
    constructor <;> linarith [h1.1, h1.2]
  have hres := f32_err (f64 ((y : ℚ) / 1000))
  have e : f32 (f64 ((y : ℚ) / 1000)) - (y : ℚ) / 1000
      = (f32 (f64 ((y : ℚ) / 1000)) - f64 ((y : ℚ) / 1000))
        + (f64 ((y : ℚ) / 1000) - (y : ℚ) / 1000) := by ring
  rw [e]
  refine lt_of_le_of_lt (abs_add _ _) ?_
  have h3 : |f64 ((y : ℚ) / 1000)| / 2 ^ 24 ≤ 2098 / 2 ^ 24 := by
    apply div_le_div_of_nonneg_right hw2
    positivity
  norm_num at hw h3 hres ⊢
  linarith

theorem signBit32_iff (x : ℕ) (h : x < 2 ^ 32) : (x &&& 0x80000000 ≠ 0) ↔ 2 ^ 31 ≤ x := by
  have e : (0x80000000 : ℕ) = 2 ^ 31 := by norm_num
  rw [e, Nat.and_two_pow]
  simp [Nat.testBit_to_div_mod]
  omega

theorem signBit16_iff (x : ℕ) (h : x < 2 ^ 16) : (x &&& 0x8000 ≠ 0) ↔ 2 ^ 15 ≤ x := by
  have e : (0x8000 : ℕ) = 2 ^ 15 := by norm_num
  rw [e, Nat.and_two_pow]
  simp [Nat.testBit_to_div_mod]
  omega

theorem MakeFloat32FromUint32_of_lt (x : ℕ) (h : x < 2 ^ 31) :
    MakeFloat32FromUint32 x = GoFloat.num (round3 (aValOf x)) := by
  have hne : x ≠ SystemUndefined32BitValue := by unfold SystemUndefined32BitValue; omega
  have hs : ¬ (x &&& 0x80000000 ≠ 0) := by
    rw [signBit32_iff x (by omega)]; omega
  simp only [MakeFloat32FromUint32, hne, if_false, hs, decide_False, Bool.false_eq_true]

theorem MakeFloat32FromUint32_of_gt (x : ℕ) (h1 : 2 ^ 31 < x) (h2 : x < 2 ^ 32) :
    MakeFloat32FromUint32 x = GoFloat.num (-round3 (aValOf (2 ^ 32 - x))) := by
  have hne : x ≠ SystemUndefined32BitValue := by unfold SystemUndefined32BitValue; omega
  have hs : x &&& 0x80000000 ≠ 0 := by
    rw [signBit32_iff x h2]; omega
  have hd : decide (x &&& 0x80000000 ≠ 0) = true := decide_eq_true hs
  have hx1 : (2 ^ 32 - 1 - x + 1) % 2 ^ 32 = 2 ^ 32 - x := by omega
  simp only [MakeFloat32FromUint32, hne, if_false, hd, if_true, hx1, round3_neg]

theorem makeFloat32FromUint16_of_lt (x : ℕ) (h : x < 2 ^ 15) :
    makeFloat32FromUint16 x = GoFloat.num (round3 (aValOf x)) := by
  have hne : x ≠ SystemUndefined16BitValue := by unfold SystemUndefined16BitValue; omega
  have hs : ¬ (x &&& 0x8000 ≠ 0) := by
    rw [signBit16_iff x (by omega)]; omega
  simp only [makeFloat32FromUint16, hne, if_false, hs, decide_False, Bool.false_eq_true]

theorem makeFloat32FromUint16_of_gt (x : ℕ) (h1 : 2 ^ 15 < x) (h2 : x < 2 ^ 16) :
    makeFloat32FromUint16 x = GoFloat.num (-round3 (aValOf (2 ^ 16 - x))) := by
  have hne : x ≠ SystemUndefined16BitValue := by unfold SystemUndefined16BitValue; omega
  have hs : x &&& 0x8000 ≠ 0 := by
    rw [signBit16_iff x h2]; omega
  have hd : decide (x &&& 0x8000 ≠ 0) = true := decide_eq_true hs
  have hx1 : (2 ^ 16 - 1 - x + 1) % 2 ^ 16 = 2 ^ 16 - x := by omega
  simp only [makeFloat32FromUint16, hne, if_false, hd, if_true, hx1, round3_neg]


theorem roundTo_natCast (p n : ℕ) (hn : n < 2 ^ p) : roundTo p (n : ℚ) = n := by
  rcases Nat.eq_zero_or_pos n with h0 | hpos
  · subst h0; simp [roundTo]
  · have h1 : 2 ^ Nat.log 2 n ≤ n := Nat.pow_log_le_self 2 (by omega)
    have h2 : n < 2 ^ (Nat.log 2 n + 1) := Nat.lt_pow_succ_log_self (by norm_num) n
    have he : Nat.log 2 n < p := by
      by_contra hc
      push_neg at hc
      have := Nat.pow_le_pow_right (by norm_num : 0 < 2) hc
      omega
    obtain ⟨k, hk⟩ : ∃ k, p = Nat.log 2 n + 1 + k := ⟨p - Nat.log 2 n - 1, by omega⟩
    have hu : (2 : ℚ) ^ (((Nat.log 2 n : ℕ) : ℤ) - (p : ℤ) + 1) = ((2 : ℚ) ^ k)⁻¹ := by
      rw [hk, ← zpow_natCast, ← zpow_neg]
      congr 1
      push_cast
      ring
    have hk0 : (2 : ℚ) ^ k ≠ 0 := by positivity
    have := roundTo_eq p (n : ℚ) ((Nat.log 2 n : ℕ) : ℤ) ((n * 2 ^ k : ℕ) : ℤ)
      (by exact_mod_cast hpos) (by rw [zpow_natCast]; exact_mod_cast h1)
      (by
        have e1 : ((Nat.log 2 n : ℕ) : ℤ) + 1 = ((Nat.log 2 n + 1 : ℕ) : ℤ) := by push_cast; ring
        rw [e1, zpow_natCast]; exact_mod_cast h2)
      (by
        rw [hu]
        have : (n : ℚ) / ((2 : ℚ) ^ k)⁻¹ - (((n * 2 ^ k : ℕ) : ℤ) : ℚ) = 0 := by
          push_cast
          field_simp
        rw [this]
        norm_num)
    rw [this, hu]
    push_cast
    field_simp

theorem f32_natCast (n : ℕ) (hn : n < 2 ^ 24) : f32 (n : ℚ) = n := roundTo_natCast 24 n hn

theorem f64_natCast (n : ℕ) (hn : n < 2 ^ 53) : f64 (n : ℚ) = n := roundTo_natCast 53 n hn

theorem f32_zero : f32 0 = 0 := roundTo_zero 24

theorem f64_zero : f64 0 = 0 := roundTo_zero 53

/-- The `float32` constant `0.001`. -/
theorem f32_thousandth : f32 (1 / 1000) = 8589935 / 8589934592 := by
  have := roundTo_eq 24 (1 / 1000) (-10) 8589935 (by norm_num) (by norm_num) (by norm_num)
    (by
      rw [abs_lt]
      constructor <;> norm_num)
  unfold f32
  rw [this]
  norm_num

theorem mathRound_natCast (n : ℕ) : mathRound (n : ℚ) = n := by
  have := mathRound_eq_of_near (n : ℚ) (n : ℤ) (by simp)
  rw [this]
  norm_cast

theorem round3_aValOf_zero : round3 (aValOf 0) = 0 := by
  have h : aValOf 0 = 0 := by
    simp [aValOf, f32_zero]
  rw [h]
  unfold round3
  have hm : mathRound (0 : ℚ) = 0 := by
    have := mathRound_natCast 0
    simpa using this
  simp [f32_zero, f64_zero, hm]

theorem round3_aValOf_1000 : round3 (aValOf 1000) = 1 := by
  have h : aValOf 1000 = 1 := by
    have e1 : f32 ((1 : ℕ) : ℚ) = ((1 : ℕ) : ℚ) := f32_natCast 1 (by norm_num)
    simp only [aValOf, Nat.reduceDiv, Nat.reduceMod, Nat.cast_zero, f32_zero, zero_mul, add_zero]
    rw [e1, e1]
    norm_num
  rw [h]
  unfold round3
  have e2 : f32 (1 * 1000) = ((1000 : ℕ) : ℚ) := by
    have := f32_natCast 1000 (by norm_num)
    rw [← this]; norm_num
  rw [e2, mathRound_natCast]
  have e3 : ((1000 : ℕ) : ℚ) / 1000 = ((1 : ℕ) : ℚ) := by norm_num
  rw [e3, f64_natCast 1 (by norm_num), f32_natCast 1 (by norm_num)]
  norm_num

/-! ## The fixed-point decoders: sentinel, sign and resolution -/

theorem MakeFloat32FromUint32_sentinel : MakeFloat32FromUint32 0x80000000 = float32NaN := by
  simp [MakeFloat32FromUint32, SystemUndefined32BitValue]

theorem makeFloat32FromUint16_sentinel : makeFloat32FromUint16 0x8000 = float32NaN := by
  simp [makeFloat32FromUint16, SystemUndefined16BitValue]

/-- Where the `uint16` product `sensorId*4` does not wrap, the 32-bit decoder
returns NaN for an in-range sample that holds the sentinel. -/
theorem handler32_sentinel (data : List Nat) (k : ℕ) (hk : k * 4 < 2 ^ 16)
    (hin : k < data.length / 4) (hs : le32 (data.drop (k * 4)) = 0x80000000) :
    handler32 data k = some float32NaN := by
  have h1 : ¬ k ≥ data.length / 4 := by omega
  have hlen : k * 4 + 4 ≤ data.length := by omega
  simp only [handler32, h1, if_false, Nat.mod_eq_of_lt hk]
  rw [sliceFrom_bind _ _ _ (by omega), Uint32_eq _ (by rw [List.length_drop]; omega), hs]
  show some (MakeFloat32FromUint32 0x80000000) = some float32NaN
  rw [MakeFloat32FromUint32_sentinel]

/-- Where the `uint16` product `sensorId*2` does not wrap, the 16-bit decoder
returns NaN for an in-range sample that holds the sentinel. -/
theorem handler16_sentinel (data : List Nat) (k : ℕ) (hk : k * 2 < 2 ^ 16)
    (hin : k < data.length / 2) (hs : le16 (data.drop (k * 2)) = 0x8000) :
    handler16 data k = some float32NaN := by
  have h1 : ¬ k ≥ data.length / 2 := by omega
  have hlen : k * 2 + 2 ≤ data.length := by omega
  simp only [handler16, h1, if_false, Nat.mod_eq_of_lt hk]
  rw [sliceFrom_bind _ _ _ (by omega), Uint16_eq _ (by rw [List.length_drop]; omega), hs]
  show some (makeFloat32FromUint16 0x8000) = some float32NaN
  rw [makeFloat32FromUint16_sentinel]

theorem getD_replicate_zero (n j : ℕ) : (List.replicate n 0 : List Nat).getD j 0 = 0 := by
  rw [List.getD_eq_getElem?_getD, List.getElem?_replicate]
  split <;> rfl

/-- C16 at its failing input: in a slice of 65540 bytes, sample 16384 is in
range and holds the sentinel `00 00 00 80`, but the slice bound `sensorId*4`
wraps to 0 in `uint16`, so the 32-bit decoder decodes sample 0 and returns
`0.0`, not NaN. -/
theorem handler32_late_sentinel :
    16384 < samplesWithLateSentinel.length / 4 ∧
    (samplesWithLateSentinel.drop (16384 * 4)).take 4 = [0, 0, 0, 128] ∧
    le32 [0, 0, 0, 128] = SystemUndefined32BitValue ∧
    handler32 samplesWithLateSentinel 16384 = some (GoFloat.num 0) ∧
    IsNaN (GoFloat.num 0) = false := by
  have hrep : (List.replicate 65536 0 : List Nat).length = 65536 := List.length_replicate _ _
  have hlen : samplesWithLateSentinel.length = 65540 := by
    rw [samplesWithLateSentinel, List.length_append, hrep]
    rfl
  have hdrop : samplesWithLateSentinel.drop (16384 * 4) = [0, 0, 0, 128] := by
    rw [samplesWithLateSentinel]
    exact List.drop_left' hrep
  have hget : ∀ j, j < 4 → samplesWithLateSentinel.getD j 0 = 0 := by
    intro j hj
    rw [samplesWithLateSentinel, getD_append_left _ _ j (by rw [hrep]; omega)]
    exact getD_replicate_zero 65536 j
  have hle : le32 samplesWithLateSentinel = 0 := by
    simp only [le32, hget 0 (by omega), hget 1 (by omega), hget 2 (by omega),
      hget 3 (by omega)]
    norm_num
  refine ⟨by rw [hlen]; norm_num, by rw [hdrop]; rfl, by decide, ?_, rfl⟩
  have h1 : ¬ 16384 ≥ samplesWithLateSentinel.length / 4 := by rw [hlen]; norm_num
  simp only [handler32, h1, if_false]
  have hidx : 16384 * 4 % 2 ^ 16 = 0 := by norm_num
  rw [hidx, sliceFrom_bind _ _ _ (by omega), List.drop_zero,
    Uint32_eq _ (by rw [hlen]; norm_num), hle]
  show some (MakeFloat32FromUint32 0) = some (GoFloat.num 0)
  rw [MakeFloat32FromUint32_of_lt 0 (by norm_num), round3_aValOf_zero]

/-- C17. Sign handling. A 32-bit wire value with the sign bit set, other than
the sentinel, decodes to the negation of what its complement-plus-one
`2 ^ 32 - x` decodes to; likewise for 16 bits with `2 ^ 16 - x`; and the
two's-complement pattern of -1000, `0xFFFFFC18`, decodes to -1. -/
theorem sign_handling :
    (∀ x, 2 ^ 31 < x → x < 2 ^ 32 →
      MakeFloat32FromUint32 x = (MakeFloat32FromUint32 (2 ^ 32 - x)).neg) ∧
    (∀ x, 2 ^ 15 < x → x < 2 ^ 16 →
      makeFloat32FromUint16 x = (makeFloat32FromUint16 (2 ^ 16 - x)).neg) ∧
    MakeFloat32FromUint32 0xFFFFFC18 = GoFloat.num (-1) := by
  refine ⟨fun x h1 h2 => ?_, fun x h1 h2 => ?_, ?_⟩
  · rw [MakeFloat32FromUint32_of_gt x h1 h2, MakeFloat32FromUint32_of_lt (2 ^ 32 - x) (by omega)]
    rfl
  · rw [makeFloat32FromUint16_of_gt x h1 h2, makeFloat32FromUint16_of_lt (2 ^ 16 - x) (by omega)]
    rfl
  · rw [MakeFloat32FromUint32_of_gt 0xFFFFFC18 (by norm_num) (by norm_num)]
    have e : 2 ^ 32 - 0xFFFFFC18 = 1000 := by norm_num
    rw [e, round3_aValOf_1000]

theorem sign_handling_witness :
    (2 : ℕ) ^ 31 < 0xFFFFFFFF ∧ (0xFFFFFFFF : ℕ) < 2 ^ 32 ∧
      MakeFloat32FromUint32 0xFFFFFFFF = (MakeFloat32FromUint32 (2 ^ 32 - 0xFFFFFFFF)).neg :=
  ⟨by norm_num, by norm_num, sign_handling.1 0xFFFFFFFF (by norm_num) (by norm_num)⟩

theorem round3_aValOf_2000000001 : round3 (aValOf 2000000001) = 2000000 := by
  have hc := f32_thousandth
  have h1 : f32 ((1 : ℕ) : ℚ) = ((1 : ℕ) : ℚ) := f32_natCast 1 (by norm_num)
  have h2 : f32 ((2000000 : ℕ) : ℚ) = ((2000000 : ℕ) : ℚ) := f32_natCast 2000000 (by norm_num)
  have hcc : f32 (8589935 / 8589934592) = 8589935 / 8589934592 := by
    have := roundTo_eq 24 (8589935 / 8589934592) (-10) 8589935 (by norm_num) (by norm_num)
      (by norm_num) (by rw [abs_lt]; constructor <;> norm_num)
    unfold f32
    rw [this]
    norm_num
  have hsum : f32 (2000000 + 8589935 / 8589934592) = 2000000 := by
    have := roundTo_eq 24 (2000000 + 8589935 / 8589934592) 20 16000000 (by norm_num)
      (by norm_num) (by norm_num) (by rw [abs_lt]; constructor <;> norm_num)
    unfold f32
    rw [this]
    norm_num
  have h : aValOf 2000000001 = 2000000 := by
    simp only [aValOf, Nat.reduceDiv, Nat.reduceMod]
    rw [h1, h2, hc]
    norm_num
    rw [hcc]
    exact hsum
  rw [h]
  unfold round3
  have ht : f32 (2000000 * 1000) = ((2000000000 : ℕ) : ℚ) := by
    have := roundTo_eq 24 (2000000 * 1000) 30 15625000 (by norm_num) (by norm_num)
      (by norm_num) (by rw [abs_lt]; constructor <;> norm_num)
    unfold f32
    rw [this]
    norm_num
  rw [ht, mathRound_natCast]
  have e3 : ((2000000000 : ℕ) : ℚ) / 1000 = ((2000000 : ℕ) : ℚ) := by norm_num
  rw [e3, f64_natCast 2000000 (by norm_num), h2]
  norm_num

/-- C18 as stated fails for large 32-bit values: the wire value 2000000001, the
reading 2000000.001, decodes to 2000000, which is off by 0.001. -/
theorem MakeFloat32FromUint32_2000000001 :
    (2000000001 : ℕ) < 2 ^ 32 ∧ (2000000001 : ℕ) ≠ SystemUndefined32BitValue ∧
    toInt32 2000000001 = 2000000001 ∧
    MakeFloat32FromUint32 2000000001 = GoFloat.num 2000000 ∧
    ¬ (|(2000000 : ℚ) - (2000000001 : ℚ) / 1000| < 1 / 2000) := by
  refine ⟨by norm_num, by decide, by decide, ?_, ?_⟩
  · rw [MakeFloat32FromUint32_of_lt 2000000001 (by norm_num), round3_aValOf_2000000001]
  · rw [abs_lt]
    norm_num

theorem toInt32_of_lt (x : ℕ) (h : x < 2 ^ 31) : toInt32 x = (x : ℤ) := by
  unfold toInt32
  have h1 : x % 2 ^ 32 = x := Nat.mod_eq_of_lt (by omega)
  rw [h1]
  simp only [show x < 2 ^ 31 from h, if_true]

theorem toInt32_of_ge (x : ℕ) (h1 : 2 ^ 31 ≤ x) (h2 : x < 2 ^ 32) :
    toInt32 x = (x : ℤ) - 2 ^ 32 := by
  unfold toInt32
  have h3 : x % 2 ^ 32 = x := Nat.mod_eq_of_lt h2
  rw [h3]
  simp only [show ¬ x < 2 ^ 31 by omega, if_false]

theorem toInt16_of_lt (x : ℕ) (h : x < 2 ^ 15) : toInt16 x = (x : ℤ) := by
  unfold toInt16
  have h1 : x % 2 ^ 16 = x := Nat.mod_eq_of_lt (by omega)
  rw [h1]
  simp only [show x < 2 ^ 15 from h, if_true]

theorem toInt16_of_ge (x : ℕ) (h1 : 2 ^ 15 ≤ x) (h2 : x < 2 ^ 16) :
    toInt16 x = (x : ℤ) - 2 ^ 16 := by
  unfold toInt16
  have h3 : x % 2 ^ 16 = x := Nat.mod_eq_of_lt h2
  rw [h3]
  simp only [show ¬ x < 2 ^ 15 by omega, if_false]

theorem round3_aValOf_neg_near (y : ℕ) (hy : y ≤ 2 ^ 21) (z : ℤ) (hz : z = -(y : ℤ)) :
    |(-round3 (aValOf y)) - (z : ℚ) / 1000| < 1 / 2000 := by
  have h := (round3_aValOf y hy).2
  have e : (-round3 (aValOf y)) - (z : ℚ) / 1000 = -(round3 (aValOf y) - (y : ℚ) / 1000) := by
    rw [hz]
    push_cast
    ring
  rw [e, abs_neg]
  exact h

/-- C18, as the code has it. Three-decimal resolution holds for every 16-bit
wire value other than the sentinel, and for every 32-bit wire value other than
the sentinel whose signed value is at most `2 ^ 21` in magnitude: the decoded
reading differs from the signed value divided by 1000 by less than 0.0005. -/
theorem fixed_point_resolution :
    (∀ x, x < 2 ^ 16 → x ≠ 0x8000 →
      ∃ v, makeFloat32FromUint16 x = GoFloat.num v ∧
        |v - (toInt16 x : ℚ) / 1000| < 1 / 2000) ∧
    (∀ x, x < 2 ^ 32 → x ≠ 0x80000000 → |toInt32 x| ≤ 2 ^ 21 →
      ∃ v, MakeFloat32FromUint32 x = GoFloat.num v ∧
        |v - (toInt32 x : ℚ) / 1000| < 1 / 2000) := by
  constructor
  · intro x hx hne
    by_cases hlt : x < 2 ^ 15
    · refine ⟨_, makeFloat32FromUint16_of_lt x hlt, ?_⟩
      rw [toInt16_of_lt x hlt]
      have h := (round3_aValOf x (by omega)).2
      have e : (((x : ℤ)) : ℚ) = (x : ℚ) := Int.cast_natCast x
      rw [e]
      exact h
    · have hgt : 2 ^ 15 < x := by omega
      refine ⟨_, makeFloat32FromUint16_of_gt x hgt hx, ?_⟩
      apply round3_aValOf_neg_near (2 ^ 16 - x) (by omega)
      rw [toInt16_of_ge x (by omega) hx]
      omega
  · intro x hx hne hmag
    by_cases hlt : x < 2 ^ 31
    · rw [toInt32_of_lt x hlt] at hmag ⊢
      have hx21 : x ≤ 2 ^ 21 := by
        rw [abs_le] at hmag
        omega
      refine ⟨_, MakeFloat32FromUint32_of_lt x hlt, ?_⟩
      have h := (round3_aValOf x hx21).2
      have e : (((x : ℤ)) : ℚ) = (x : ℚ) := Int.cast_natCast x
      rw [e]
      exact h
    · have hgt : 2 ^ 31 < x := by omega
      rw [toInt32_of_ge x (by omega) hx] at hmag ⊢
      have hx21 : 2 ^ 32 - x ≤ 2 ^ 21 := by
        rw [abs_le] at hmag
        omega
      refine ⟨_, MakeFloat32FromUint32_of_gt x hgt hx, ?_⟩
      apply round3_aValOf_neg_near (2 ^ 32 - x) hx21
      omega

theorem fixed_point_resolution_witness :
    (255 : ℕ) < 2 ^ 32 ∧ (255 : ℕ) ≠ 0x80000000 ∧ |toInt32 255| ≤ 2 ^ 21 ∧
      ∃ v, MakeFloat32FromUint32 255 = GoFloat.num v ∧
        |v - (toInt32 255 : ℚ) / 1000| < 1 / 2000 :=
  ⟨by norm_num, by norm_num, by decide,
    fixed_point_resolution.2 255 (by norm_num) (by norm_num) (by decide)⟩

/-! ## Virtual device ids -/

theorem int32OfInt_of_fits (z : Int) (h1 : -(2 ^ 31) ≤ z) (h2 : z < 2 ^ 31) :
    int32OfInt z = z :=
  toInt32_ofInt32 z h1 h2

/-- C21. Virtual device id round trip. For every host id between 0 and
`0x5FFFFFFF`, `GetSpecialDeviceForHost` returns the host id plus `0x20000000`,
and `GetHostForSpecialDevice` applied to that returns the host id and no error. -/
theorem special_device_roundtrip (h : Int) (h0 : 0 ≤ h) (h1 : h ≤ 0x5FFFFFFF) :
    GetSpecialDeviceForHost h = h + 0x20000000 ∧
    GetHostForSpecialDevice (GetSpecialDeviceForHost h) = (h, none) := by
  have e1 : GetSpecialDeviceForHost h = h + 0x20000000 := by
    unfold GetSpecialDeviceForHost MaxDeviceId
    rw [int32OfInt_of_fits h (by omega) (by omega),
      int32OfInt_of_fits (h + 0x20000000) (by omega) (by omega)]
  refine ⟨e1, ?_⟩
  rw [e1]
  unfold GetHostForSpecialDevice MaxDeviceId
  have hn : ¬ (h + 0x20000000 < 0x20000000) := by omega
  rw [if_neg hn]
  have e2 : h + 0x20000000 - 0x20000000 = h := by omega
  rw [e2, int32OfInt_of_fits h (by omega) (by omega)]

theorem special_device_roundtrip_witness :
    (0 : Int) ≤ 500 ∧ (500 : Int) ≤ 0x5FFFFFFF ∧
      GetSpecialDeviceForHost 500 = 500 + 0x20000000 ∧
      GetHostForSpecialDevice (GetSpecialDeviceForHost 500) = (500, none) :=
  ⟨by decide, by decide, special_device_roundtrip 500 (by decide) (by decide)⟩

/-- C22. For a signed 32-bit device id, `GetHostForSpecialDevice` returns an
error exactly when the id is below `0x20000000`, negative ids included; for an
id of at least `0x20000000` it returns the id minus `0x20000000` and no error. -/
theorem GetHostForSpecialDevice_spec (d : Int) (h1 : -(2 ^ 31) ≤ d) (h2 : d < 2 ^ 31) :
    ((GetHostForSpecialDevice d).2 ≠ none ↔ d < 0x20000000) ∧
    (0x20000000 ≤ d → GetHostForSpecialDevice d = (d - 0x20000000, none)) := by
  unfold GetHostForSpecialDevice MaxDeviceId
  by_cases hd : d < 0x20000000
  · rw [if_pos hd]
    refine ⟨⟨fun _ => hd, fun _ hc => by cases hc⟩, fun hge => ?_⟩
    omega
  · rw [if_neg hd, int32OfInt_of_fits (d - 0x20000000) (by omega) (by omega)]
    exact ⟨⟨fun hc => absurd rfl hc, fun hc => absurd hc hd⟩, fun _ => rfl⟩

theorem GetHostForSpecialDevice_spec_witness :
    -(2 ^ 31) ≤ (-5 : Int) ∧ (-5 : Int) < 2 ^ 31 ∧
      ((GetHostForSpecialDevice (-5)).2 ≠ none ↔ (-5 : Int) < 0x20000000) :=
  ⟨by decide, by decide, (GetHostForSpecialDevice_spec (-5) (by decide) (by decide)).1⟩

/-! ## The decoders return -/

theorem ParseEventsPackage_returns (p : DataPackage) :
    (∃ ev, p.ParseEventsPackage = Outcome.ret (some ev) none) ∨
    (∃ e, p.ParseEventsPackage = Outcome.ret none (some e)) := by
  by_cases hf : p.Format = 1 ∨ p.Format = 8 ∨ p.Format = 9
  · obtain ⟨hok, hbad⟩ := ParseEventsPackage_spec p hf
    by_cases hs : SplitsIntoRecords p.Data
    · exact Or.inl (hok hs)
    · exact Or.inr (hbad hs)
  · right
    refine ⟨ParseError.expectedEventsFormat, ?_⟩
    have h1 : p.Format ≠ 1 := fun h => hf (Or.inl h)
    have h8 : p.Format ≠ 8 := fun h => hf (Or.inr (Or.inl h))
    have h9 : p.Format ≠ 9 := fun h => hf (Or.inr (Or.inr h))
    simp only [DataPackage.ParseEventsPackage, PackageFormatEvents,
      PackageFormatChangeObjectStates, PackageFormatChangeFailureStates, h1, h8, h9, or_self,
      not_false_eq_true, if_true]

theorem ParseFullObjectStatePackage_returns (p : DataPackage) :
    (∃ m, p.ParseFullObjectStatePackage = Outcome.ret (some m) none) ∨
    (∃ e, p.ParseFullObjectStatePackage = Outcome.ret none (some e)) := by
  by_cases hf : p.Format = 6
  swap
  · right
    refine ⟨ParseError.expectedFullStateFormat, ?_⟩
    simp only [DataPackage.ParseFullObjectStatePackage, PackageFormatFullObjectStates, ne_eq,
      hf, not_false_eq_true, if_true]
  by_cases hm : p.Data.length % 7 = 0
  swap
  · right
    refine ⟨ParseError.eventsDataSize, ?_⟩
    simp only [DataPackage.ParseFullObjectStatePackage, PackageFormatFullObjectStates, ne_eq,
      hf, not_true_eq_false, if_false, hm, not_false_eq_true, if_true]
  have hr : p.ParseFullObjectStatePackage
      = fullObjectStatesLoop p.Data (p.Data.length / 7) 0 GoMap.empty := by
    simp only [DataPackage.ParseFullObjectStatePackage, PackageFormatFullObjectStates, ne_eq,
      hf, not_true_eq_false, if_false, hm]
  obtain ⟨hok, hbad⟩ := fullObjectStatesLoop_spec p.Data (p.Data.length / 7) 0 GoMap.empty
    (by have := Nat.div_mul_le_self p.Data.length 7; omega)
  rw [← hr] at hok hbad
  by_cases hall : ∀ j, 0 ≤ j → j < 0 + p.Data.length / 7 → p.Data.getD (j * 7) 0 = 8
  · exact Or.inl ⟨_, hok hall⟩
  · right
    apply hbad
    by_contra hc
    apply hall
    intro j h0 hj
    by_contra hne
    exact hc ⟨j, h0, hj, hne⟩

theorem ParseFullFailureStatePackage_returns (p : DataPackage) :
    (∃ m, p.ParseFullFailureStatePackage = Outcome.ret (some m) none) ∨
    (∃ e, p.ParseFullFailureStatePackage = Outcome.ret none (some e)) := by
  by_cases hf : p.Format = 2
  swap
  · right
    refine ⟨ParseError.expectedFullFailureFormat, ?_⟩
    simp only [DataPackage.ParseFullFailureStatePackage, PackageFormatFullFailureStates, ne_eq,
      hf, not_false_eq_true, if_true]
  by_cases hm : p.Data.length % 18 = 0
  swap
  · right
    refine ⟨ParseError.failureDataSize, ?_⟩
    simp only [DataPackage.ParseFullFailureStatePackage, PackageFormatFullFailureStates, ne_eq,
      hf, not_true_eq_false, if_false, hm, not_false_eq_true, if_true]
  have hr : p.ParseFullFailureStatePackage
      = fullFailureStatesLoop p.Data (p.Data.length / 18) 0 GoMap.empty := by
    simp only [DataPackage.ParseFullFailureStatePackage, PackageFormatFullFailureStates, ne_eq,
      hf, not_true_eq_false, if_false, hm]
  obtain ⟨hok, hbad⟩ := fullFailureStatesLoop_spec p.Data (p.Data.length / 18) 0 GoMap.empty
    (by have := Nat.div_mul_le_self p.Data.length 18; omega)
  rw [← hr] at hok hbad
  by_cases hall : ∀ j, 0 ≤ j → j < 0 + p.Data.length / 18 → p.Data.getD (j * 18) 0 = 1
  · exact Or.inl ⟨_, hok hall⟩
  · right
    apply hbad
    by_contra hc
    apply hall
    intro j h0 hj
    by_contra hne
    exact hc ⟨j, h0, hj, hne⟩

/-- C23. No decoder panics. For every package, whatever its format, payload
bytes and declared size, each of `ParseEventsPackage`,
`ParseFullObjectStatePackage` and `ParseFullFailureStatePackage` returns either
a result with no error or a nil result with an error; the outcomes in which an
index or slice expression leaves `Data` (`panic`) and in which the loop does
not come to an end (`outOfFuel`) do not occur. -/
theorem decoders_never_panic (p : DataPackage) :
    ((∃ ev, p.ParseEventsPackage = Outcome.ret (some ev) none) ∨
      (∃ e, p.ParseEventsPackage = Outcome.ret none (some e))) ∧
    ((∃ m, p.ParseFullObjectStatePackage = Outcome.ret (some m) none) ∨
      (∃ e, p.ParseFullObjectStatePackage = Outcome.ret none (some e))) ∧
    ((∃ m, p.ParseFullFailureStatePackage = Outcome.ret (some m) none) ∨
      (∃ e, p.ParseFullFailureStatePackage = Outcome.ret none (some e))) ∧
    p.ParseEventsPackage ≠ Outcome.panic ∧ p.ParseEventsPackage ≠ Outcome.outOfFuel ∧
    p.ParseFullObjectStatePackage ≠ Outcome.panic ∧
    p.ParseFullFailureStatePackage ≠ Outcome.panic := by
  have h1 := ParseEventsPackage_returns p
  have h2 := ParseFullObjectStatePackage_returns p
  have h3 := ParseFullFailureStatePackage_returns p
  refine ⟨h1, h2, h3, ?_, ?_, ?_, ?_⟩
  · rcases h1 with ⟨v, h⟩ | ⟨v, h⟩ <;> rw [h] <;> intro hc <;> cases hc
  · rcases h1 with ⟨v, h⟩ | ⟨v, h⟩ <;> rw [h] <;> intro hc <;> cases hc
  · rcases h2 with ⟨v, h⟩ | ⟨v, h⟩ <;> rw [h] <;> intro hc <;> cases hc
  · rcases h3 with ⟨v, h⟩ | ⟨v, h⟩ <;> rw [h] <;> intro hc <;> cases hc

/-- C30. A changed-failure-states package is decoded like an event stream:
for every package, `ParseEventsPackage` with format 9 returns what it returns
with format 1 on the same payload, error or aggregate; the sample payload with
a failure record between discrete states fills the failure map under format 9. -/
theorem ParseEventsPackage_format_9_as_1 (p : DataPackage) :
    { p with Format := 9 }.ParseEventsPackage = { p with Format := 1 }.ParseEventsPackage ∧
    { statesAndFailurePackage with Format := 9 }.ParseEventsPackage
      = Outcome.ret (some statesAndFailureEvents) none := by
  constructor
  · simp only [DataPackage.ParseEventsPackage, PackageFormatEvents,
      PackageFormatChangeObjectStates, PackageFormatChangeFailureStates,
      PackageEventTypeObjectState]
    rfl
  · decide

/-! ## Serialisation: header and payload -/

/-- C26. Serialisation writes the header always and the payload only for a
non-zero declared length. For every package `Bytes()` starts with the 18
header bytes, the little-endian fields in wire order, the length field
included; with `DataSize = 0` nothing follows, whatever `Data` holds, and with
`DataSize > 0` the bytes of `Data` follow. -/
theorem Bytes_header_then_payload (p : DataPackage) (hw : p.WellTyped) :
    p.Bytes.take 18 =
      LittleEndian.PutUint64 p.Time ++ LittleEndian.PutUint32 (ofInt32 p.DeviceId)
        ++ LittleEndian.PutUint16 p.SensorCount ++ [p.BitsPerSensor] ++ [p.Format]
        ++ LittleEndian.PutUint16 p.DataSize ∧
    (p.Bytes.take 18).length = 18 ∧
    headerAt DataPackage.zero p.Bytes 0 = { p with Data := [] } ∧
    (p.DataSize = 0 → p.Bytes = p.Bytes.take 18) ∧
    (p.DataSize > 0 → p.Bytes = p.Bytes.take 18 ++ p.Data) := by
  have hb := Bytes_eq p
  have hhdr := headerAt_Bytes p hw
  obtain ⟨_, _, _, _, hbits, hfmt, _, _⟩ := hw
  have hbits1 : p.BitsPerSensor % 256 = p.BitsPerSensor := Nat.mod_eq_of_lt hbits
  have hfmt1 : p.Format % 256 = p.Format := Nat.mod_eq_of_lt hfmt
  have ht : p.Bytes.take 18 =
      [p.Time % 256, p.Time / 2 ^ 8 % 256, p.Time / 2 ^ 16 % 256, p.Time / 2 ^ 24 % 256,
      p.Time / 2 ^ 32 % 256, p.Time / 2 ^ 40 % 256, p.Time / 2 ^ 48 % 256, p.Time / 2 ^ 56 % 256,
      ofInt32 p.DeviceId % 256, ofInt32 p.DeviceId / 2 ^ 8 % 256,
      ofInt32 p.DeviceId / 2 ^ 16 % 256, ofInt32 p.DeviceId / 2 ^ 24 % 256,
      p.SensorCount % 256, p.SensorCount / 2 ^ 8 % 256, p.BitsPerSensor % 256, p.Format % 256,
      p.DataSize % 256, p.DataSize / 2 ^ 8 % 256] := by
    rw [hb]
    exact List.take_left' rfl
  refine ⟨?_, ?_, hhdr, ?_, ?_⟩
  · rw [ht, hbits1, hfmt1]
    rfl
  · rw [ht]
    rfl
  · intro hz
    rw [ht]
    rw [hb]
    simp only [hz, gt_iff_lt, lt_self_iff_false, if_false, List.append_nil]
  · intro hpos
    rw [ht]
    rw [hb]
    simp only [hpos, if_true]

theorem Bytes_header_then_payload_witness :
    zeroSizePackage.WellTyped ∧ zeroSizePackage.Data ≠ [] ∧
      zeroSizePackage.Bytes = zeroSizePackage.Bytes.take 18 :=
  ⟨by decide, by decide, (Bytes_header_then_payload zeroSizePackage (by decide)).2.2.2.1 rfl⟩

/-! ## Where a failed read leaves the reader -/

theorem ReadFull_short_end (r : Reader) (n : Nat) (hn : 0 < n) (h : ¬ r.i + n ≤ r.s.length)
    (hi : r.i ≤ r.s.length) :
    ∃ e, ReadFull r n = (⟨r.s, r.s.length⟩, .error e) := by
  by_cases hlt : r.i ≥ r.s.length
  · refine ⟨ReadError.EOF, ?_⟩
    have hn0 : ¬ (0 ≥ n) := by omega
    have hr : r = ⟨r.s, r.s.length⟩ := by
      cases r
      simp only [Reader.mk.injEq, true_and] at hlt hi ⊢
      omega
    simp only [ReadFull, Reader.Read, hlt, if_true, List.length_nil, hn0, if_false]
    rw [← hr]
  · have hlen : ((r.s.drop r.i).take n).length = r.s.length - r.i := by
      simp [List.length_take, List.length_drop]; omega
    refine ⟨ReadError.ErrUnexpectedEOF, ?_⟩
    have h1 : ¬ (r.s.length - r.i ≥ n) := by omega
    have h2 : ¬ (r.s.length - r.i = 0) := by omega
    have h3 : r.i + (r.s.length - r.i) = r.s.length := by omega
    simp only [ReadFull, Reader.Read, hlt, if_false, hlen, h1, h2, h3]

theorem Read_header_short_end (data : DataPackage) (r : Reader)
    (h : ¬ r.i + 18 ≤ r.s.length) (hi : r.i ≤ r.s.length) :
    (data.Read r).2.1 = ⟨r.s, r.s.length⟩ := by
  unfold DataPackage.Read
  by_cases h1 : r.i + 8 ≤ r.s.length
  swap
  · obtain ⟨e, he⟩ := ReadFull_short_end r 8 (by omega) h1 hi
    rw [he]
  rw [ReadFull_ok r 8 (by omega) h1]
  simp only []
  by_cases h2 : r.i + 8 + 4 ≤ r.s.length
  swap
  · obtain ⟨e, he⟩ := ReadFull_short_end ⟨r.s, r.i + 8⟩ 4 (by omega) h2 h1
    rw [he]
  rw [ReadFull_ok _ 4 (by omega) h2]
  simp only []
  by_cases h3 : r.i + 8 + 4 + 2 ≤ r.s.length
  swap
  · obtain ⟨e, he⟩ := ReadFull_short_end ⟨r.s, r.i + 8 + 4⟩ 2 (by omega) h3 h2
    rw [he]
  rw [ReadFull_ok _ 2 (by omega) h3]
  simp only []
  by_cases h4 : r.i + 8 + 4 + 2 + 1 ≤ r.s.length
  swap
  · obtain ⟨e, he⟩ := ReadFull_short_end ⟨r.s, r.i + 8 + 4 + 2⟩ 1 (by omega) h4 h3
    rw [he]
  rw [ReadFull_ok _ 1 (by omega) h4]
  simp only []
  by_cases h5 : r.i + 8 + 4 + 2 + 1 + 1 ≤ r.s.length
  swap
  · obtain ⟨e, he⟩ := ReadFull_short_end ⟨r.s, r.i + 8 + 4 + 2 + 1⟩ 1 (by omega) h5 h4
    rw [he]
  rw [ReadFull_ok _ 1 (by omega) h5]
  simp only []
  have h6 : ¬ r.i + 8 + 4 + 2 + 1 + 1 + 2 ≤ r.s.length := by omega
  obtain ⟨e, he⟩ := ReadFull_short_end ⟨r.s, r.i + 8 + 4 + 2 + 1 + 1⟩ 2 (by omega) h6 h5
  rw [he]

theorem Reader_Read_short_end (s : List Nat) (j n : Nat) (hj : j ≤ s.length)
    (h : ¬ j + n ≤ s.length) :
    (Reader.Read ⟨s, j⟩ n).2.1 = ⟨s, s.length⟩ := by
  by_cases hlt : j ≥ s.length
  · have hjs : j = s.length := by omega
    subst hjs
    simp only [Reader.Read, ge_iff_le, le_refl, if_true]
  · have hlen : ((s.drop j).take n).length = s.length - j := by
      simp [List.length_take, List.length_drop]; omega
    have h3 : j + (s.length - j) = s.length := by omega
    simp only [Reader.Read, hlt, if_false, hlen, h3]

theorem Read_error_end (data : DataPackage) (r : Reader) (hi : r.i ≤ r.s.length)
    (h : (data.Read r).2.2 ≠ none) : (data.Read r).2.1 = ⟨r.s, r.s.length⟩ := by
  by_cases hh : r.i + 18 ≤ r.s.length
  swap
  · exact Read_header_short_end data r hh hi
  rw [Read_header_ok _ _ hh] at h ⊢
  by_cases hpos : (headerAt data r.s r.i).DataSize > 0
  · simp only [hpos, if_true] at h ⊢
    by_cases hfit : r.i + 18 + (headerAt data r.s r.i).DataSize ≤ r.s.length
    · exfalso
      apply h
      rw [Reader_Read_ok _ _ _ hpos hfit]
      have hl : ((r.s.drop (r.i + 18)).take (headerAt data r.s r.i).DataSize).length
          = (headerAt data r.s r.i).DataSize := by
        simp [List.length_take, List.length_drop]; omega
      simp only [hl, ne_eq, not_true_eq_false, if_false]
    · exact Reader_Read_short_end r.s (r.i + 18) _ hh hfit
  · simp only [hpos, if_false] at h
    exact absurd rfl h

/-- C24, as the code has it. A failed `Read` does not give back what it has
read: whenever `Read` returns an error, the reader is left at the end of the
input, so every byte that remained has been consumed; its position is the one
before the call only when no byte remained. -/
theorem Read_error_consumes_the_rest (data : DataPackage) (r : Reader)
    (hi : r.i ≤ r.s.length) (h : (data.Read r).2.2 ≠ none) :
    (data.Read r).2.1.s = r.s ∧ (data.Read r).2.1.i = r.s.length ∧
      ((data.Read r).2.1.i = r.i ↔ r.i = r.s.length) := by
  rw [Read_error_end data r hi h]
  exact ⟨rfl, rfl, ⟨fun e => e.symm, fun e => e.symm⟩⟩

theorem Read_error_consumes_the_rest_witness :
    (NewReader (sampleWire.take 19)).i ≤ (NewReader (sampleWire.take 19)).s.length ∧
    (DataPackage.zero.Read (NewReader (sampleWire.take 19))).2.2 ≠ none ∧
    (DataPackage.zero.Read (NewReader (sampleWire.take 19))).2.1.i = 19 :=
  ⟨by decide, by decide,
    (Read_error_consumes_the_rest DataPackage.zero (NewReader (sampleWire.take 19))
      (by decide) (by decide)).2.1⟩

/-- C24 as stated fails: on three bytes `Read` returns an error for the header
cut short and the reader, at position 0 before the call, is at position 3
after it; on a header that declares two payload bytes followed by one byte it
returns an error and the reader is at position 19. -/
theorem Read_error_moves_reader :
    (NewReader [1, 2, 3]).i = 0 ∧
    (DataPackage.zero.Read (NewReader [1, 2, 3])).2.2 = some ReadError.ErrUnexpectedEOF ∧
    (DataPackage.zero.Read (NewReader [1, 2, 3])).2.1.i = 3 ∧
    (DataPackage.zero.Read (NewReader [1, 2, 3])).2.1.i ≠ (NewReader [1, 2, 3]).i ∧
    (DataPackage.zero.Read (NewReader (sampleWire.take 19))).2.2 = some ReadError.dataSize ∧
    (DataPackage.zero.Read (NewReader (sampleWire.take 19))).2.1.i = 19 := by
  decide

/-! ## The network package -/

theorem Read_no_error_iff_at (data : DataPackage) (r : Reader) :
    (data.Read r).2.2 = none ↔
      r.i + 18 ≤ r.s.length ∧
        r.i + 18 + le16 ((r.s.drop (r.i + 16)).take 2) ≤ r.s.length := by
  by_cases h : r.i + 18 ≤ r.s.length
  swap
  · obtain ⟨e, he⟩ := Read_header_short data r h
    rw [he]
    constructor
    · intro hc; cases hc
    · intro hc; exact absurd hc.1 h
  rw [Read_header_ok _ _ h]
  simp only [headerAt]
  by_cases hpos : le16 ((r.s.drop (r.i + 16)).take 2) > 0
  · simp only [hpos, if_true]
    by_cases hfit : r.i + 18 + le16 ((r.s.drop (r.i + 16)).take 2) ≤ r.s.length
    · rw [Reader_Read_ok _ _ _ hpos hfit]
      have hl : ((r.s.drop (r.i + 18)).take (le16 ((r.s.drop (r.i + 16)).take 2))).length
          = le16 ((r.s.drop (r.i + 16)).take 2) := by
        simp [List.length_take, List.length_drop]; omega
      simp only [hl, ne_eq, not_true_eq_false, if_false, true_iff]
      exact ⟨h, hfit⟩
    · have hne := Reader_Read_short r.s (r.i + 18) _ hpos hfit
      simp only [ne_eq, hne, not_false_eq_true, if_true]
      constructor
      · intro hc; cases hc
      · intro hc; exact absurd hc.2 hfit
  · simp only [hpos, if_false, true_iff]
    omega

theorem headerAt_drop (data : DataPackage) (b : List Nat) (k : Nat) :
    headerAt data (b.drop k) 0 = headerAt data b k := by
  simp only [headerAt, List.drop_drop, Nat.zero_add, Nat.add_zero, List.drop_zero, Nat.add_comm]

theorem Read_at_eq_Read_drop (data : DataPackage) (b : List Nat) (k : Nat)
    (hk : k ≤ b.length) :
    ((data.Read ⟨b, k⟩).2.2 = none ↔ (data.Read (NewReader (b.drop k))).2.2 = none) ∧
    ((data.Read ⟨b, k⟩).2.2 = none →
      (data.Read ⟨b, k⟩).1 = (data.Read (NewReader (b.drop k))).1) := by
  have hiff : (data.Read ⟨b, k⟩).2.2 = none ↔ (data.Read (NewReader (b.drop k))).2.2 = none := by
    rw [Read_no_error_iff_at, Read_no_error_iff_at]
    simp only [NewReader, List.length_drop, List.drop_drop, Nat.zero_add]
    omega
  refine ⟨hiff, fun h => ?_⟩
  have h2 := hiff.mp h
  rw [Read_ok_eq _ _ h, Read_ok_eq _ _ h2]
  simp only [NewReader, headerAt_drop, Nat.zero_add, List.drop_drop]

theorem NetworkPackage_Read_short (res : NetworkPackage) (b : List Nat) (h : ¬ 8 ≤ b.length) :
    ∃ e, (res.Read (NewReader b)).2.2 = some e := by
  unfold NetworkPackage.Read
  by_cases h1 : 4 ≤ b.length
  swap
  · obtain ⟨r1, e, he⟩ := ReadFull_short (NewReader b) 4 (by omega)
      (by simp only [NewReader]; omega)
    rw [he]; exact ⟨e, rfl⟩
  rw [ReadFull_ok (NewReader b) 4 (by omega) (by simp only [NewReader]; omega)]
  simp only []
  obtain ⟨r1, e, he⟩ := ReadFull_short ⟨(NewReader b).s, (NewReader b).i + 4⟩ 4 (by omega)
    (by simp only [NewReader]; omega)
  rw [he]; exact ⟨e, rfl⟩

theorem NetworkPackage_Read_ok (res : NetworkPackage) (b : List Nat) (h : 8 ≤ b.length) :
    res.Read (NewReader b) =
      ({ HostId := toInt32 (le32 (b.take 4))
         PackageId := toInt32 (le32 ((b.drop 4).take 4))
         Data := (DataPackage.zero.Read ⟨b, 8⟩).1 },
        (DataPackage.zero.Read ⟨b, 8⟩).2.1, (DataPackage.zero.Read ⟨b, 8⟩).2.2) := by
  unfold NetworkPackage.Read
  rw [ReadFull_ok (NewReader b) 4 (by omega) (by simp only [NewReader]; omega)]
  simp only []
  rw [ReadFull_ok _ 4 (by omega) (by simp only [NewReader]; omega)]
  simp only [NewReader, Nat.zero_add, List.drop_zero]

/-- C25. `NetworkPackage.Read` on a byte sequence succeeds exactly when the
sequence has at least 8 bytes and `DataPackage.Read` succeeds on the bytes
after the first 8. On success `HostId` and `PackageId` are the signed
little-endian 32-bit values of bytes 0..3 and 4..7, whatever they are, and
`Data` is the package `DataPackage.Read` produces from the remaining bytes. -/
theorem NetworkPackage_Read_spec (res : NetworkPackage) (b : List Nat) :
    ((res.Read (NewReader b)).2.2 = none ↔
      8 ≤ b.length ∧ (DataPackage.zero.Read (NewReader (b.drop 8))).2.2 = none) ∧
    ((res.Read (NewReader b)).2.2 = none →
      (res.Read (NewReader b)).1.HostId = toInt32 (le32 (b.take 4)) ∧
      (res.Read (NewReader b)).1.PackageId = toInt32 (le32 ((b.drop 4).take 4)) ∧
      (res.Read (NewReader b)).1.Data = (DataPackage.zero.Read (NewReader (b.drop 8))).1) := by
  by_cases h : 8 ≤ b.length
  swap
  · obtain ⟨e, he⟩ := NetworkPackage_Read_short res b h
    rw [he]
    refine ⟨⟨fun hc => (by cases hc), fun hc => absurd hc.1 h⟩, fun hc => (by cases hc)⟩
  obtain ⟨hiff, heq⟩ := Read_at_eq_Read_drop DataPackage.zero b 8 h
  rw [NetworkPackage_Read_ok res b h]
  refine ⟨⟨fun hc => ⟨h, hiff.mp hc⟩, fun hc => hiff.mpr hc.2⟩, fun hc => ⟨rfl, rfl, heq hc⟩⟩

theorem NetworkPackage_Read_spec_witness :
    (({ HostId := 0, PackageId := 0, Data := samplePackage } : NetworkPackage).Read
      (NewReader sampleNetworkWire)).2.2 = none ∧
    (({ HostId := 0, PackageId := 0, Data := samplePackage } : NetworkPackage).Read
      (NewReader sampleNetworkWire)).1
      = { HostId := 3, PackageId := -1, Data := samplePackage } ∧
    (({ HostId := 0, PackageId := 0, Data := samplePackage } : NetworkPackage).Read
      (NewReader sampleNetworkWire)).1.Data
      = (DataPackage.zero.Read (NewReader (sampleNetworkWire.drop 8))).1 :=
  ⟨by decide, by decide,
    ((NetworkPackage_Read_spec { HostId := 0, PackageId := 0, Data := samplePackage }
      sampleNetworkWire).2 (by decide)).2.2⟩

/-! ## In-range sample reads -/

/-- Where the `uint16` product `sensorId*2` does not wrap, the 16-bit decoder
decodes the word at slice bytes `2k`, `2k+1` of an in-range sample `k`. -/
theorem handler16_in_range (data : List Nat) (k : ℕ) (hk : k * 2 < 2 ^ 16)
    (hin : k < data.length / 2) :
    handler16 data k = some (makeFloat32FromUint16 (le16 (data.drop (k * 2)))) := by
  have h1 : ¬ k ≥ data.length / 2 := by omega
  have hlen : k * 2 + 2 ≤ data.length := by omega
  simp only [handler16, h1, if_false, Nat.mod_eq_of_lt hk]
  rw [sliceFrom_bind _ _ _ (by omega), Uint16_eq _ (by rw [List.length_drop]; omega)]

/-- Where the `uint16` product `sensorId*4` does not wrap, the 32-bit decoder
decodes the word at slice bytes `4k .. 4k+3` of an in-range sample `k`. -/
theorem handler32_in_range (data : List Nat) (k : ℕ) (hk : k * 4 < 2 ^ 16)
    (hin : k < data.length / 4) :
    handler32 data k = some (MakeFloat32FromUint32 (le32 (data.drop (k * 4)))) := by
  have h1 : ¬ k ≥ data.length / 4 := by omega
  have hlen : k * 4 + 4 ≤ data.length := by omega
  simp only [handler32, h1, if_false, Nat.mod_eq_of_lt hk]
  rw [sliceFrom_bind _ _ _ (by omega), Uint32_eq _ (by rw [List.length_drop]; omega)]

/-- C27 at its failing input: in a slice of 65538 bytes, sample 32768 is in
range and holds the word 1000, which decodes to 1.0, but the slice bound
`sensorId*2` wraps to 0 in `uint16`, so the 16-bit decoder decodes sample 0
and returns 0.0. -/
theorem handler16_late_sample :
    32768 < samplesWithLateValue.length / 2 ∧
    (samplesWithLateValue.drop (32768 * 2)).take 2 = [232, 3] ∧
    makeFloat32FromUint16 (le16 (samplesWithLateValue.drop (32768 * 2))) = GoFloat.num 1 ∧
    (GetDataConverterFunction 16).1 = some handler16 ∧
    handler16 samplesWithLateValue 32768 = some (GoFloat.num 0) := by
  have hrep : (List.replicate 65536 0 : List Nat).length = 65536 := List.length_replicate _ _
  have hlen : samplesWithLateValue.length = 65538 := by
    rw [samplesWithLateValue, List.length_append, hrep]
    rfl
  have hdrop : samplesWithLateValue.drop (32768 * 2) = [232, 3] := by
    rw [samplesWithLateValue]
    exact List.drop_left' hrep
  have hget : ∀ j, j < 2 → samplesWithLateValue.getD j 0 = 0 := by
    intro j hj
    rw [samplesWithLateValue, getD_append_left _ _ j (by rw [hrep]; omega)]
    exact getD_replicate_zero 65536 j
  have hle : le16 samplesWithLateValue = 0 := by
    simp only [le16, hget 0 (by omega), hget 1 (by omega)]
    norm_num
  have h1000 : le16 [232, 3] = 1000 := by decide
  refine ⟨by rw [hlen]; norm_num, by rw [hdrop]; rfl, ?_, rfl, ?_⟩
  · rw [hdrop, h1000, makeFloat32FromUint16_of_lt 1000 (by norm_num), round3_aValOf_1000]
  · have h1 : ¬ 32768 ≥ samplesWithLateValue.length / 2 := by rw [hlen]; norm_num
    simp only [handler16, h1, if_false]
    have hidx : 32768 * 2 % 2 ^ 16 = 0 := by norm_num
    rw [hidx, sliceFrom_bind _ _ _ (by omega), List.drop_zero,
      Uint16_eq _ (by rw [hlen]; norm_num), hle]
    show some (makeFloat32FromUint16 0) = some (GoFloat.num 0)
    rw [makeFloat32FromUint16_of_lt 0 (by norm_num), round3_aValOf_zero]

/-! ## A single accident record -/

/-- C28. For every payload that is a single 26-byte tag-7 record,
`ParseEventsPackage` under the event-stream format succeeds with five empty
maps and an accident map of exactly one entry. Its key is the object id at
record bytes 6..9 and the signed algorithm id at bytes 2..5; the entry carries
the type at byte 1, that algorithm id, that object id, the start time from
bytes 10..17 and the end time from bytes 18..25. Algorithm id bytes
`FF FF FF FF` give -1. -/
theorem ParseEventsPackage_single_accident (p : DataPackage) (hf : p.Format = 1)
    (hl : p.Data.length = 26) (ht : p.Data.head? = some 7) :
    p.ParseEventsPackage = Outcome.ret (some
      { ObjectStates := GoMap.empty
        ObjectFailuresChangeState := GoMap.empty
        ObjectAccidentsChangeState :=
          ⟨[({ ObjectId := le32 (p.Data.drop 6), AccidentId := toInt32 (le32 (p.Data.drop 2)) },
            { ObjectId := le32 (p.Data.drop 6)
              AccidentType := p.Data.getD 1 0
              AlgorithmId := toInt32 (le32 (p.Data.drop 2))
              StartTime := GetTimeFromUnixMicroseconds (le64 (p.Data.drop 10))
              EndTime := GetTimeFromUnixMicroseconds (le64 (p.Data.drop 18)) })]⟩
        ObjectFpChangeState := GoMap.empty
        ObjectNwaChangeState := GoMap.empty
        ObjectNwaStateLeaveEnter := GoMap.empty }) none ∧
    ((p.Data.drop 2).take 4 = [255, 255, 255, 255] →
      toInt32 (le32 (p.Data.drop 2)) = -1) := by
  refine ⟨?_, fun hff => ?_⟩
  swap
  · have h4 := le32_drop_take (p.Data.drop 2) 0 4 (by omega)
    simp only [List.drop_zero] at h4
    rw [← h4, hff]
    decide
  have hfmt : p.Format = PackageFormatEvents ∨ p.Format = PackageFormatChangeObjectStates ∨
      p.Format = PackageFormatChangeFailureStates := Or.inl hf
  have honly : decide (p.Format = PackageEventTypeObjectState) = false := by
    rw [hf]; rfl
  have hb : byteAt p.Data 0 = some 7 := by
    cases hd : p.Data with
    | nil => rw [hd] at hl; cases hl
    | cons a tl =>
      rw [hd] at ht
      simp only [List.head?_cons, Option.some.injEq] at ht
      rw [ht]
      rfl
  obtain ⟨ev, hev, hstep⟩ := eventsStep_accident false p.Data 0 PackageEvents.empty hb
    (by omega)
  rw [getObjectAccidentEvent_eq _ (by rw [List.length_drop]; omega)] at hev
  simp only [Option.some.injEq] at hev
  simp only [DataPackage.ParseEventsPackage, hfmt, not_true_eq_false, if_false, honly, hl]
  have h0 : (0 : Nat) < p.Data.length := by omega
  have h26 : ¬ (0 + 26 < p.Data.length) := by omega
  simp only [eventsLoop, h0, if_true, hstep, h26, if_false]
  rw [← hev]
  simp only [Bool.false_eq_true, if_false, drop_drop_add, Nat.zero_add, getD_drop_add,
    Nat.add_zero]
  rfl

theorem ParseEventsPackage_single_accident_witness :
    accidentPackage.Format = 1 ∧ accidentPackage.Data.length = 26 ∧
    accidentPackage.Data.head? = some 7 ∧
    toInt32 (le32 (accidentPackage.Data.drop 2)) = -1 ∧
    accidentPackage.ParseEventsPackage = Outcome.ret (some
      { ObjectStates := GoMap.empty
        ObjectFailuresChangeState := GoMap.empty
        ObjectAccidentsChangeState :=
          ⟨[({ ObjectId := le32 (accidentPackage.Data.drop 6),
               AccidentId := toInt32 (le32 (accidentPackage.Data.drop 2)) },
            { ObjectId := le32 (accidentPackage.Data.drop 6)
              AccidentType := accidentPackage.Data.getD 1 0
              AlgorithmId := toInt32 (le32 (accidentPackage.Data.drop 2))
              StartTime := GetTimeFromUnixMicroseconds (le64 (accidentPackage.Data.drop 10))
              EndTime := GetTimeFromUnixMicroseconds (le64 (accidentPackage.Data.drop 18)) })]⟩
        ObjectFpChangeState := GoMap.empty
        ObjectNwaChangeState := GoMap.empty
        ObjectNwaStateLeaveEnter := GoMap.empty }) none :=
  ⟨rfl, rfl, rfl,
    (ParseEventsPackage_single_accident accidentPackage rfl rfl rfl).2 (by decide),
    (ParseEventsPackage_single_accident accidentPackage rfl rfl rfl).1⟩

/-! ## Reserved records -/

theorem eventsStep_nwaBatch (only : Bool) (data : List Nat) (i : Nat) (r rest : List Nat)
    (res : PackageEvents) (hr : IsRecord r) (hd : data.drop i = r ++ rest) :
    ∃ res1, eventsStep only data i res = Step.next (i + r.length) res1 ∧
      res1.ObjectNwaStateLeaveEnter =
        (if only = true then res.ObjectNwaStateLeaveEnter
         else nwaBatchOfRecord data res.ObjectNwaStateLeaveEnter r) := by
  cases r with
  | nil => exact absurd hr (by unfold IsRecord; rw [recordLength_nil]; exact fun h => by cases h)
  | cons m tl =>
  obtain ⟨hb, hfit, hdrop⟩ := record_at data i m tl rest hd
  have hL : recordLength (m :: tl) = some (m :: tl).length := hr
  rw [recordLength_of_head (m :: tl) m rfl] at hL
  by_cases hrange : 1 ≤ m ∧ m ≤ 8
  swap
  · have h1 : m ≠ 1 := by omega
    have h2 : m ≠ 2 := by omega
    have h3 : m ≠ 3 := by omega
    have h4 : m ≠ 4 := by omega
    have h5 : m ≠ 5 := by omega
    have h6 : m ≠ 6 := by omega
    have h7 : m ≠ 7 := by omega
    have h8 : m ≠ 8 := by omega
    simp only [h1, h2, h3, h4, h5, h6, h7, h8, if_false] at hL
    cases hL
  obtain ⟨hm1, hm8⟩ := hrange
  interval_cases m
  · simp only [if_true, Option.some.injEq] at hL
    rw [← hL] at hfit ⊢
    obtain ⟨ev, _, hstep⟩ := eventsStep_failure only data i res hb hfit
    refine ⟨_, hstep, ?_⟩
    cases only <;> simp [nwaBatchOfRecord]
  · simp only [Nat.reduceEqDiff, if_true, if_false, Option.some.injEq] at hL
    rw [← hL] at hfit ⊢
    have hstep := eventsStep_skip only data i 2 res hb (Or.inl rfl) (by
      simpa [getEventRecordSize, PackageEventTypeFailureInfo, PackageEventTypeTimeMeasurement]
        using hfit)
    refine ⟨_, hstep, ?_⟩
    cases only <;> simp [nwaBatchOfRecord]
  · simp only [Nat.reduceEqDiff, if_true, if_false, Option.some.injEq] at hL
    rw [← hL] at hfit ⊢
    have hstep := eventsStep_skip only data i 3 res hb (Or.inr rfl) (by
      simpa [getEventRecordSize, PackageEventTypeFailureInfo, PackageEventTypeTimeMeasurement,
        PackageEventTypeNoConnectionWithDevice] using hfit)
    refine ⟨_, hstep, ?_⟩
    cases only <;> simp [nwaBatchOfRecord]
  · simp only [Nat.reduceEqDiff, if_true, if_false, Option.some.injEq] at hL
    rw [← hL] at hfit ⊢
    obtain ⟨ev, _, hstep⟩ := eventsStep_fp only data i res hb hfit
    refine ⟨_, hstep, ?_⟩
    cases only <;> simp [nwaBatchOfRecord]
  · simp only [Nat.reduceEqDiff, if_true, if_false, Option.some.injEq] at hL
    rw [← hL] at hfit ⊢
    obtain ⟨ev, _, hstep⟩ := eventsStep_nwaLeave only data i res hb hfit
    refine ⟨_, hstep, ?_⟩
    cases only <;> simp [nwaBatchOfRecord]
  · simp only [Nat.reduceEqDiff, if_true, if_false, Option.some.injEq] at hL
    have hN : le32 (data.drop (i + 9)) = le32 ((6 :: tl).drop 9) := by
      rw [← drop_drop_add, hd, le32_drop_append _ _ 9 (by omega)]
    have hT : le64 (data.drop (i + 1)) = le64 ((6 :: tl).drop 1) := by
      rw [← drop_drop_add, hd, le64_drop_append _ _ 1 (by omega)]
    obtain ⟨mp, hmp, hstep⟩ := eventsStep_nwaState only data i res hb (by rw [hN]; omega)
    rw [hN, hT] at hmp
    rw [hN, Nat.mul_comm, hL] at hstep
    refine ⟨_, hstep, ?_⟩
    cases only
    · simp only [Bool.false_eq_true, if_false, nwaBatchOfRecord, List.head?_cons, if_true, hmp,
        Option.getD_some]
    · simp
  · simp only [Nat.reduceEqDiff, if_true, if_false, Option.some.injEq] at hL
    rw [← hL] at hfit ⊢
    obtain ⟨ev, _, hstep⟩ := eventsStep_accident only data i res hb hfit
    refine ⟨_, hstep, ?_⟩
    cases only <;> simp [nwaBatchOfRecord]
  · simp only [Nat.reduceEqDiff, if_true, if_false, Option.some.injEq] at hL
    rw [← hL] at hfit ⊢
    have hstep := eventsStep_objectState only data i res hb hfit
    refine ⟨_, hstep, ?_⟩
    cases only <;> simp [nwaBatchOfRecord]

theorem eventsLoop_nwaBatch (only : Bool) (data : List Nat) (rs : List (List Nat))
    (hrs : ∀ r ∈ rs, IsRecord r) :
    ∀ (fuel i : Nat) (res : PackageEvents), i ≤ data.length → data.drop i = rs.flatten →
      data.length < fuel + i →
      ∃ ev, eventsLoop only data fuel i res = Outcome.ret (some ev) none ∧
        ev.ObjectNwaStateLeaveEnter =
          (if only = true then res.ObjectNwaStateLeaveEnter
           else rs.foldl (nwaBatchOfRecord data) res.ObjectNwaStateLeaveEnter) := by
  induction rs with
  | nil =>
    intro fuel i res hle hd hfuel
    have hlen := congrArg List.length hd
    rw [List.length_drop, List.flatten_nil, List.length_nil] at hlen
    have hi : ¬ i < data.length := by omega
    cases fuel with
    | zero => omega
    | succ fuel =>
      refine ⟨res, ?_, ?_⟩
      · simp only [eventsLoop, hi, if_false]
      · cases only <;> rfl
  | cons r rs ih =>
    intro fuel i res hle hd hfuel
    have hr : IsRecord r := hrs r (List.mem_cons_self _ _)
    have hr7 := recordLength_ge r r.length hr
    rw [List.flatten_cons] at hd
    have hlen := congrArg List.length hd
    rw [List.length_drop, List.length_append] at hlen
    have hi : i < data.length := by omega
    obtain ⟨res1, hstep, h1⟩ := eventsStep_nwaBatch only data i r rs.flatten res hr hd
    have hd1 : data.drop (i + r.length) = rs.flatten := by
      rw [← drop_drop_add, hd, List.drop_left]
    cases fuel with
    | zero => omega
    | succ fuel =>
      obtain ⟨ev, hev, g1⟩ :=
        ih (fun x hx => hrs x (List.mem_cons_of_mem _ hx)) fuel (i + r.length) res1
          (by omega) hd1 (by omega)
      refine ⟨ev, ?_, ?_⟩
      · simp only [eventsLoop, hi, if_true, hstep]
        exact hev
      · rw [g1, h1]; cases only <;> rfl

theorem ParseEventsPackage_records (p : DataPackage)
    (hf : p.Format = 1 ∨ p.Format = 8 ∨ p.Format = 9) (rs : List (List Nat))
    (hrs : ∀ r ∈ rs, IsRecord r) (hd : p.Data = rs.flatten) :
    p.ParseEventsPackage = Outcome.ret (some
      (eventsOfRecords (decide (p.Format = 8)) p.Data PackageEvents.empty rs)) none := by
  have hfmt : p.Format = PackageFormatEvents ∨ p.Format = PackageFormatChangeObjectStates ∨
      p.Format = PackageFormatChangeFailureStates := hf
  obtain ⟨ev, hev, g1, g2, g3, g4, g5, _⟩ :=
    eventsLoop_writes (decide (p.Format = 8)) p.Data rs hrs
      (p.Data.length + 1) 0 PackageEvents.empty (by omega) (by rw [List.drop_zero]; exact hd)
      (by omega)
  obtain ⟨ev1, hev1, g6⟩ :=
    eventsLoop_nwaBatch (decide (p.Format = 8)) p.Data rs hrs
      (p.Data.length + 1) 0 PackageEvents.empty (by omega) (by rw [List.drop_zero]; exact hd)
      (by omega)
  rw [hev] at hev1
  simp only [Outcome.ret.injEq, Option.some.injEq, and_true] at hev1
  rw [← hev1] at g6
  have hres : ev = eventsOfRecords (decide (p.Format = 8)) p.Data PackageEvents.empty rs := by
    cases ev
    simp only at g1 g2 g3 g4 g5 g6
    simp only [eventsOfRecords, g1, g2, g3, g4, g5, g6]
  simp only [DataPackage.ParseEventsPackage, hfmt, not_true_eq_false, if_false,
    PackageEventTypeObjectState]
  rw [hev, hres]

theorem splits_suffix (a : List Nat) (ha : SplitsIntoRecords a) :
    ∀ b : List Nat, SplitsIntoRecords (a ++ b) → SplitsIntoRecords b := by
  induction ha with
  | nil => intro b hb; exact hb
  | cons r rest hr _ ih =>
    intro b hb
    have hr7 := recordLength_ge r r.length hr
    have hne : r ++ rest ++ b ≠ [] := by
      intro hc
      have := congrArg List.length hc
      rw [List.length_append, List.length_append, List.length_nil] at this
      omega
    obtain ⟨L, hL, _, hrest⟩ := splits_inv _ hb hne
    rw [List.append_assoc, recordLength_append r (rest ++ b) hr] at hL
    cases hL
    rw [List.append_assoc, List.drop_left] at hrest
    exact ih b hrest

theorem length_le_flatten (rs : List (List Nat)) (r : List Nat) (h : r ∈ rs) :
    r.length ≤ rs.flatten.length := by
  induction rs with
  | nil => cases h
  | cons x xs ih =>
    rw [List.flatten_cons, List.length_append]
    rcases List.mem_cons.mp h with h1 | h1
    · rw [h1]; omega
    · have := ih h1
      omega

theorem nwaStatesLoop_append (a x : List Nat) (t : Int) (n : Nat) :
    ∀ (j : Nat) (m : GoMap Nat ObjectNwaStateChangeEventInfo),
      (j + n) * 8 + 13 ≤ a.length →
      nwaStatesLoop (a ++ x) t n j m = nwaStatesLoop a t n j m := by
  induction n with
  | zero => intro j m _; rfl
  | succ n ih =>
    intro j m h
    have hle : (j * 8 + 13) % 2 ^ 32 ≤ j * 8 + 13 := Nat.mod_le _ _
    have hax : (a ++ x).length = a.length + x.length := List.length_append _ _
    unfold nwaStatesLoop
    rw [sliceFrom_bind _ _ _ (by omega), sliceFrom_bind _ _ _ (by omega),
      getNwaChangeStateEvent_eq _ (by rw [List.length_drop]; omega),
      getNwaChangeStateEvent_eq _ (by rw [List.length_drop]; omega),
      drop_drop_add, drop_drop_add, le32_drop_append a x _ (by omega),
      le32_drop_append a x _ (by omega)]
    exact ih (j + 1) _ (by omega)

theorem nwaBatchOfRecord_append (a x r : List Nat)
    (m : GoMap Nat ObjectNwaStateChangeEventInfo) (hr : IsRecord r)
    (hl : r.length ≤ a.length) :
    nwaBatchOfRecord (a ++ x) m r = nwaBatchOfRecord a m r := by
  unfold nwaBatchOfRecord
  by_cases h6 : r.head? = some 6
  · have hL : recordLength r = some r.length := hr
    rw [recordLength_of_head r 6 h6] at hL
    simp only [Nat.reduceEqDiff, if_true, if_false, Option.some.injEq] at hL
    simp only [h6, if_true]
    rw [nwaStatesLoop_append a x _ _ 0 m (by omega)]
  · simp only [h6, if_false]

theorem foldl_nwaBatch_congr (d1 d2 : List Nat) (rs : List (List Nat))
    (h : ∀ r ∈ rs, ∀ m, nwaBatchOfRecord d1 m r = nwaBatchOfRecord d2 m r) :
    ∀ m, rs.foldl (nwaBatchOfRecord d1) m = rs.foldl (nwaBatchOfRecord d2) m := by
  induction rs with
  | nil => intro m; rfl
  | cons r rs ih =>
    intro m
    rw [List.foldl_cons, List.foldl_cons, h r (List.mem_cons_self _ _) m]
    exact ih (fun x hx => h x (List.mem_cons_of_mem _ hx)) _

theorem foldl_nwaBatch_no_batch (d : List Nat) (rs : List (List Nat))
    (h : ∀ r ∈ rs, r.head? ≠ some 6) :
    ∀ m, rs.foldl (nwaBatchOfRecord d) m = m := by
  induction rs with
  | nil => intro m; rfl
  | cons r rs ih =>
    intro m
    have h6 := h r (List.mem_cons_self _ _)
    rw [List.foldl_cons]
    have e : nwaBatchOfRecord d m r = m := by
      simp only [nwaBatchOfRecord, h6, if_false]
    rw [e]
    exact ih (fun x hx => h x (List.mem_cons_of_mem _ hx)) m

theorem eventsOfRecords_reserved (only : Bool) (res : PackageEvents)
    (rsA rsB : List (List Nat)) (R : List Nat) (hA : ∀ r ∈ rsA, IsRecord r)
    (hB : ∀ r ∈ rsB, r.head? ≠ some 6) (hR : R.head? = some 2 ∨ R.head? = some 3) :
    eventsOfRecords only (rsA.flatten ++ R ++ rsB.flatten) res (rsA ++ [R] ++ rsB)
      = eventsOfRecords only (rsA.flatten ++ rsB.flatten) res (rsA ++ rsB) := by
  have h1 : R.head? ≠ some 1 := by rcases hR with h | h <;> rw [h] <;> decide
  have h4 : R.head? ≠ some 4 := by rcases hR with h | h <;> rw [h] <;> decide
  have h5 : R.head? ≠ some 5 := by rcases hR with h | h <;> rw [h] <;> decide
  have h6 : R.head? ≠ some 6 := by rcases hR with h | h <;> rw [h] <;> decide
  have h7 : R.head? ≠ some 7 := by rcases hR with h | h <;> rw [h] <;> decide
  have h8 : R.head? ≠ some 8 := by rcases hR with h | h <;> rw [h] <;> decide
  have s1 : ∀ m, applyWrite stateOfRecord m R = m := by
    intro m; simp only [applyWrite, stateOfRecord, h8, if_false]
  have s2 : ∀ m, applyWrite failureOfRecord m R = m := by
    intro m; simp only [applyWrite, failureOfRecord, h1, if_false]
  have s3 : ∀ m, applyWrite accidentOfRecord m R = m := by
    intro m; simp only [applyWrite, accidentOfRecord, h7, if_false]
  have s4 : ∀ m, applyWrite fpOfRecord m R = m := by
    intro m; simp only [applyWrite, fpOfRecord, h4, if_false]
  have s5 : ∀ m, applyWrite nwaLeaveOfRecord m R = m := by
    intro m; simp only [applyWrite, nwaLeaveOfRecord, h5, if_false]
  have nR : ∀ d m, nwaBatchOfRecord d m R = m := by
    intro d m; simp only [nwaBatchOfRecord, h6, if_false]
  have nB : ∀ d m, rsB.foldl (nwaBatchOfRecord d) m = m :=
    fun d m => foldl_nwaBatch_no_batch d rsB hB m
  have nA : ∀ x m, rsA.foldl (nwaBatchOfRecord (rsA.flatten ++ x)) m
      = rsA.foldl (nwaBatchOfRecord rsA.flatten) m := by
    intro x m
    apply foldl_nwaBatch_congr
    intro r hr m1
    exact nwaBatchOfRecord_append rsA.flatten x r m1 (hA r hr) (length_le_flatten rsA r hr)
  have nA1 := nA (R ++ rsB.flatten)
  have nA2 := nA rsB.flatten
  rw [List.append_assoc rsA.flatten R rsB.flatten]
  simp only [eventsOfRecords, List.foldl_append, List.foldl_cons, List.foldl_nil, s1, s2, s3, s4,
    s5, nR, nB, nA1, nA2]

/-- C29. Reserved records are skipped without effect. Let a payload `A ++ B`
be accepted by `ParseEventsPackage` under format 1, 8 or 9, where `A` is a
concatenation of whole records and `B` holds no tag-6 record. Then the payload
with 13 bytes starting with tag 2, or 18 bytes starting with tag 3, inserted
between `A` and `B` is accepted as well and decodes to the same aggregate. -/
theorem reserved_records_skipped (p : DataPackage)
    (hf : p.Format = 1 ∨ p.Format = 8 ∨ p.Format = 9) (A B R : List Nat)
    (hA : SplitsIntoRecords A) (ev : PackageEvents)
    (hacc : { p with Data := A ++ B }.ParseEventsPackage = Outcome.ret (some ev) none)
    (hB : ∀ rs : List (List Nat), (∀ r ∈ rs, IsRecord r) → B = rs.flatten →
      ∀ r ∈ rs, r.head? ≠ some 6)
    (hR : (R.length = 13 ∧ R.head? = some 2) ∨ (R.length = 18 ∧ R.head? = some 3)) :
    { p with Data := A ++ R ++ B }.ParseEventsPackage = Outcome.ret (some ev) none := by
  obtain ⟨rs, hrs, hd⟩ := ParseEventsPackage_accepted_records { p with Data := A ++ B } hf ev hacc
  have hAB : SplitsIntoRecords (A ++ B) := by
    have := flatten_records_splits rs hrs
    rw [← hd] at this
    exact this
  have hBs : SplitsIntoRecords B := splits_suffix A hA B hAB
  obtain ⟨rsA, hrsA, hAeq⟩ := splits_records A hA
  obtain ⟨rsB, hrsB, hBeq⟩ := splits_records B hBs
  have hB6 := hB rsB hrsB hBeq
  have hRrec : IsRecord R := by
    unfold IsRecord
    rcases hR with ⟨hl, hh⟩ | ⟨hl, hh⟩
    · rw [recordLength_of_head R 2 hh, hl]; rfl
    · rw [recordLength_of_head R 3 hh, hl]; rfl
  have hRh : R.head? = some 2 ∨ R.head? = some 3 := by
    rcases hR with ⟨_, hh⟩ | ⟨_, hh⟩
    · exact Or.inl hh
    · exact Or.inr hh
  have hrs1 : ∀ r ∈ rsA ++ rsB, IsRecord r := by
    intro r hr
    rcases List.mem_append.mp hr with h | h
    · exact hrsA r h
    · exact hrsB r h
  have hrs2 : ∀ r ∈ rsA ++ [R] ++ rsB, IsRecord r := by
    intro r hr
    rcases List.mem_append.mp hr with h | h
    · rcases List.mem_append.mp h with h | h
      · exact hrsA r h
      · rw [List.mem_singleton.mp h]; exact hRrec
    · exact hrsB r h
  have e1 := ParseEventsPackage_records { p with Data := A ++ B } hf (rsA ++ rsB) hrs1
    (by simp only [List.flatten_append, hAeq, hBeq])
  have e2 := ParseEventsPackage_records { p with Data := A ++ R ++ B } hf (rsA ++ [R] ++ rsB) hrs2
    (by simp only [List.flatten_append, List.flatten_cons, List.flatten_nil, List.append_nil,
      hAeq, hBeq])
  rw [e1] at hacc
  simp only [Outcome.ret.injEq, Option.some.injEq, and_true] at hacc
  rw [e2, ← hacc]
  simp only [hAeq, hBeq]
  rw [eventsOfRecords_reserved _ _ rsA rsB R hrsA hB6 hRh]

theorem no_batch_of_single (b : List Nat) (hb : IsRecord b) (h6 : b.head? ≠ some 6) :
    ∀ rs : List (List Nat), (∀ r ∈ rs, IsRecord r) → b = rs.flatten →
      ∀ r ∈ rs, r.head? ≠ some 6 := by
  intro rs hrs hflat
  cases rs with
  | nil => intro r hr; cases hr
  | cons x xs =>
    have hx : IsRecord x := hrs x (List.mem_cons_self _ _)
    rw [List.flatten_cons] at hflat
    have hL : recordLength b = some b.length := hb
    rw [hflat, recordLength_append x xs.flatten hx, List.length_append] at hL
    simp only [Option.some.injEq] at hL
    have hnil : ∀ y ∈ xs, False := by
      intro y hy
      have h7 := recordLength_ge y y.length (hrs y (List.mem_cons_of_mem _ hy))
      have := length_le_flatten xs y hy
      omega
    have hxs : xs.flatten = [] := List.eq_nil_of_length_eq_zero (by omega)
    rw [hxs, List.append_nil] at hflat
    intro r hr
    rcases List.mem_cons.mp hr with h | h
    · rw [h, ← hflat]; exact h6
    · exact absurd h (hnil r)

theorem reserved_records_skipped_witness :
    SplitsIntoRecords [8, 100, 0, 0, 0, 1, 0] ∧
    { stateAndFailurePackage with
        Data := [8, 100, 0, 0, 0, 1, 0] ++
          [1, 100, 0, 0, 0, 1, 0, 0, 0, 1, 1, 2, 3, 4, 5, 6, 7, 8] }.ParseEventsPackage
      = Outcome.ret (some stateAndFailureEvents) none ∧
    { stateAndFailurePackage with
        Data := [8, 100, 0, 0, 0, 1, 0] ++ [2, 9, 9, 9, 9, 9, 9, 9, 9, 9, 9, 9, 9] ++
          [1, 100, 0, 0, 0, 1, 0, 0, 0, 1, 1, 2, 3, 4, 5, 6, 7, 8] }.ParseEventsPackage
      = Outcome.ret (some stateAndFailureEvents) none :=
  ⟨SplitsIntoRecords.cons [8, 100, 0, 0, 0, 1, 0] [] (by decide) SplitsIntoRecords.nil,
    by decide,
    reserved_records_skipped stateAndFailurePackage (Or.inl rfl) [8, 100, 0, 0, 0, 1, 0]
      [1, 100, 0, 0, 0, 1, 0, 0, 0, 1, 1, 2, 3, 4, 5, 6, 7, 8]
      [2, 9, 9, 9, 9, 9, 9, 9, 9, 9, 9, 9, 9]
      (SplitsIntoRecords.cons [8, 100, 0, 0, 0, 1, 0] [] (by decide) SplitsIntoRecords.nil)
      stateAndFailureEvents (by decide)
      (no_batch_of_single [1, 100, 0, 0, 0, 1, 0, 0, 0, 1, 1, 2, 3, 4, 5, 6, 7, 8] (by decide)
        (by decide))
      (Or.inl ⟨rfl, rfl⟩)⟩

/-! ## The time codec -/

theorem GetTimeFromUnixMicroseconds_of_fits (m : Nat) (h : m * 1000 < 2 ^ 63) :
    GetTimeFromUnixMicroseconds m = (m : Int) * 1000 := by
  unfold GetTimeFromUnixMicroseconds toInt64
  have h1 : m * 1000 % 2 ^ 64 % 2 ^ 64 = m * 1000 := by omega
  have h2 : m * 1000 % 2 ^ 64 % 2 ^ 64 < 2 ^ 63 := by omega
  rw [if_pos h2, h1]
  push_cast
  rfl

/-- C32, as the code has it. Time codec round trip: for every wire timestamp
`m` whose nanosecond count `m * 1000` fits a signed 64-bit integer,
`GetUnixMicrosecondsFromTime (GetTimeFromUnixMicroseconds m) = m`, the time
value being its signed 64-bit nanosecond count. -/
theorem time_roundtrip (m : Nat) (h : m * 1000 < 2 ^ 63) :
    GetUnixMicrosecondsFromTime (GetTimeFromUnixMicroseconds m) = m := by
  rw [GetTimeFromUnixMicroseconds_of_fits m h]
  unfold GetUnixMicrosecondsFromTime ofInt64
  rw [Int.mul_tdiv_cancel _ (by norm_num)]
  have h0 : (0 : Int) ≤ (m : Int) := Int.ofNat_nonneg m
  have hlt : (m : Int) < 2 ^ 64 := by omega
  rw [Int.emod_eq_of_lt h0 hlt]
  exact Int.toNat_ofNat m

theorem time_roundtrip_witness :
    1700000000000000 * 1000 < 2 ^ 63 ∧
      GetUnixMicrosecondsFromTime (GetTimeFromUnixMicroseconds 1700000000000000)
        = 1700000000000000 :=
  ⟨by norm_num, time_roundtrip 1700000000000000 (by norm_num)⟩

/-- C32 as stated fails: the 64-bit timestamp 9223372036854776 has a
nanosecond count of at least `2 ^ 63`, which wraps to a negative `int64`, and
the round trip gives 18437520701672696841; the timestamp `2 ^ 63` gives 0. -/
theorem time_roundtrip_wraps :
    (9223372036854776 : Nat) < 2 ^ 64 ∧
    GetUnixMicrosecondsFromTime (GetTimeFromUnixMicroseconds 9223372036854776)
      = 18437520701672696841 ∧
    GetUnixMicrosecondsFromTime (GetTimeFromUnixMicroseconds 9223372036854776)
      ≠ 9223372036854776 ∧
    GetUnixMicrosecondsFromTime (GetTimeFromUnixMicroseconds (2 ^ 63)) = 0 := by
  decide

/-! ## Snapshot and event stream on discrete states -/

theorem recordsOfSize_cons (n : Nat) (hn : 0 < n) (data : List Nat) (k : Nat)
    (hl : data.length = (k + 1) * n) :
    recordsOfSize n data = data.take n :: recordsOfSize n (data.drop n) := by
  have h1 : data.length / n = k + 1 := by rw [hl]; exact Nat.mul_div_cancel _ hn
  have h2 : (data.drop n).length / n = k := by
    rw [List.length_drop, hl]
    have e : (k + 1) * n - n = k * n := by rw [Nat.add_mul, Nat.one_mul, Nat.add_sub_cancel]
    rw [e]
    exact Nat.mul_div_cancel _ hn
  unfold recordsOfSize
  rw [h1, h2, List.range_succ_eq_map, List.map_cons, List.map_map]
  congr 1
  · rw [Nat.zero_mul, List.drop_zero]
  · apply List.map_congr_left
    intro i _
    simp only [Function.comp, Nat.succ_eq_add_one]
    rw [drop_drop_add, Nat.add_mul, Nat.one_mul, Nat.add_comm]

theorem flatten_recordsOfSize (n : Nat) (hn : 0 < n) :
    ∀ (k : Nat) (data : List Nat), data.length = k * n →
      (recordsOfSize n data).flatten = data := by
  intro k
  induction k with
  | zero =>
    intro data hl
    rw [Nat.zero_mul] at hl
    have hd : data = [] := List.eq_nil_of_length_eq_zero hl
    rw [hd]
    simp only [recordsOfSize, List.length_nil, Nat.zero_div, List.range_zero, List.map_nil,
      List.flatten_nil]
  | succ k ih =>
    intro data hl
    rw [recordsOfSize_cons n hn data k hl, List.flatten_cons,
      ih (data.drop n) (by
        rw [List.length_drop, hl, Nat.add_mul, Nat.one_mul, Nat.add_sub_cancel]),
      List.take_append_drop]

theorem foldl_congr_mem {α β : Type} (f g : α → β → α) (l : List β)
    (h : ∀ x ∈ l, ∀ a, f a x = g a x) : ∀ a, l.foldl f a = l.foldl g a := by
  induction l with
  | nil => intro a; rfl
  | cons x xs ih =>
    intro a
    rw [List.foldl_cons, List.foldl_cons, h x (List.mem_cons_self _ _) a]
    exact ih (fun y hy => h y (List.mem_cons_of_mem _ hy)) _

theorem foldl_fixed {α β : Type} (f : α → β → α) (l : List β)
    (h : ∀ x ∈ l, ∀ a, f a x = a) : ∀ a, l.foldl f a = a := by
  induction l with
  | nil => intro a; rfl
  | cons x xs ih =>
    intro a
    rw [List.foldl_cons, h x (List.mem_cons_self _ _) a]
    exact ih (fun y hy => h y (List.mem_cons_of_mem _ hy)) a

theorem ParseFullObjectStatePackage_ok (p : DataPackage) (m : GoMap Nat Nat)
    (h : p.ParseFullObjectStatePackage = Outcome.ret (some m) none) :
    p.Data.length % 7 = 0 ∧
    (∀ j, j < p.Data.length / 7 → p.Data.getD (j * 7) 0 = 8) ∧
    m = (recordsOfSize 7 p.Data).foldl (applyWrite snapshotStateOfRecord) GoMap.empty := by
  by_cases hf : p.Format = 6
  swap
  · exfalso
    have hr : p.ParseFullObjectStatePackage
        = Outcome.ret none (some ParseError.expectedFullStateFormat) := by
      simp only [DataPackage.ParseFullObjectStatePackage, PackageFormatFullObjectStates, ne_eq,
        hf, not_false_eq_true, if_true]
    rw [hr] at h
    cases h
  by_cases hm : p.Data.length % 7 = 0
  swap
  · exfalso
    have hr : p.ParseFullObjectStatePackage = Outcome.ret none (some ParseError.eventsDataSize) := by
      simp only [DataPackage.ParseFullObjectStatePackage, PackageFormatFullObjectStates, ne_eq,
        hf, not_true_eq_false, if_false, hm, not_false_eq_true, if_true]
    rw [hr] at h
    cases h
  have hr : p.ParseFullObjectStatePackage
      = fullObjectStatesLoop p.Data (p.Data.length / 7) 0 GoMap.empty := by
    simp only [DataPackage.ParseFullObjectStatePackage, PackageFormatFullObjectStates, ne_eq,
      hf, not_true_eq_false, if_false, hm]
  obtain ⟨hok, hbad⟩ := fullObjectStatesLoop_spec p.Data (p.Data.length / 7) 0 GoMap.empty
    (by have := Nat.div_mul_le_self p.Data.length 7; omega)
  rw [← hr] at hok hbad
  have hall : ∀ j, 0 ≤ j → j < 0 + p.Data.length / 7 → p.Data.getD (j * 7) 0 = 8 := by
    intro j h0 hj
    by_contra hne
    obtain ⟨e, he⟩ := hbad ⟨j, h0, hj, hne⟩
    rw [he] at h
    cases h
  have hres := hok hall
  rw [← foldl_recordsOfSize 7 p.Data (applyWrite snapshotStateOfRecord)] at hres
  rw [hres] at h
  simp only [Outcome.ret.injEq, Option.some.injEq, and_true] at h
  refine ⟨hm, fun j hj => hall j (Nat.zero_le _) (by omega), h.symm⟩

theorem stateOfRecord_eq_snapshot (r : List Nat) (hl : r.length = 7) (hh : r.head? = some 8) :
    stateOfRecord r = snapshotStateOfRecord r := by
  unfold stateOfRecord snapshotStateOfRecord
  rw [if_pos hh, getObjectStateEvent_eq _ (by rw [List.length_drop]; omega), drop_drop_add]

theorem eventsOfRecords_states (only : Bool) (data : List Nat) (rs : List (List Nat))
    (hrs : ∀ r ∈ rs, r.length = 7 ∧ r.head? = some 8) :
    eventsOfRecords only data PackageEvents.empty rs =
      { ObjectStates := rs.foldl (applyWrite snapshotStateOfRecord) GoMap.empty
        ObjectFailuresChangeState := GoMap.empty
        ObjectAccidentsChangeState := GoMap.empty
        ObjectFpChangeState := GoMap.empty
        ObjectNwaChangeState := GoMap.empty
        ObjectNwaStateLeaveEnter := GoMap.empty } := by
  have s1 : rs.foldl (applyWrite stateOfRecord) GoMap.empty
      = rs.foldl (applyWrite snapshotStateOfRecord) GoMap.empty := by
    apply foldl_congr_mem
    intro r hr a
    simp only [applyWrite, stateOfRecord_eq_snapshot r (hrs r hr).1 (hrs r hr).2]
  have s2 : ∀ a, rs.foldl (applyWrite failureOfRecord) a = a := by
    apply foldl_fixed
    intro r hr a
    simp only [applyWrite, failureOfRecord, (hrs r hr).2, Option.some.injEq, Nat.reduceEqDiff,
      if_false]
  have s3 : ∀ a, rs.foldl (applyWrite accidentOfRecord) a = a := by
    apply foldl_fixed
    intro r hr a
    simp only [applyWrite, accidentOfRecord, (hrs r hr).2, Option.some.injEq, Nat.reduceEqDiff,
      if_false]
  have s4 : ∀ a, rs.foldl (applyWrite fpOfRecord) a = a := by
    apply foldl_fixed
    intro r hr a
    simp only [applyWrite, fpOfRecord, (hrs r hr).2, Option.some.injEq, Nat.reduceEqDiff,
      if_false]
  have s5 : ∀ a, rs.foldl (applyWrite nwaLeaveOfRecord) a = a := by
    apply foldl_fixed
    intro r hr a
    simp only [applyWrite, nwaLeaveOfRecord, (hrs r hr).2, Option.some.injEq, Nat.reduceEqDiff,
      if_false]
  have s6 : ∀ a, rs.foldl (nwaBatchOfRecord data) a = a := by
    apply foldl_nwaBatch_no_batch
    intro r hr
    rw [(hrs r hr).2]
    decide
  simp only [eventsOfRecords, s1, s2, s3, s4, s5, s6, PackageEvents.empty, ite_self]

/-- C31. Snapshot and event-stream decoders agree on discrete states. For
every payload on which `ParseFullObjectStatePackage` succeeds under format 6,
`ParseEventsPackage` on the same payload under format 8, and under format 1,
succeeds too; its `ObjectStates` map is the map of the snapshot decoder and
its other five maps are empty. -/
theorem snapshot_agrees_with_event_stream (p : DataPackage) (m : GoMap Nat Nat)
    (h : { p with Format := 6 }.ParseFullObjectStatePackage = Outcome.ret (some m) none) :
    { p with Format := 8 }.ParseEventsPackage = Outcome.ret (some
      { ObjectStates := m
        ObjectFailuresChangeState := GoMap.empty
        ObjectAccidentsChangeState := GoMap.empty
        ObjectFpChangeState := GoMap.empty
        ObjectNwaChangeState := GoMap.empty
        ObjectNwaStateLeaveEnter := GoMap.empty }) none ∧
    { p with Format := 1 }.ParseEventsPackage = Outcome.ret (some
      { ObjectStates := m
        ObjectFailuresChangeState := GoMap.empty
        ObjectAccidentsChangeState := GoMap.empty
        ObjectFpChangeState := GoMap.empty
        ObjectNwaChangeState := GoMap.empty
        ObjectNwaStateLeaveEnter := GoMap.empty }) none := by
  obtain ⟨hm, hall, hmeq⟩ := ParseFullObjectStatePackage_ok _ m h
  simp only [] at hm hall hmeq
  have hk : p.Data.length = p.Data.length / 7 * 7 := by omega
  have hflat := flatten_recordsOfSize 7 (by omega) (p.Data.length / 7) p.Data hk
  have hrec : ∀ r ∈ recordsOfSize 7 p.Data, r.length = 7 ∧ r.head? = some 8 := by
    intro r hr
    obtain ⟨j, hj, rfl⟩ := (mem_recordsOfSize 7 p.Data r).mp hr
    constructor
    · rw [List.length_take, List.length_drop]; omega
    · rw [head?_take_drop p.Data (j * 7) 7 (by omega) (by omega), hall j hj]
  have hIs : ∀ r ∈ recordsOfSize 7 p.Data, IsRecord r := by
    intro r hr
    unfold IsRecord
    rw [recordLength_of_head r 8 (hrec r hr).2, (hrec r hr).1]
    rfl
  have e8 := ParseEventsPackage_records { p with Format := 8 } (Or.inr (Or.inl rfl))
    (recordsOfSize 7 p.Data) hIs hflat.symm
  have e1 := ParseEventsPackage_records { p with Format := 1 } (Or.inl rfl)
    (recordsOfSize 7 p.Data) hIs hflat.symm
  rw [e8, e1, eventsOfRecords_states _ _ _ hrec, eventsOfRecords_states _ _ _ hrec, ← hmeq]
  exact ⟨rfl, rfl⟩

theorem snapshot_agrees_with_event_stream_witness :
    { fullStatesPackage with Format := 6 }.ParseFullObjectStatePackage
      = Outcome.ret (some ⟨[(100, 2), (200, 1)]⟩) none ∧
    { fullStatesPackage with Format := 8 }.ParseEventsPackage = Outcome.ret (some
      { ObjectStates := ⟨[(100, 2), (200, 1)]⟩
        ObjectFailuresChangeState := GoMap.empty
        ObjectAccidentsChangeState := GoMap.empty
        ObjectFpChangeState := GoMap.empty
        ObjectNwaChangeState := GoMap.empty
        ObjectNwaStateLeaveEnter := GoMap.empty }) none ∧
    { fullStatesPackage with Format := 1 }.ParseEventsPackage = Outcome.ret (some
      { ObjectStates := ⟨[(100, 2), (200, 1)]⟩
        ObjectFailuresChangeState := GoMap.empty
        ObjectAccidentsChangeState := GoMap.empty
        ObjectFpChangeState := GoMap.empty
        ObjectNwaChangeState := GoMap.empty
        ObjectNwaStateLeaveEnter := GoMap.empty }) none :=
  ⟨by decide, snapshot_agrees_with_event_stream fullStatesPackage ⟨[(100, 2), (200, 1)]⟩
    (by decide)⟩

end Core
